import Mathlib

/-!
# Benthos message plane: fan-out broker, stack buffer, stream manager API

A shallow embedding of

* `lib/broker/fan_out.go`   (namespace `Broker`),
* `lib/buffer/stack_buffer.go` (namespace `Buffer`),
* `lib/stream/manager/api.go` (namespace `Manager`).

Each goroutine loop is embedded as a deterministic step function over a
program counter.  Everything the loop cannot decide on its own (which case of
a `select` fires, the value received from a channel, the value read from the
atomic `running` flag, the result of a call into a collaborator) is supplied
by an `Event`; everything the loop does to the outside (channel sends and
receives, closes, collaborator calls) is recorded as an `Action`.  A run over
a finite list of events is a finite prefix of the behaviour of the goroutine;
when the events end the goroutine is waiting at the program counter reached.
-/

namespace Benthos

/-- Modelled from the spec: the error sentinels of `lib/types` and of the
stream manager (the files that declare them are not part of the sources);
`other` stands for every error value that is not one of the sentinels. -/
inductive Err
  | ErrTypeClosed
  | ErrAlreadyStarted
  | ErrTimeout
  | ErrStreamExists
  | ErrStreamDoesNotExist
  | other (code : Nat)
  deriving DecidableEq, Repr

/-- Modelled from the spec: `types.Response`, a single value carrying either
success (`Error() == nil`) or a failure reason. -/
structure Response where
  err : Option Err
  deriving DecidableEq, Repr

/-- The `res.Error()` accessor. -/
def Response.Error (res : Response) : Option Err := res.err

/-- The constructor `types.NewSimpleResponse(err)`. -/
def NewSimpleResponse (err : Option Err) : Response := ⟨err⟩

/-- Channel identities.  Every `make(chan ...)` of the sources yields a
channel distinct from all others; `ext` are the channels created by the
peers of the component. -/
inductive Chan
  | outputTs (i : Nat)
  | outputRes (i : Nat)
  | closedChan
  | closeChan
  | messagesOut
  | responsesOut
  | errorsChan
  | ext (id : Nat)
  deriving DecidableEq, Repr

namespace Broker

/-- Modelled from the spec: one part of a message, an opaque byte sequence
plus a string to string metadata map. -/
structure Part where
  data : List Nat
  metadata : List (String × String)
  deriving DecidableEq, Repr

/-- Modelled from the spec: `types.Message`, an ordered sequence of parts. -/
structure Message where
  parts : List Part
  deriving DecidableEq, Repr

/-- Modelled from the spec: `ShallowCopy` duplicates the parts slice and
shares the byte buffers, so the copy has the same parts in the same order. -/
def Message.ShallowCopy (m : Message) : Message := { parts := m.parts.map id }

/-- The pair `types.Transaction` of a payload and a response sink. -/
structure Transaction where
  Payload : Message
  ResponseChan : Chan
  deriving DecidableEq, Repr

/-- The constructor `types.NewTransaction(payload, resChan)`. -/
def NewTransaction (payload : Message) (resChan : Chan) : Transaction :=
  { Payload := payload, ResponseChan := resChan }

/-- An output as seen by the broker: the result of its `StartReceiving`. -/
structure Output where
  StartReceiving : Chan → Option Err

/-- The fields of `FanOut` that the code reads (logger, stats and throttle
are collaborators whose calls appear as actions). -/
structure FanOut where
  running : Int
  transactions : Option Chan
  outputTsChans : List Chan
  outputResChans : List Chan
  outputs : List Output
  outputNs : List Nat
  closedChan : Chan
  closeChan : Chan

/-- The body of the `for i := range o.outputTsChans` loop of `NewFanOut`
(lines 74-81), run for the indices still to visit. -/
def NewFanOut.wire : List Nat → FanOut → Except Err FanOut
  | [], o => .ok o
  | i :: is, o =>
    let o1 : FanOut :=
      { o with
        outputNs := o.outputNs ++ [i]
        outputTsChans := o.outputTsChans ++ [Chan.outputTs i]
        outputResChans := o.outputResChans ++ [Chan.outputRes i] }
    match o1.outputs[i]? with
    | none => .error (Err.other 0)
    | some out =>
      match out.StartReceiving (Chan.outputTs i) with
      | some err => .error err
      | none => NewFanOut.wire is o1

/-- `NewFanOut` (lines 57-83): one private transaction channel and one
private response channel per output, `outputNs = [0, ..., N-1]`, and the
first failing `StartReceiving` aborts the construction. -/
def NewFanOut (outputs : List Output) : Except Err FanOut :=
  NewFanOut.wire (List.range outputs.length)
    { running := 1
      transactions := none
      outputTsChans := []
      outputResChans := []
      outputs := outputs
      outputNs := []
      closedChan := Chan.closedChan
      closeChan := Chan.closeChan }

/-- The three counters of `loop` (lines 110-112). -/
inductive Counter
  | mMsgsRcvd
  | mOutputErr
  | mMsgsSnt
  deriving DecidableEq, Repr

/-- What the environment decides for `FanOut.loop`. -/
inductive Event
  /-- the value read by `atomic.LoadInt32(&o.running)` at line 115 -/
  | load (running : Int)
  /-- line 120 receives a transaction, `open = true` -/
  | transaction (ts : Transaction)
  /-- line 120 finds the upstream channel closed, `open = false` -/
  | inputClosed
  /-- the `case <-o.closeChan` of the current select fires -/
  | closeSignal
  /-- the send case of the current select fires (the peer took the value) -/
  | accepted
  /-- line 144 receives a response from the output being collected -/
  | response (res : Response)
  /-- the value returned by `o.throt.Retry()` at line 149 -/
  | retry (ok : Bool)
  deriving DecidableEq, Repr

/-- What `FanOut.loop` does to the outside. -/
inductive Action
  | recvTransaction (ts : Transaction)
  | incr (c : Counter)
  | sendTransaction (c : Chan) (ts : Transaction)
  | recvResponse (c : Chan) (res : Response)
  | errorf (err : Option Err)
  | throtReset
  | sendResponse (c : Chan) (res : Response)
  | close (c : Chan)
  deriving DecidableEq, Repr

/-- Program points of `FanOut.loop` at which the goroutine waits for the
environment. -/
inductive Pc
  /-- line 115, about to read `o.running` -/
  | loopHead
  /-- line 119, select on `o.transactions` and `o.closeChan` -/
  | recv
  /-- line 135, select sending to the head of `todo`; `targets` is the
  `outputTargets` of this round, `todo` what is left of the range loop -/
  | dispatch (ts : Transaction) (targets : List Nat) (todo : List Nat)
  /-- line 143, select receiving from the head of `todo` -/
  | collect (ts : Transaction) (todo : List Nat) (newTargets : List Nat)
  /-- line 149, inside `o.throt.Retry()`; `todo` is the rest of the range loop -/
  | retry (ts : Transaction) (todo : List Nat) (newTargets : List Nat)
  /-- line 162, select sending the response upstream -/
  | respond (ts : Transaction)
  /-- the function has returned and its deferred closure has run -/
  | returned
  deriving DecidableEq, Repr

/-- The deferred closure of `loop` (lines 102-107). -/
def FanOut.deferred (o : FanOut) : List Action :=
  o.outputTsChans.map Action.close ++ [Action.close o.closedChan]

/-- Control at the test of `for len(outputTargets) > 0` (line 130): another
round, or fall through to the select of line 162. -/
def FanOut.rounds (ts : Transaction) (outputTargets : List Nat) : Pc :=
  if outputTargets.length > 0 then Pc.dispatch ts outputTargets outputTargets
  else Pc.respond ts

/-- Control at the head of the collecting range loop (line 142) with `todo`
left to visit; when the range is exhausted, line 160 and back to line 130. -/
def FanOut.collectNext (ts : Transaction) (todo newTargets : List Nat) : Pc :=
  match todo with
  | [] => FanOut.rounds ts newTargets
  | _ :: _ => Pc.collect ts todo newTargets

/-- Control at the head of the dispatching range loop (line 131) with `todo`
left to visit; when the range is exhausted, line 141 and the collecting loop
over the same `outputTargets`. -/
def FanOut.dispatchNext (ts : Transaction) (targets todo : List Nat) : Pc :=
  match todo with
  | [] => FanOut.collectNext ts targets []
  | _ :: _ => Pc.dispatch ts targets todo

/-- One step of `FanOut.loop` (lines 101-168): from a program point and the
choice of the environment to the next program point and the actions performed
on the way.  `none`: the event cannot occur at this program point. -/
def FanOut.step (o : FanOut) (pc : Pc) (ev : Event) : Option (Pc × List Action) :=
  match pc with
  | Pc.loopHead =>
    match ev with
    | Event.load running =>
      if running = 1 then some (Pc.recv, []) else some (Pc.returned, o.deferred)
    | _ => none
  | Pc.recv =>
    match ev with
    | Event.transaction ts =>
      some (FanOut.rounds ts o.outputNs,
        [Action.recvTransaction ts, Action.incr Counter.mMsgsRcvd])
    | Event.inputClosed => some (Pc.returned, o.deferred)
    | Event.closeSignal => some (Pc.returned, o.deferred)
    | _ => none
  | Pc.dispatch ts targets todo =>
    match todo with
    | [] => none
    | i :: rest =>
      match o.outputTsChans[i]?, o.outputResChans[i]? with
      | some c, some r =>
        match ev with
        | Event.accepted =>
          some (FanOut.dispatchNext ts targets rest,
            [Action.sendTransaction c (NewTransaction ts.Payload.ShallowCopy r)])
        | Event.closeSignal => some (Pc.returned, o.deferred)
        | _ => none
      | _, _ => none
  | Pc.collect ts todo newTargets =>
    match todo with
    | [] => none
    | i :: rest =>
      match o.outputResChans[i]? with
      | some r =>
        match ev with
        | Event.response res =>
          if res.Error ≠ none then
            some (Pc.retry ts rest (newTargets ++ [i]),
              [Action.recvResponse r res, Action.errorf res.Error,
               Action.incr Counter.mOutputErr])
          else
            some (FanOut.collectNext ts rest newTargets,
              [Action.recvResponse r res, Action.throtReset,
               Action.incr Counter.mMsgsSnt])
        | Event.closeSignal => some (Pc.returned, o.deferred)
        | _ => none
      | none => none
  | Pc.retry ts todo newTargets =>
    match ev with
    | Event.retry ok =>
      if !ok then some (Pc.returned, o.deferred)
      else some (FanOut.collectNext ts todo newTargets, [])
    | _ => none
  | Pc.respond ts =>
    match ev with
    | Event.accepted =>
      some (Pc.loopHead, [Action.sendResponse ts.ResponseChan (NewSimpleResponse none)])
    | Event.closeSignal => some (Pc.returned, o.deferred)
    | _ => none
  | Pc.returned => none

/-- Running the loop from a program point over a list of environment choices:
the program point reached and the actions performed, in order. -/
def FanOut.run (o : FanOut) : Pc → List Event → Option (Pc × List Action)
  | pc, [] => some (pc, [])
  | pc, ev :: evs =>
    match o.step pc ev with
    | none => none
    | some (pc1, out) =>
      match FanOut.run o pc1 evs with
      | none => none
      | some (pc2, tr) => some (pc2, out ++ tr)

/-- `FanOut.loop` as started by `go o.loop()`: control enters at line 115. -/
def FanOut.loop (o : FanOut) (evs : List Event) : Option (Pc × List Action) :=
  o.run Pc.loopHead evs

/-- Transactions sent on channel `c`, in order. -/
def sentOn (c : Chan) : List Action → List Transaction
  | [] => []
  | Action.sendTransaction d ts :: tr => if d = c then ts :: sentOn c tr else sentOn c tr
  | _ :: tr => sentOn c tr

/-- Responses received from channel `c`, in order. -/
def responsesOn (c : Chan) : List Action → List Response
  | [] => []
  | Action.recvResponse d res :: tr =>
    if d = c then res :: responsesOn c tr else responsesOn c tr
  | _ :: tr => responsesOn c tr

/-- Responses sent upstream with the sink they were sent on, in order. -/
def upstream : List Action → List (Chan × Response)
  | [] => []
  | Action.sendResponse c res :: tr => (c, res) :: upstream tr
  | _ :: tr => upstream tr

/-- Channels closed, in order. -/
def closes : List Action → List Chan
  | [] => []
  | Action.close c :: tr => c :: closes tr
  | _ :: tr => closes tr

/-- Transactions received from upstream, in order. -/
def received : List Action → List Transaction
  | [] => []
  | Action.recvTransaction ts :: tr => ts :: received tr
  | _ :: tr => received tr

/-- What `NewFanOut` establishes for `N` outputs: the index list and the
private channels of every output. -/
structure Wired (o : FanOut) (N : Nat) : Prop where
  ns : o.outputNs = List.range N
  tsChans : o.outputTsChans = (List.range N).map Chan.outputTs
  resChans : o.outputResChans = (List.range N).map Chan.outputRes
  closed : o.closedChan = Chan.closedChan

/-- All responses of the list are failures. -/
def AllFail (rs : List Response) : Prop := ∀ r ∈ rs, r.Error ≠ none

/-- Bookkeeping of one upstream transaction `ts` over `N` outputs after the
actions `tr`: `A` are the outputs dispatched to and not yet answered, `P` the
outputs that have to be dispatched to (again), every other output has
answered success. -/
def Book (ts : Transaction) (N : Nat) (A P : List Nat) (tr : List Action) : Prop :=
  (A ++ P).Nodup ∧ (∀ i ∈ A ++ P, i < N) ∧
  ∀ i, i < N →
    (∀ tx ∈ sentOn (Chan.outputTs i) tr,
      tx = NewTransaction ts.Payload.ShallowCopy (Chan.outputRes i)) ∧
    (i ∈ P → AllFail (responsesOn (Chan.outputRes i) tr) ∧
      (sentOn (Chan.outputTs i) tr).length = (responsesOn (Chan.outputRes i) tr).length) ∧
    (i ∈ A → AllFail (responsesOn (Chan.outputRes i) tr) ∧
      (sentOn (Chan.outputTs i) tr).length
        = (responsesOn (Chan.outputRes i) tr).length + 1) ∧
    (i ∉ A → i ∉ P → ∃ fs,
      responsesOn (Chan.outputRes i) tr = fs ++ [NewSimpleResponse none] ∧ AllFail fs ∧
      (sentOn (Chan.outputTs i) tr).length = fs.length + 1)

/-- How the bookkeeping sets are read off the program point while the
transaction `ts` is being handled. -/
def PcRel (ts : Transaction) (A P : List Nat) (tr : List Action) : Pc → Prop
  | Pc.loopHead =>
    A = [] ∧ P = [] ∧ upstream tr = [(ts.ResponseChan, NewSimpleResponse none)]
  | Pc.recv => False
  | Pc.dispatch ts1 targets todo =>
    ts1 = ts ∧ todo ≠ [] ∧ targets = A ++ todo ∧ P = todo ∧ upstream tr = []
  | Pc.collect ts1 todo newTargets =>
    ts1 = ts ∧ todo ≠ [] ∧ A = todo ∧ P = newTargets ∧ upstream tr = []
  | Pc.retry ts1 todo newTargets =>
    ts1 = ts ∧ newTargets ≠ [] ∧ A = todo ∧ P = newTargets ∧ upstream tr = []
  | Pc.respond ts1 => ts1 = ts ∧ A = [] ∧ P = [] ∧ upstream tr = []
  | Pc.returned => upstream tr = []

/-- The invariant of the handling of one transaction (lines 129-166). -/
def Inv (ts : Transaction) (N : Nat) (pc : Pc) (tr : List Action) : Prop :=
  ∃ A P, Book ts N A P tr ∧ PcRel ts A P tr pc

/-- An environment choice that belongs to the handling of the current
transaction: anything but the read of `o.running` at the next loop head. -/
def Event.inBody : Event → Bool
  | Event.load _ => false
  | _ => true

/-- An environment choice that cancels the loop: the close signal, or
`Retry` returning false. -/
def Event.cancels : Event → Bool
  | Event.closeSignal => true
  | Event.retry ok => !ok
  | _ => false

/-- The loop is in the dispatch phase (lines 131-140). -/
def Pc.inDispatch : Pc → Bool
  | Pc.dispatch _ _ _ => true
  | _ => false

/-- The loop is in the collect phase, waiting for a response (line 143). -/
def Pc.inCollect : Pc → Bool
  | Pc.collect _ _ _ => true
  | _ => false

/-- The loop is inside `o.throt.Retry()` after a failed response (line 149). -/
def Pc.inRetry : Pc → Bool
  | Pc.retry _ _ _ => true
  | _ => false

/-- An environment choice that makes the loop return wherever it can occur:
`running` read as something other than 1, upstream closed, the close signal,
`Retry` returning false. -/
def Event.stops : Event → Bool
  | Event.load running => running != 1
  | Event.inputClosed => true
  | Event.closeSignal => true
  | Event.retry ok => !ok
  | _ => false

/-- The failure responses among `rs`. -/
def failures (rs : List Response) : List Response :=
  rs.filter (fun r => decide (r.Error ≠ none))

/-- The choices of the environment for one transaction that every output
accepts and answers with success, and whose response upstream takes. -/
def happy (N : Nat) (ts : Transaction) : List Event :=
  [Event.load 1, Event.transaction ts] ++ List.replicate N Event.accepted
    ++ List.replicate N (Event.response (NewSimpleResponse none)) ++ [Event.accepted]

/-- The choices of the environment for a sequence of upstream transactions
each of which every output answers with success. -/
def happySchedule (N : Nat) : List Transaction → List Event
  | [] => []
  | ts :: txs => happy N ts ++ happySchedule N txs

/-- Three outputs whose `StartReceiving` succeeds. -/
def exOutputs : List Output := [⟨fun _ => none⟩, ⟨fun _ => none⟩, ⟨fun _ => none⟩]

/-- The broker `NewFanOut` builds for `exOutputs`. -/
def exFanOut : FanOut :=
  { running := 1
    transactions := none
    outputTsChans := [Chan.outputTs 0, Chan.outputTs 1, Chan.outputTs 2]
    outputResChans := [Chan.outputRes 0, Chan.outputRes 1, Chan.outputRes 2]
    outputs := exOutputs
    outputNs := [0, 1, 2]
    closedChan := Chan.closedChan
    closeChan := Chan.closeChan }

/-- An upstream transaction with a two part payload. -/
def exTs : Transaction :=
  { Payload := { parts := [⟨[104, 105], []⟩, ⟨[33], [("k", "v")]⟩] }
    ResponseChan := Chan.ext 7 }

/-- Output 1 fails twice and then succeeds, outputs 0 and 2 succeed at once,
upstream takes the response. -/
def exRetrySchedule : List Event :=
  [Event.accepted, Event.accepted, Event.accepted,
   Event.response ⟨none⟩, Event.response ⟨some (Err.other 1)⟩, Event.retry true,
   Event.response ⟨none⟩,
   Event.accepted, Event.response ⟨some (Err.other 1)⟩, Event.retry true,
   Event.accepted, Event.response ⟨none⟩,
   Event.accepted]

/-- The actions of the loop under `exRetrySchedule`. -/
def exRetryTrace : List Action :=
  [Action.sendTransaction (Chan.outputTs 0) ⟨exTs.Payload, Chan.outputRes 0⟩,
   Action.sendTransaction (Chan.outputTs 1) ⟨exTs.Payload, Chan.outputRes 1⟩,
   Action.sendTransaction (Chan.outputTs 2) ⟨exTs.Payload, Chan.outputRes 2⟩,
   Action.recvResponse (Chan.outputRes 0) ⟨none⟩, Action.throtReset,
   Action.incr Counter.mMsgsSnt,
   Action.recvResponse (Chan.outputRes 1) ⟨some (Err.other 1)⟩,
   Action.errorf (some (Err.other 1)), Action.incr Counter.mOutputErr,
   Action.recvResponse (Chan.outputRes 2) ⟨none⟩, Action.throtReset,
   Action.incr Counter.mMsgsSnt,
   Action.sendTransaction (Chan.outputTs 1) ⟨exTs.Payload, Chan.outputRes 1⟩,
   Action.recvResponse (Chan.outputRes 1) ⟨some (Err.other 1)⟩,
   Action.errorf (some (Err.other 1)), Action.incr Counter.mOutputErr,
   Action.sendTransaction (Chan.outputTs 1) ⟨exTs.Payload, Chan.outputRes 1⟩,
   Action.recvResponse (Chan.outputRes 1) ⟨none⟩, Action.throtReset,
   Action.incr Counter.mMsgsSnt,
   Action.sendResponse (Chan.ext 7) ⟨none⟩]

/-- The actions of the loop that has received `exTs` and handed it to
output 0. -/
def exCancelTrace : List Action :=
  [Action.recvTransaction exTs, Action.incr Counter.mMsgsRcvd,
   Action.sendTransaction (Chan.outputTs 0) ⟨exTs.Payload, Chan.outputRes 0⟩]

/-- A choice of the environment on the path where every output answers
success: `running` read as 1, a transaction received, a send accepted, a
success response. -/
def Event.happyPath : Event → Bool
  | Event.load running => decide (running = 1)
  | Event.transaction _ => true
  | Event.accepted => true
  | Event.response res => decide (res.Error = none)
  | _ => false

/-- Where the loop stands after the choices `es` when all of them are on
the happy path: `es` is the happy schedule of the transactions handled so far
followed by the part of `happy` the current transaction has gone through. -/
def HappyInv (N : Nat) (pc : Pc) (es : List Event) (tr : List Action) : Prop :=
  match pc with
  | Pc.loopHead => es = happySchedule N (received tr)
  | Pc.recv => es = happySchedule N (received tr) ++ [Event.load 1]
  | Pc.dispatch ts targets todo =>
    ∃ txs k m, received tr = txs ++ [ts] ∧ k + (m + 1) = N ∧ targets = List.range N ∧
      todo = List.range' k (m + 1) ∧
      es = happySchedule N txs ++
        (Event.load 1 :: Event.transaction ts :: List.replicate k Event.accepted)
  | Pc.collect ts todo newTargets =>
    ∃ txs k m, received tr = txs ++ [ts] ∧ k + (m + 1) = N ∧ newTargets = [] ∧
      todo = List.range' k (m + 1) ∧
      es = happySchedule N txs ++
        (Event.load 1 :: Event.transaction ts :: (List.replicate N Event.accepted ++
          List.replicate k (Event.response (NewSimpleResponse none))))
  | Pc.respond ts =>
    ∃ txs, received tr = txs ++ [ts] ∧
      es = happySchedule N txs ++
        (Event.load 1 :: Event.transaction ts :: (List.replicate N Event.accepted ++
          List.replicate N (Event.response (NewSimpleResponse none))))
  | _ => False

/-- The actions of the loop for one transaction under `happy`. -/
def happyTrace (N : Nat) (ts : Transaction) : List Action :=
  [Action.recvTransaction ts, Action.incr Counter.mMsgsRcvd]
    ++ (List.range N).map (fun i =>
        Action.sendTransaction (Chan.outputTs i)
          (NewTransaction ts.Payload.ShallowCopy (Chan.outputRes i)))
    ++ ((List.range N).map (fun i =>
        [Action.recvResponse (Chan.outputRes i) (NewSimpleResponse none),
         Action.throtReset, Action.incr Counter.mMsgsSnt])).foldr (· ++ ·) []
    ++ [Action.sendResponse ts.ResponseChan (NewSimpleResponse none)]

/-- The actions of the loop under `happySchedule`. -/
def happyTraces (N : Nat) : List Transaction → List Action
  | [] => []
  | ts :: txs => happyTrace N ts ++ happyTraces N txs

/-- Five upstream transactions sharing one response sink. -/
def exFive : List Transaction :=
  [⟨⟨[⟨[1], []⟩]⟩, Chan.ext 7⟩, ⟨⟨[⟨[2], []⟩, ⟨[2, 2], []⟩]⟩, Chan.ext 7⟩,
   ⟨⟨[]⟩, Chan.ext 7⟩, ⟨⟨[⟨[4], [("a", "b")]⟩]⟩, Chan.ext 7⟩, ⟨⟨[⟨[5], []⟩]⟩, Chan.ext 7⟩]

/-- The broker `NewFanOut` builds for an empty list of outputs. -/
def exEmptyFanOut : FanOut :=
  { running := 1
    transactions := none
    outputTsChans := []
    outputResChans := []
    outputs := []
    outputNs := []
    closedChan := Chan.closedChan
    closeChan := Chan.closeChan }

/-- The goroutines the broker starts. -/
inductive Go
  /-- `go o.loop()` -/
  | loop
  deriving DecidableEq, Repr

/-- `FanOut.StartReceiving` (lines 88-96): the new state, the error returned
and the goroutines started; a nil channel argument is `none`. -/
def FanOut.StartReceiving (o : FanOut) (transactions : Option Chan) :
    FanOut × Option Err × List Go :=
  if o.transactions ≠ none then (o, some Err.ErrAlreadyStarted, [])
  else ({ o with transactions := transactions }, none, [Go.loop])

/-- Calls of `StartReceiving` one after the other with the given arguments:
the final state and what each call returned and started. -/
def FanOut.StartReceivings (o : FanOut) :
    List (Option Chan) → FanOut × List (Option Err × List Go)
  | [] => (o, [])
  | c :: cs =>
    ((FanOut.StartReceivings (o.StartReceiving c).1 cs).1,
      (o.StartReceiving c).2 :: (FanOut.StartReceivings (o.StartReceiving c).1 cs).2)

/-- `FanOut.CloseAsync` (lines 171-175): the compare-and-swap of `running`
from 1 to 0 and, when it swapped, the close of `closeChan`. -/
def FanOut.CloseAsync (o : FanOut) : FanOut × List Action :=
  if o.running = 1 then ({ o with running := 0 }, [Action.close o.closeChan]) else (o, [])

/-- `n` calls of `CloseAsync` one after the other: the final state and the
actions of all calls. -/
def FanOut.CloseAsyncs : Nat → FanOut → FanOut × List Action
  | 0, o => (o, [])
  | n + 1, o =>
    ((FanOut.CloseAsyncs n o.CloseAsync.1).1,
      o.CloseAsync.2 ++ (FanOut.CloseAsyncs n o.CloseAsync.1).2)

end Broker

namespace Buffer

/-- The `types.Message` of `stack_buffer.go`: a struct whose `Parts` is nil
or a slice of byte slices. -/
structure Message where
  Parts : Option (List (List Nat))
  deriving DecidableEq, Repr

/-- The fields of `StackBuffer` that the code reads (the store and the
metrics are collaborators whose calls appear as actions). -/
structure StackBuffer where
  running : Int
  messagesIn : Option Chan
  messagesOut : Chan
  responsesIn : Option Chan
  responsesOut : Chan
  errorsChan : Chan
  closedWG : Int
  deriving DecidableEq

/-- `NewStackBuffer` (lines 55-66). -/
def NewStackBuffer : StackBuffer :=
  { running := 1
    messagesIn := none
    messagesOut := Chan.messagesOut
    responsesIn := none
    responsesOut := Chan.responsesOut
    errorsChan := Chan.errorsChan
    closedWG := 0 }

/-- What the environment decides for the two loops of `StackBuffer`. -/
inductive Event
  /-- the value read by `atomic.LoadInt32(&m.running)` (lines 76 and 99) -/
  | load (running : Int)
  /-- line 77 receives a message, `open = true` -/
  | message (msg : Message)
  /-- line 77 finds `messagesIn` closed, `open = false` -/
  | inputClosed
  /-- the values returned by `m.buffer.PushMessage(msg)` (line 81) -/
  | pushed (backlog : Int) (err : Option Err)
  /-- the peer took the value of the current send (lines 85, 116, 136) -/
  | accepted
  /-- the values returned by `m.buffer.NextMessage()` (line 102) -/
  | next (msg : Message) (err : Option Err)
  /-- the values returned by `m.buffer.ShiftMessage()` (lines 107 and 123) -/
  | shifted (backlog : Int) (err : Option Err)
  /-- line 117 receives a response, `open = true` -/
  | response (res : Response)
  /-- line 117 finds `responsesIn` closed, `open = false` -/
  | responsesClosed
  /-- the `default` case of the select of line 135: no reader is ready -/
  | noReader
  deriving DecidableEq, Repr

/-- What the two loops of `StackBuffer` do to the outside; a call into the
store is recorded with the values it returned. -/
inductive Action
  | recvMessage (msg : Message)
  | PushMessage (msg : Message) (backlog : Int) (err : Option Err)
  | Gauge (backlog : Int)
  | sendResponse (c : Chan) (res : Response)
  | NextMessage (msg : Message) (err : Option Err)
  | ShiftMessage (backlog : Int) (err : Option Err)
  | sendMessage (c : Chan) (msg : Message)
  | recvResponse (res : Response)
  | sendErrors (c : Chan) (errs : List Err)
  | bufferClose
  | wgDone
  | close (c : Chan)
  deriving DecidableEq, Repr

/-- Running a step function over a list of environment choices: the state
reached and the actions performed, in order; `none` when a choice cannot
occur where it stands. -/
def runWith {σ : Type} (step : σ → Event → Option (σ × List Action)) :
    σ → List Event → Option (σ × List Action)
  | s, [] => some (s, [])
  | s, ev :: evs =>
    match step s ev with
    | none => none
    | some (s1, out) =>
      match runWith step s1 evs with
      | none => none
      | some (s2, tr) => some (s2, out ++ tr)

/-- Program points of `StackBuffer.inputLoop`. -/
inductive InPc
  /-- line 76, about to read `m.running` -/
  | loopHead
  /-- line 77, receiving from `m.messagesIn` -/
  | recv
  /-- line 81, inside `m.buffer.PushMessage(msg)` -/
  | push (msg : Message)
  /-- line 85, sending the response carrying `err` on `m.responsesOut` -/
  | respond (err : Option Err)
  /-- the function has returned and its deferred calls have run -/
  | returned
  deriving DecidableEq, Repr

/-- The deferred calls of `inputLoop` (lines 72-74), last deferred first. -/
def StackBuffer.inputDeferred (m : StackBuffer) : List Action :=
  [Action.bufferClose, Action.wgDone, Action.close m.responsesOut]

/-- One step of `StackBuffer.inputLoop` (lines 71-87). -/
def StackBuffer.inputStep (m : StackBuffer) (pc : InPc) (ev : Event) :
    Option (InPc × List Action) :=
  match pc with
  | InPc.loopHead =>
    match ev with
    | Event.load running =>
      if running = 1 then some (InPc.recv, []) else some (InPc.returned, m.inputDeferred)
    | _ => none
  | InPc.recv =>
    match ev with
    | Event.message msg => some (InPc.push msg, [Action.recvMessage msg])
    | Event.inputClosed => some (InPc.returned, m.inputDeferred)
    | _ => none
  | InPc.push msg =>
    match ev with
    | Event.pushed backlog err =>
      if err = none then
        some (InPc.respond err, [Action.PushMessage msg backlog err, Action.Gauge backlog])
      else some (InPc.respond err, [Action.PushMessage msg backlog err])
    | _ => none
  | InPc.respond err =>
    match ev with
    | Event.accepted =>
      some (InPc.loopHead, [Action.sendResponse m.responsesOut (NewSimpleResponse err)])
    | _ => none
  | InPc.returned => none

/-- `StackBuffer.inputLoop` as started by `go m.inputLoop()`. -/
def StackBuffer.inputLoop (m : StackBuffer) (evs : List Event) :
    Option (InPc × List Action) :=
  runWith m.inputStep InPc.loopHead evs

/-- Program points of `StackBuffer.outputLoop`. -/
inductive OutPc
  /-- line 99, about to read `m.running` -/
  | loopHead
  /-- line 102, inside `m.buffer.NextMessage()` -/
  | next
  /-- line 107, inside `m.buffer.ShiftMessage()` after the error `err` -/
  | shiftCorrupt (err : Err)
  /-- line 116, sending the slot on `m.messagesOut` -/
  | forward
  /-- line 117, receiving from `m.responsesIn` -/
  | awaitResponse
  /-- line 123, inside `m.buffer.ShiftMessage()` after a success response -/
  | shiftAck
  /-- line 135, select offering `errs` on `m.errorsChan` -/
  | offer
  /-- the function has returned and its deferred calls have run -/
  | returned
  deriving DecidableEq, Repr

/-- The local variables of `outputLoop` (lines 95-98) with its program
point; `errMap` is the key set of the map. -/
structure OutState where
  pc : OutPc
  msg : Message
  errs : List Err
  errMap : List Err
  deriving DecidableEq, Repr

/-- The state in which `outputLoop` is started. -/
def OutState.init : OutState :=
  { pc := OutPc.loopHead, msg := { Parts := none }, errs := [], errMap := [] }

/-- The deferred calls of `outputLoop` (lines 91-93), last deferred first. -/
def StackBuffer.outputDeferred (m : StackBuffer) : List Action :=
  [Action.wgDone, Action.close m.messagesOut, Action.close m.errorsChan]

/-- Record an error unless an equal one is pending (lines 108-111 and
126-129). -/
def OutState.record (s : OutState) (err : Err) : OutState :=
  if err ∈ s.errMap then s
  else { s with errMap := err :: s.errMap, errs := s.errs ++ [err] }

/-- Control at line 134: with errors built up the select of line 135,
otherwise back to the loop head. -/
def OutState.afterForward (s : OutState) : OutState :=
  if s.errs.length > 0 then { s with pc := OutPc.offer } else { s with pc := OutPc.loopHead }

/-- Control at line 115: a filled slot is forwarded. -/
def OutState.afterNext (s : OutState) : OutState :=
  if s.msg.Parts ≠ none then { s with pc := OutPc.forward } else s.afterForward

/-- One step of `StackBuffer.outputLoop` (lines 90-144) from the program
point `pc` with the local variables of `s`. -/
def StackBuffer.outputStepAt (m : StackBuffer) (s : OutState) (pc : OutPc) (ev : Event) :
    Option (OutState × List Action) :=
  match pc with
  | OutPc.loopHead =>
    match ev with
    | Event.load running =>
      if running = 1 then
        if s.msg.Parts = none then some ({ s with pc := OutPc.next }, [])
        else some (s.afterNext, [])
      else some ({ s with pc := OutPc.returned }, m.outputDeferred)
    | _ => none
  | OutPc.next =>
    match ev with
    | Event.next msg err =>
      match err with
      | none => some (({ s with msg := msg } : OutState).afterNext, [Action.NextMessage msg err])
      | some e =>
        if e ≠ Err.ErrTypeClosed then
          some ({ s with msg := msg, pc := OutPc.shiftCorrupt e }, [Action.NextMessage msg err])
        else some (({ s with msg := msg } : OutState).afterNext, [Action.NextMessage msg err])
    | _ => none
  | OutPc.shiftCorrupt e =>
    match ev with
    | Event.shifted backlog err =>
      some ((s.record e).afterNext, [Action.ShiftMessage backlog err])
    | _ => none
  | OutPc.forward =>
    match ev with
    | Event.accepted =>
      some ({ s with pc := OutPc.awaitResponse }, [Action.sendMessage m.messagesOut s.msg])
    | _ => none
  | OutPc.awaitResponse =>
    match ev with
    | Event.response res =>
      match res.Error with
      | none =>
        some ({ s with msg := { Parts := none }, pc := OutPc.shiftAck },
          [Action.recvResponse res])
      | some e => some ((s.record e).afterForward, [Action.recvResponse res])
    | Event.responsesClosed => some ({ s with pc := OutPc.returned }, m.outputDeferred)
    | _ => none
  | OutPc.shiftAck =>
    match ev with
    | Event.shifted backlog err =>
      some (s.afterForward, [Action.ShiftMessage backlog err, Action.Gauge backlog])
    | _ => none
  | OutPc.offer =>
    match ev with
    | Event.accepted =>
      some ({ s with errMap := [], errs := [], pc := OutPc.loopHead },
        [Action.sendErrors m.errorsChan s.errs])
    | Event.noReader => some ({ s with pc := OutPc.loopHead }, [])
    | _ => none
  | OutPc.returned => none

/-- One step of `StackBuffer.outputLoop` (lines 90-144). -/
def StackBuffer.outputStep (m : StackBuffer) (s : OutState) (ev : Event) :
    Option (OutState × List Action) :=
  m.outputStepAt s s.pc ev

/-- Running `outputLoop` from a state of its local variables. -/
def StackBuffer.outputRun (m : StackBuffer) (s : OutState) (evs : List Event) :
    Option (OutState × List Action) :=
  runWith m.outputStep s evs

/-- `StackBuffer.outputLoop` as started by `go m.outputLoop()`. -/
def StackBuffer.outputLoop (m : StackBuffer) (evs : List Event) :
    Option (OutState × List Action) :=
  m.outputRun OutState.init evs

/-- Messages read from `messagesIn`, in order. -/
def reads : List Action → List Message
  | [] => []
  | Action.recvMessage msg :: tr => msg :: reads tr
  | _ :: tr => reads tr

/-- Calls of `PushMessage` with the error each returned, in order. -/
def pushes : List Action → List (Message × Option Err)
  | [] => []
  | Action.PushMessage msg _ err :: tr => (msg, err) :: pushes tr
  | _ :: tr => pushes tr

/-- Responses sent upstream, in order. -/
def responsesSent : List Action → List Response
  | [] => []
  | Action.sendResponse _ res :: tr => res :: responsesSent tr
  | _ :: tr => responsesSent tr

/-- Channels closed, in order. -/
def closes : List Action → List Chan
  | [] => []
  | Action.close c :: tr => c :: closes tr
  | _ :: tr => closes tr

/-- The loop is between two iterations or has returned: no message has
been read that has not been answered. -/
def InPc.idle : InPc → Bool
  | InPc.loopHead => true
  | InPc.recv => true
  | InPc.returned => true
  | _ => false

/-- The invariant of `inputLoop`: what has been read, pushed and answered. -/
def InInv (pc : InPc) (tr : List Action) : Prop :=
  match pc with
  | InPc.push msg =>
    reads tr = (pushes tr).map Prod.fst ++ [msg] ∧
    responsesSent tr = (pushes tr).map (fun p => NewSimpleResponse p.2)
  | InPc.respond err =>
    reads tr = (pushes tr).map Prod.fst ∧
    (pushes tr).map (fun p => NewSimpleResponse p.2)
      = responsesSent tr ++ [NewSimpleResponse err]
  | _ =>
    reads tr = (pushes tr).map Prod.fst ∧
    responsesSent tr = (pushes tr).map (fun p => NewSimpleResponse p.2)

/-- The actions of `outputLoop` that move data: calls of `NextMessage` and
`ShiftMessage`, forwards on `messagesOut`, responses received. -/
def dataflow : List Action → List Action
  | [] => []
  | Action.NextMessage msg err :: tr => Action.NextMessage msg err :: dataflow tr
  | Action.ShiftMessage backlog err :: tr => Action.ShiftMessage backlog err :: dataflow tr
  | Action.sendMessage c msg :: tr => Action.sendMessage c msg :: dataflow tr
  | Action.recvResponse res :: tr => Action.recvResponse res :: dataflow tr
  | _ :: tr => dataflow tr

/-- What may directly precede an action in the data flow of `outputLoop`:
a `ShiftMessage` follows a success response or a `NextMessage` that returned
an error other than `ErrTypeClosed`; a received response follows a forward. -/
def Justified (a b : Action) : Prop :=
  match b with
  | Action.ShiftMessage _ _ =>
    (∃ res, a = Action.recvResponse res ∧ res.Error = none) ∨
    (∃ msg e, a = Action.NextMessage msg (some e) ∧ e ≠ Err.ErrTypeClosed)
  | Action.recvResponse _ => ∃ c msg, a = Action.sendMessage c msg
  | _ => True

/-- What the program point of `outputLoop` says about the slot and the last
data action. -/
def PcOk (m : StackBuffer) (tr : List Action) (s : OutState) : Prop :=
  match s.pc with
  | OutPc.shiftCorrupt e =>
    e ≠ Err.ErrTypeClosed ∧
    ∃ msg, (dataflow tr).getLast? = some (Action.NextMessage msg (some e))
  | OutPc.awaitResponse =>
    s.msg.Parts ≠ none ∧
    (dataflow tr).getLast? = some (Action.sendMessage m.messagesOut s.msg)
  | OutPc.shiftAck =>
    ∃ res, (dataflow tr).getLast? = some (Action.recvResponse res) ∧ res.Error = none
  | OutPc.forward => s.msg.Parts ≠ none
  | _ => True

/-- The invariant of `outputLoop`. -/
def OutInv (m : StackBuffer) (s : OutState) (tr : List Action) : Prop :=
  List.Chain' Justified (dataflow tr) ∧
  (∀ b e, (dataflow tr).head? ≠ some (Action.ShiftMessage b e)) ∧
  PcOk m tr s

/-- The loop is at a point from which, with a filled slot, the next data
action is the forward of the slot. -/
def OutState.quiet (s : OutState) : Prop :=
  match s.pc with
  | OutPc.forward => s.msg.Parts ≠ none
  | OutPc.offer => True
  | OutPc.loopHead => True
  | _ => False

/-- The store hands out a one part message, which is forwarded. -/
def exForwardSchedule : List Event :=
  [Event.load 1, Event.next ⟨some [[7]]⟩ none, Event.accepted]

/-- The state of `outputLoop` after `exForwardSchedule`. -/
def exForwardState : OutState :=
  { pc := OutPc.awaitResponse, msg := ⟨some [[7]]⟩, errs := [], errMap := [] }

/-- The actions of `outputLoop` under `exForwardSchedule`. -/
def exForwardTrace : List Action :=
  [Action.NextMessage ⟨some [[7]]⟩ none, Action.sendMessage Chan.messagesOut ⟨some [[7]]⟩]

/-- Downstream answers failure, nobody reads the errors, the loop goes round
and downstream takes the message again. -/
def exRefusedSchedule : List Event :=
  [Event.response ⟨some (Err.other 5)⟩, Event.noReader, Event.load 1, Event.accepted]

/-- The state of `outputLoop` after `exRefusedSchedule`. -/
def exRefusedState : OutState :=
  { pc := OutPc.awaitResponse, msg := ⟨some [[7]]⟩, errs := [Err.other 5],
    errMap := [Err.other 5] }

/-- The actions of `outputLoop` under `exRefusedSchedule`. -/
def exRefusedTrace : List Action :=
  [Action.recvResponse ⟨some (Err.other 5)⟩,
   Action.sendMessage Chan.messagesOut ⟨some [[7]]⟩]

/-- The store is closed and empty: `n` times the loop reads `running` as 1
and `NextMessage` answers the terminal `ErrTypeClosed` with an empty message. -/
def closedRounds : Nat → List Event
  | 0 => []
  | n + 1 =>
    [Event.load 1, Event.next { Parts := none } (some Err.ErrTypeClosed)] ++ closedRounds n

/-- Two messages are read; the store takes the first and refuses the
second. -/
def exInputSchedule : List Event :=
  [Event.load 1, Event.message ⟨some [[1]]⟩, Event.pushed 1 none, Event.accepted,
   Event.load 1, Event.message ⟨some [[2]]⟩, Event.pushed 1 (some (Err.other 3)),
   Event.accepted]

/-- The actions of `inputLoop` under `exInputSchedule`. -/
def exInputTrace : List Action :=
  [Action.recvMessage ⟨some [[1]]⟩, Action.PushMessage ⟨some [[1]]⟩ 1 none,
   Action.Gauge 1, Action.sendResponse Chan.responsesOut ⟨none⟩,
   Action.recvMessage ⟨some [[2]]⟩,
   Action.PushMessage ⟨some [[2]]⟩ 1 (some (Err.other 3)),
   Action.sendResponse Chan.responsesOut ⟨some (Err.other 3)⟩]

/-- The store keeps answering `NextMessage` with a message whose `Parts` is
nil and a nil error: `n` times the loop reads `running` as 1 and gets that
answer. -/
def nilRounds : Nat → List Event
  | 0 => []
  | n + 1 => [Event.load 1, Event.next { Parts := none } none] ++ nilRounds n

/-- A choice of the environment in which `NextMessage`, if it is the call
that returns, returns a message whose `Parts` is nil with a nil error. -/
def Event.peeksNil : Event → Bool
  | Event.next msg err => decide (msg.Parts = none ∧ err = none)
  | _ => true

/-- The loop is at its head with an empty slot and one pending error. -/
def exPendingState : OutState :=
  { pc := OutPc.loopHead, msg := { Parts := none }, errs := [Err.other 4],
    errMap := [Err.other 4] }

/-- Two iterations in which the store answers a nil-`Parts` message and
nobody reads the pending errors. -/
def exPendingSchedule : List Event :=
  [Event.load 1, Event.next { Parts := none } none, Event.noReader,
   Event.load 1, Event.next { Parts := none } none, Event.noReader]

/-- The actions of `outputLoop` under `exPendingSchedule`. -/
def exPendingTrace : List Action :=
  [Action.NextMessage { Parts := none } none, Action.NextMessage { Parts := none } none]

/-- The pending errors of `outputLoop`: `errs` holds no error twice and
`errMap` has exactly its members. -/
def OutState.pendingOk (s : OutState) : Prop :=
  s.errs.Nodup ∧ ∀ e, e ∈ s.errMap ↔ e ∈ s.errs

/-- The invariant of the local variables of `outputLoop`: the pending errors
are in order, `NextMessage` is called with an empty slot only, and the select
of line 135 is reached with errors pending only. -/
def PendInv (s : OutState) : Prop :=
  s.pendingOk ∧ (s.pc = OutPc.next → s.msg.Parts = none) ∧
  (s.pc = OutPc.offer → s.errs ≠ [])

/-- The loop is at its head with one error pending; `NextMessage` fails with
an equal error and then with another one. -/
def exCorruptState : OutState :=
  { pc := OutPc.next, msg := { Parts := none }, errs := [Err.other 4],
    errMap := [Err.other 4] }

/-- The choices that bring `outputLoop` to `exCorruptState`. -/
def exCorruptSchedule : List Event :=
  [Event.load 1, Event.next { Parts := none } (some (Err.other 4)), Event.shifted 3 none,
   Event.noReader, Event.load 1]

/-- The actions of `outputLoop` under `exCorruptSchedule`. -/
def exCorruptTrace : List Action :=
  [Action.NextMessage { Parts := none } (some (Err.other 4)), Action.ShiftMessage 3 none]

/-- The goroutines the buffer starts. -/
inductive Go
  /-- `go m.inputLoop()` -/
  | inputLoop
  /-- `go m.outputLoop()` -/
  | outputLoop
  deriving DecidableEq, Repr

/-- `StackBuffer.StartReceiving` (lines 147-159): the new state, the error
returned and the goroutines started; a nil channel argument is `none`. -/
def StackBuffer.StartReceiving (m : StackBuffer) (msgs : Option Chan) :
    StackBuffer × Option Err × List Go :=
  if m.messagesIn ≠ none then (m, some Err.ErrAlreadyStarted, [])
  else if m.responsesIn ≠ none then
    ({ m with messagesIn := msgs, closedWG := m.closedWG + 2 }, none,
      [Go.inputLoop, Go.outputLoop])
  else ({ m with messagesIn := msgs }, none, [])

/-- `StackBuffer.StartListening` (lines 167-179). -/
def StackBuffer.StartListening (m : StackBuffer) (responses : Option Chan) :
    StackBuffer × Option Err × List Go :=
  if m.responsesIn ≠ none then (m, some Err.ErrAlreadyStarted, [])
  else if m.messagesIn ≠ none then
    ({ m with responsesIn := responses, closedWG := m.closedWG + 2 }, none,
      [Go.inputLoop, Go.outputLoop])
  else ({ m with responsesIn := responses }, none, [])

/-- Calls of `StartReceiving` one after the other with the given arguments. -/
def StackBuffer.StartReceivings (m : StackBuffer) :
    List (Option Chan) → StackBuffer × List (Option Err × List Go)
  | [] => (m, [])
  | c :: cs =>
    ((StackBuffer.StartReceivings (m.StartReceiving c).1 cs).1,
      (m.StartReceiving c).2 :: (StackBuffer.StartReceivings (m.StartReceiving c).1 cs).2)

/-- Calls of `StartListening` one after the other with the given arguments. -/
def StackBuffer.StartListenings (m : StackBuffer) :
    List (Option Chan) → StackBuffer × List (Option Err × List Go)
  | [] => (m, [])
  | c :: cs =>
    ((StackBuffer.StartListenings (m.StartListening c).1 cs).1,
      (m.StartListening c).2 :: (StackBuffer.StartListenings (m.StartListening c).1 cs).2)

/-- `StackBuffer.CloseAsync` (lines 192-194). -/
def StackBuffer.CloseAsync (m : StackBuffer) : StackBuffer := { m with running := 0 }

/-- The calls of `m.closedWG.Done()` among the actions. -/
def wgDones : List Action → Int
  | [] => 0
  | Action.wgDone :: tr => 1 + wgDones tr
  | _ :: tr => wgDones tr

/-- Which case of the select of `WaitForClose` fires. -/
inductive WaitEvent
  /-- `case <-closed` -/
  | closed
  /-- `case <-time.After(timeout)` -/
  | timeout
  deriving DecidableEq, Repr

/-- `StackBuffer.WaitForClose` (lines 197-210) when `counter` is the value
of `m.closedWG`: the helper goroutine closes `closed` only after
`m.closedWG.Wait()` has returned, that is with the counter at zero; `none`
when the case cannot fire. -/
def StackBuffer.WaitForClose (counter : Int) (ev : WaitEvent) : Option (Option Err) :=
  match ev with
  | WaitEvent.closed => if counter = 0 then some none else none
  | WaitEvent.timeout => some (some Err.ErrTimeout)

/-- A buffer on which `StartListening` was called with a channel and then
`StartReceiving` with a nil channel. -/
def exNilStarted : StackBuffer :=
  { running := 1
    messagesIn := none
    messagesOut := Chan.messagesOut
    responsesIn := some (Chan.ext 2)
    responsesOut := Chan.responsesOut
    errorsChan := Chan.errorsChan
    closedWG := 2 }

end Buffer

namespace Manager

/-- A Go `map[string]V`: its entries in the order in which a `range` over it
visits them; the keys of a map are distinct. -/
def GoMap (V : Type) : Type := List (String × V)

/-- The keys of the map in iteration order. -/
def GoMap.keys {V : Type} (m : GoMap V) : List String := List.map Prod.fst m

/-- The lookup `v, exists := m[k]`. -/
def GoMap.get {V : Type} : GoMap V → String → Option V
  | [], _ => none
  | (k1, v) :: m, k => if k1 = k then some v else GoMap.get m k

/-- The assignment `m[k] = v`. -/
def GoMap.set {V : Type} : GoMap V → String → V → GoMap V
  | [], k, v => [(k, v)]
  | (k1, v1) :: m, k, v => if k1 = k then (k, v) :: m else (k1, v1) :: GoMap.set m k v

/-- The local type `confInfo` of `HandleStreamsCRUD` (lines 75-79); the
uptime is kept in nanoseconds. -/
structure confInfo where
  Active : Bool
  Uptime : Nat
  UptimeStr : String
  deriving DecidableEq, Repr

/-- The three sets of the bulk replace. -/
structure Sets (Config : Type) where
  toDelete : List String
  toUpdate : GoMap Config
  toCreate : GoMap Config

/-- The loop `for id := range infos` (lines 119-125) over the ids still to
visit. -/
def HandleStreamsCRUD.overInfos {Config : Type} (newSet : GoMap Config) :
    List String → List String × GoMap Config → List String × GoMap Config
  | [], acc => acc
  | id :: ids, (toDelete, toUpdate) =>
    match newSet.get id with
    | none => HandleStreamsCRUD.overInfos newSet ids (toDelete ++ [id], toUpdate)
    | some newConf => HandleStreamsCRUD.overInfos newSet ids (toDelete, toUpdate.set id newConf)

/-- The loop `for id, conf := range newSet` (lines 126-130) over the entries
still to visit. -/
def HandleStreamsCRUD.overNewSet {Config : Type} (infos : GoMap confInfo) :
    List (String × Config) → GoMap Config → GoMap Config
  | [], toCreate => toCreate
  | (id, conf) :: rest, toCreate =>
    match infos.get id with
    | none => HandleStreamsCRUD.overNewSet infos rest (toCreate.set id conf)
    | some _ => HandleStreamsCRUD.overNewSet infos rest toCreate

/-- The POST branch of `HandleStreamsCRUD`, lines 115-130: the three sets
computed from the registered streams `infos` and the posted set `newSet`. -/
def HandleStreamsCRUD.sets {Config : Type} (infos : GoMap confInfo) (newSet : GoMap Config) :
    Sets Config :=
  let r := HandleStreamsCRUD.overInfos newSet infos.keys ([], [])
  { toDelete := r.1
    toUpdate := r.2
    toCreate := HandleStreamsCRUD.overNewSet infos newSet [] }

/-- The value `Read` returns for a stream. -/
structure StreamStatus (Config : Type) where
  Active : Bool
  Uptime : Nat
  Config : Config

/-- The manager operations `HandleStreamCRUD` calls, with the serialisation
of the sanitised status (`json.Marshal`); deadlines are left out. -/
structure Ops (Config : Type) where
  Create : String → Config → Option Err
  Read : String → Except Err (StreamStatus Config)
  Update : String → Config → Option Err
  Delete : String → Option Err
  Marshal : StreamStatus Config → Except Err (List Nat)

/-- The text of a response body. -/
inductive Body
  /-- a fixed text -/
  | text (s : String)
  /-- `fmt.Sprintf("Error: %v", err)` -/
  | error (err : Err)
  /-- `fmt.Sprintf("Error: %v", fmt.Errorf("verb not supported: %v", method))` -/
  | verbNotSupported (method : String)
  deriving DecidableEq, Repr

/-- What a handler does to its `http.ResponseWriter`. -/
inductive Write
  /-- `http.Error(w, body, code)` -/
  | httpError (body : Body) (code : Nat)
  /-- `w.Write(bytes)` -/
  | write (bytes : List Nat)
  deriving DecidableEq, Repr

/-- The status code of the response: the first write decides, a plain
`Write` and a handler that writes nothing give 200. -/
def status : List Write → Nat
  | [] => 200
  | Write.httpError _ code :: _ => code
  | Write.write _ :: _ => 200

/-- The deferred closure of `HandleStreamCRUD` (lines 199-211). -/
def HandleStreamCRUD.deferred (serverErr : Option Err) (requestErr : Option Body) :
    List Write :=
  (match serverErr with
    | some e => [Write.httpError (Body.error e) 502]
    | none => []) ++
  (match requestErr with
    | some b => [Write.httpError b 400]
    | none => [])

/-- Lines 275-283 of `HandleStreamCRUD` followed by the deferred closure;
`ws` is what has been written so far. -/
def HandleStreamCRUD.finish (ws : List Write) (serverErr : Option Err)
    (requestErr : Option Body) : List Write :=
  let r1 : List Write × Option Err :=
    if serverErr = some Err.ErrStreamDoesNotExist then
      (ws ++ [Write.httpError (Body.text "Stream not found") 404], none)
    else (ws, serverErr)
  let r2 : List Write × Option Err :=
    if r1.2 = some Err.ErrStreamExists then
      (r1.1 ++ [Write.httpError (Body.text "Stream already exists") 400], none)
    else r1
  r2.1 ++ HandleStreamCRUD.deferred r2.2 requestErr

/-- `HandleStreamCRUD` (lines 197-283) for the path variable `id`, the
method and the outcome `body` of `readConfig`. -/
def HandleStreamCRUD {Config : Type} (ops : Ops Config) (id method : String)
    (body : Except Err Config) : List Write :=
  if id.length = 0 then
    [Write.httpError (Body.text "Var `id` must be set") 400] ++ HandleStreamCRUD.deferred none none
  else if method = "POST" then
    match body with
    | .error e => HandleStreamCRUD.deferred none (some (Body.error e))
    | .ok conf => HandleStreamCRUD.finish [] (ops.Create id conf) none
  else if method = "GET" then
    match ops.Read id with
    | .ok info =>
      match ops.Marshal info with
      | .error e => HandleStreamCRUD.deferred (some e) none
      | .ok bytes => HandleStreamCRUD.finish [Write.write bytes] none none
    | .error e => HandleStreamCRUD.finish [] (some e) none
  else if method = "PUT" then
    match body with
    | .error e => HandleStreamCRUD.deferred none (some (Body.error e))
    | .ok conf => HandleStreamCRUD.finish [] (ops.Update id conf) none
  else if method = "DELETE" then
    HandleStreamCRUD.finish [] (ops.Delete id) none
  else HandleStreamCRUD.finish [] none (some (Body.verbNotSupported method))

/-- Registered streams `a`, `b`, `c`. -/
def exInfos : GoMap confInfo :=
  [("a", ⟨true, 5, "5ns"⟩), ("b", ⟨true, 6, "6ns"⟩), ("c", ⟨false, 7, "7ns"⟩)]

/-- A posted set `b`, `c`, `d` with configs 20, 30, 40. -/
def exNewSet : GoMap Nat := [("b", 20), ("c", 30), ("d", 40)]

/-- A manager on which `foo` does not exist. -/
def exOps : Ops Nat :=
  { Create := fun _ _ => none
    Read := fun _ => .error Err.ErrStreamDoesNotExist
    Update := fun _ _ => some Err.ErrStreamDoesNotExist
    Delete := fun _ => some Err.ErrStreamDoesNotExist
    Marshal := fun _ => .ok [] }

/-- The arrays `errDelete`, `errUpdate`, `errCreate` (lines 146-148) once
`wg.Wait()` has returned: slot `j` holds what task `j` returned. -/
structure Results where
  errDelete : List (Option Err)
  errUpdate : List (Option Err)
  errCreate : List (Option Err)

/-- The tasks of lines 150-173: task `j` of a set stores the result of its
manager call in slot `j`. -/
def HandleStreamsCRUD.tasks {Config : Type} (ops : Ops Config) (s : Sets Config) : Results :=
  { errDelete := List.map ops.Delete s.toDelete
    errUpdate := List.map (fun e => ops.Update e.1 e.2) s.toUpdate
    errCreate := List.map (fun e => ops.Create e.1 e.2) s.toCreate }

/-- One of the loops of lines 178-192: `label` is the text before `%v`,
`errText` the rendering of an error by `%v`. -/
def HandleStreamsCRUD.appendErrs (label : String) (errText : Err → String) :
    List (Option Err) → List String → List String
  | [], errs => errs
  | none :: rest, errs => HandleStreamsCRUD.appendErrs label errText rest errs
  | some e :: rest, errs =>
    HandleStreamsCRUD.appendErrs label errText rest (errs ++ [label ++ errText e])

/-- The slice `errs` after the three loops of lines 177-192. -/
def HandleStreamsCRUD.errs (errText : Err → String) (r : Results) : List String :=
  HandleStreamsCRUD.appendErrs "failed to create stream: " errText r.errCreate
    (HandleStreamsCRUD.appendErrs "failed to update stream: " errText r.errUpdate
      (HandleStreamsCRUD.appendErrs "failed to delete stream: " errText r.errDelete []))

/-- The text of `requestErr` after lines 194-196, `none` when it is left nil. -/
def HandleStreamsCRUD.report (errText : Err → String) (r : Results) : Option String :=
  let errs := HandleStreamsCRUD.errs errText r
  if errs.length > 0 then some (String.intercalate "\n" errs) else none

/-- A rendering of errors. -/
def exErrText : Err → String
  | Err.ErrTypeClosed => "type was closed"
  | Err.ErrAlreadyStarted => "type has already been started"
  | Err.ErrTimeout => "action timed out"
  | Err.ErrStreamExists => "stream already exists"
  | Err.ErrStreamDoesNotExist => "stream does not exist"
  | Err.other code => "error " ++ toString code

/-- Modelled from the spec: an entry `StreamInfo` of the registry, the
config the stream was built from, whether the stream is running, and its
creation time. -/
structure StreamInfo (Config : Type) where
  Config : Config
  running : Bool
  created : Nat

/-- Modelled from the spec: the state of the stream manager, the mapping
from stream id to `StreamInfo` and whether the manager has been stopped. -/
structure Registry (Config : Type) where
  streams : GoMap (StreamInfo Config)
  closed : Bool

/-- Modelled from the spec: `Create(id, cfg)`.  On a stopped manager the
error is `ErrTypeClosed`, on an id that is present `ErrStreamExists`; then
the stream is built from the config (`wire`), and a wiring error is returned
with the registry unchanged; otherwise the id is bound to the running
stream.  `now` is the clock. -/
def Registry.Create {Config : Type} (wire : Config → Option Err) (now : Nat)
    (m : Registry Config) (id : String) (conf : Config) : Registry Config × Option Err :=
  if m.closed then (m, some Err.ErrTypeClosed)
  else
    match m.streams.get id with
    | some _ => (m, some Err.ErrStreamExists)
    | none =>
      match wire conf with
      | some e => (m, some e)
      | none =>
        ({ m with streams := m.streams.set id { Config := conf, running := true, created := now } },
          none)

/-- Modelled from the spec: `Read(id)` returns the config, the activity and
the uptime of a stream that is present, and `ErrStreamDoesNotExist`
otherwise. -/
def Registry.Read {Config : Type} (now : Nat) (m : Registry Config) (id : String) :
    Except Err (StreamStatus Config) :=
  match m.streams.get id with
  | none => .error Err.ErrStreamDoesNotExist
  | some info => .ok { Active := info.running, Uptime := now - info.created, Config := info.Config }

/-- A new manager: open, no stream. -/
def exRegistry : Registry (String × String) := { streams := [], closed := false }

/-- The config of `harmlessConf` in `type_test.go` (lines 37-42), as the
types of its input and output. -/
def harmlessConf : String × String := ("http_server", "http_server")

/-- A stream construction that knows the types `http_server` and `file`
and fails on every other type. -/
def exWire (conf : String × String) : Option Err :=
  if (conf.1 = "http_server" ∨ conf.1 = "file") ∧ (conf.2 = "http_server" ∨ conf.2 = "file")
  then none else some (Err.other 3)

end Manager

namespace Processor

/-- The counters of `Filter` (lines 70-72). -/
inductive Counter
  | mCount
  | mDropped
  | mSent
  deriving DecidableEq, Repr

/-- The fields of `Filter` that `ProcessMessage` reads: `condition.Check` is
the check of the configured condition. -/
structure Filter where
  condition : Broker.Message → Bool

/-- `Filter.ProcessMessage` (lines 96-108): the pair returned, a nil slice
and a nil response being `none`, and the counters incremented. -/
def Filter.ProcessMessage (c : Filter) (msg : Broker.Message) :
    (Option (List Broker.Message) × Option Response) × List Counter :=
  if !c.condition msg then
    ((none, some (NewSimpleResponse none)), [Counter.mCount, Counter.mDropped])
  else
    ((some [msg], none), [Counter.mCount, Counter.mSent])

/-- A filter that passes messages of exactly two parts. -/
def exFilter : Filter := { condition := fun m => m.parts.length == 2 }

/-- Modelled from the spec: the compress processor, the configured part
indices and the per-part algorithm. -/
structure Compress where
  Parts : List Int
  comp : List Nat → List Nat

/-- Modelled from the spec: the position that a configured index selects in
a message of `n` parts; a negative index resolves relative to the end, and an
index outside the message selects no part. -/
def Compress.position (n : Nat) (index : Int) : Option Nat :=
  let j : Int := if index < 0 then (n : Int) + index else index
  if 0 ≤ j ∧ j < (n : Int) then some j.toNat else none

/-- Modelled from the spec: the indices worked on, every part when none is
configured (`TestCompressGZIP` of `compress_test.go`, lines 34-67). -/
def Compress.targets (c : Compress) (n : Nat) : List Int :=
  if c.Parts.isEmpty then (List.range n).map Int.ofNat else c.Parts

/-- Modelled from the spec: the loop over the indices, which replaces in
the copy each selected part by the encoding of the part of the input. -/
def Compress.apply (c : Compress) (msg : Broker.Message) :
    List Int → Broker.Message → Broker.Message
  | [], newMsg => newMsg
  | index :: rest, newMsg =>
    match Compress.position msg.parts.length index with
    | none => Compress.apply c msg rest newMsg
    | some j =>
      match msg.parts[j]? with
      | none => Compress.apply c msg rest newMsg
      | some part =>
        Compress.apply c msg rest
          { parts := newMsg.parts.set j { part with data := c.comp part.data } }

/-- Modelled from the spec: `Compress.ProcessMessage`.  A message without
parts gives no message (`TestCompressEmpty`, lines 150-166); otherwise the
result is one message, a shallow copy of the input with the selected parts
encoded, and a nil response. -/
def Compress.ProcessMessage (c : Compress) (msg : Broker.Message) :
    Option (List Broker.Message) × Option Response :=
  if msg.parts.length = 0 then (none, some (NewSimpleResponse none))
  else
    (some [Compress.apply c msg (c.targets msg.parts.length) msg.ShallowCopy], none)

/-- The five parts of `TestCompressIndexBounds`, as small byte strings. -/
def exFiveParts : Broker.Message :=
  { parts := [⟨[0], []⟩, ⟨[1], []⟩, ⟨[2], []⟩, ⟨[3], []⟩, ⟨[4], []⟩] }

/-- A stand-in encoding: a marker byte before the input. -/
def exComp (data : List Nat) : List Nat := 31 :: data

end Processor

/-! ## Theorems -/

namespace Broker

theorem wire_wired (m : Nat) : ∀ (k : Nat) (o o1 : FanOut), Wired o k →
    NewFanOut.wire (List.range' k m) o = .ok o1 → Wired o1 (k + m) := by
  induction m with
  | zero =>
    intro k o o1 hw h
    simp [NewFanOut.wire] at h
    subst h
    simpa using hw
  | succ m ih =>
    intro k o o1 hw h
    simp only [List.range', NewFanOut.wire] at h
    split at h
    · cases h
    · split at h
      · cases h
      · have := ih (k + 1) _ o1 ?_ h
        · have e : k + (m + 1) = k + 1 + m := by omega
          rw [e]; exact this
        · constructor
          · simp [hw.ns, List.range_succ]
          · simp [hw.tsChans, List.range_succ]
          · simp [hw.resChans, List.range_succ]
          · simp [hw.closed]

theorem NewFanOut_wired (outputs : List Output) (o : FanOut)
    (h : NewFanOut outputs = .ok o) : Wired o outputs.length := by
  unfold NewFanOut at h
  rw [List.range_eq_range'] at h
  have := wire_wired outputs.length 0 _ o ?_ h
  · simpa using this
  · constructor <;> simp

theorem Wired.tsChan {o : FanOut} {N i : Nat} (w : Wired o N) (hi : i < N) :
    o.outputTsChans[i]? = some (Chan.outputTs i) := by
  simp [w.tsChans, List.getElem?_range, hi]

theorem Wired.resChan {o : FanOut} {N i : Nat} (w : Wired o N) (hi : i < N) :
    o.outputResChans[i]? = some (Chan.outputRes i) := by
  simp [w.resChans, List.getElem?_range, hi]

theorem sentOn_append (c : Chan) (a b : List Action) :
    sentOn c (a ++ b) = sentOn c a ++ sentOn c b := by
  induction a with
  | nil => rfl
  | cons x a ih => cases x <;> simp [sentOn, ih]; split <;> simp

theorem responsesOn_append (c : Chan) (a b : List Action) :
    responsesOn c (a ++ b) = responsesOn c a ++ responsesOn c b := by
  induction a with
  | nil => rfl
  | cons x a ih => cases x <;> simp [responsesOn, ih]; split <;> simp

theorem upstream_append (a b : List Action) :
    upstream (a ++ b) = upstream a ++ upstream b := by
  induction a with
  | nil => rfl
  | cons x a ih => cases x <;> simp [upstream, ih]

theorem closes_append (a b : List Action) :
    closes (a ++ b) = closes a ++ closes b := by
  induction a with
  | nil => rfl
  | cons x a ih => cases x <;> simp [closes, ih]

theorem received_append (a b : List Action) :
    received (a ++ b) = received a ++ received b := by
  induction a with
  | nil => rfl
  | cons x a ih => cases x <;> simp [received, ih]

theorem sentOn_closes (c : Chan) (l : List Chan) : sentOn c (l.map Action.close) = [] := by
  induction l with
  | nil => rfl
  | cons x l ih => simpa [sentOn] using ih

theorem responsesOn_closes (c : Chan) (l : List Chan) :
    responsesOn c (l.map Action.close) = [] := by
  induction l with
  | nil => rfl
  | cons x l ih => simpa [responsesOn] using ih

theorem upstream_closes (l : List Chan) : upstream (l.map Action.close) = [] := by
  induction l with
  | nil => rfl
  | cons x l ih => simpa [upstream] using ih

theorem received_closes (l : List Chan) : received (l.map Action.close) = [] := by
  induction l with
  | nil => rfl
  | cons x l ih => simpa [received] using ih

theorem closes_closes (l : List Chan) : closes (l.map Action.close) = l := by
  induction l with
  | nil => rfl
  | cons x l ih => simpa [closes] using ih

theorem sentOn_deferred (o : FanOut) (c : Chan) : sentOn c o.deferred = [] := by
  simp [FanOut.deferred, sentOn_append, sentOn_closes, sentOn]

theorem responsesOn_deferred (o : FanOut) (c : Chan) : responsesOn c o.deferred = [] := by
  simp [FanOut.deferred, responsesOn_append, responsesOn_closes, responsesOn]

theorem upstream_deferred (o : FanOut) : upstream o.deferred = [] := by
  simp [FanOut.deferred, upstream_append, upstream_closes, upstream]

theorem received_deferred (o : FanOut) : received o.deferred = [] := by
  simp [FanOut.deferred, received_append, received_closes, received]

theorem closes_deferred (o : FanOut) :
    closes o.deferred = o.outputTsChans ++ [o.closedChan] := by
  simp [FanOut.deferred, closes_append, closes_closes, closes]

/-- Actions that neither send to an output nor receive from one leave the
bookkeeping as it is. -/
theorem Book.keep {ts : Transaction} {N : Nat} {A P : List Nat} {tr : List Action}
    (h : Book ts N A P tr) (out : List Action)
    (hs : ∀ c, sentOn c out = []) (hr : ∀ c, responsesOn c out = []) :
    Book ts N A P (tr ++ out) := by
  unfold Book at h ⊢
  simpa [sentOn_append, responsesOn_append, hs, hr] using h

theorem Book.dispatch {ts : Transaction} {N : Nat} {A rest : List Nat} {i : Nat}
    {tr : List Action} (h : Book ts N A (i :: rest) tr) :
    Book ts N (A ++ [i]) rest
      (tr ++ [Action.sendTransaction (Chan.outputTs i)
        (NewTransaction ts.Payload.ShallowCopy (Chan.outputRes i))]) := by
  obtain ⟨hnd, hlt, h⟩ := h
  refine ⟨by simpa using hnd, by simpa using hlt, ?_⟩
  intro j hj
  obtain ⟨h1, h2, h3, h4⟩ := h j hj
  have hnd2 : i ∉ A ∧ i ∉ rest := by
    simp [List.nodup_append] at hnd
    exact ⟨hnd.2.2.1, hnd.2.1.1⟩
  by_cases hji : j = i
  · subst hji
    have := h2 (by simp)
    simp [sentOn_append, responsesOn_append, sentOn, responsesOn, hnd2]
    refine ⟨?_, ?_⟩
    · intro tx htx
      rcases htx with htx | htx
      · exact h1 tx htx
      · exact htx
    · exact ⟨this.1, this.2⟩
  · have e1 : sentOn (Chan.outputTs j) [Action.sendTransaction (Chan.outputTs i)
        (NewTransaction ts.Payload.ShallowCopy (Chan.outputRes i))] = [] := by
      simp [sentOn]; intro h; exact hji h.symm
    simp only [sentOn_append, responsesOn_append, e1, responsesOn, List.append_nil]
    refine ⟨h1, ?_, ?_, ?_⟩
    · intro hm; exact h2 (by simp [hm])
    · intro hm
      simp [hji] at hm
      exact h3 hm
    · intro hA hP
      simp [hji] at hA
      exact h4 hA (by simp [hji, hP])

theorem Book.fail {ts : Transaction} {N : Nat} {rest new : List Nat} {i : Nat}
    {tr : List Action} (h : Book ts N (i :: rest) new tr) (res : Response)
    (hres : res.Error ≠ none) (out : List Action)
    (hs : ∀ c, sentOn c out = []) (hr : ∀ c, responsesOn c out = []) :
    Book ts N rest (new ++ [i])
      (tr ++ Action.recvResponse (Chan.outputRes i) res :: out) := by
  obtain ⟨hnd, hlt, h⟩ := h
  have hnd2 : i ∉ rest ∧ i ∉ new := by
    simp [List.nodup_append] at hnd
    tauto
  refine ⟨?_, ?_, ?_⟩
  · simp [List.nodup_append, List.disjoint_left] at hnd ⊢
    refine ⟨hnd.2.1, ⟨hnd.2.2.1, hnd2.2⟩, ?_⟩
    intro x hx
    exact ⟨hnd.2.2.2 hx, fun hxi => hnd2.1 (hxi ▸ hx)⟩
  · intro j hj
    apply hlt
    simp at hj ⊢
    tauto
  intro j hj
  obtain ⟨h1, h2, h3, h4⟩ := h j hj
  by_cases hji : j = i
  · subst hji
    have := h3 (by simp)
    simp [sentOn_append, responsesOn_append, sentOn, responsesOn, hnd2, hs, hr]
    refine ⟨h1, ?_, ?_⟩
    · intro r hr2
      rcases List.mem_append.1 hr2 with hr2 | hr2
      · exact this.1 r hr2
      · simp at hr2; subst hr2; exact hres
    · exact this.2
  · have e1 : ∀ out, responsesOn (Chan.outputRes j)
        (Action.recvResponse (Chan.outputRes i) res :: out)
          = responsesOn (Chan.outputRes j) out := by
      intro out; simp [responsesOn]; intro h; exact absurd h.symm hji
    simp only [sentOn_append, responsesOn_append, e1, sentOn, hs, hr, List.append_nil]
    refine ⟨h1, ?_, ?_, ?_⟩
    · intro hm
      simp [hji] at hm
      exact h2 hm
    · intro hm; exact h3 (by simp [hm])
    · intro hA hP
      simp [hji] at hP
      exact h4 (by simp [hji, hA]) hP

theorem Book.succ {ts : Transaction} {N : Nat} {rest new : List Nat} {i : Nat}
    {tr : List Action} (h : Book ts N (i :: rest) new tr) (res : Response)
    (hres : res.Error = none) (out : List Action)
    (hs : ∀ c, sentOn c out = []) (hr : ∀ c, responsesOn c out = []) :
    Book ts N rest new
      (tr ++ Action.recvResponse (Chan.outputRes i) res :: out) := by
  obtain ⟨hnd, hlt, h⟩ := h
  have hnd2 : i ∉ rest ∧ i ∉ new := by
    simp [List.nodup_append] at hnd
    tauto
  have hres2 : res = NewSimpleResponse none := by
    cases res; simp [Response.Error] at hres; simp [NewSimpleResponse, hres]
  refine ⟨?_, ?_, ?_⟩
  · simp [List.nodup_append, List.disjoint_left] at hnd ⊢
    tauto
  · intro j hj
    apply hlt
    simp at hj ⊢
    tauto
  intro j hj
  obtain ⟨h1, h2, h3, h4⟩ := h j hj
  by_cases hji : j = i
  · subst hji
    have := h3 (by simp)
    simp [sentOn_append, responsesOn_append, sentOn, responsesOn, hnd2, hs, hr]
    exact ⟨h1, _, by rw [hres2], this.1, this.2⟩
  · have e1 : ∀ out, responsesOn (Chan.outputRes j)
        (Action.recvResponse (Chan.outputRes i) res :: out)
          = responsesOn (Chan.outputRes j) out := by
      intro out; simp [responsesOn]; intro h; exact absurd h.symm hji
    simp only [sentOn_append, responsesOn_append, e1, sentOn, hs, hr, List.append_nil]
    refine ⟨h1, h2, ?_, ?_⟩
    · intro hm; exact h3 (by simp [hm])
    · intro hA hP
      exact h4 (by simp [hji, hA]) hP

theorem inv_rounds {ts : Transaction} {N : Nat} {P : List Nat} {tr : List Action}
    (h : Book ts N [] P tr) (hu : upstream tr = []) : Inv ts N (FanOut.rounds ts P) tr := by
  unfold FanOut.rounds
  split
  · rename_i hlen
    refine ⟨[], P, h, rfl, ?_, by simp, rfl, hu⟩
    intro hP; simp [hP] at hlen
  · rename_i hlen
    have hP : P = [] := by
      cases P with
      | nil => rfl
      | cons a l => simp at hlen
    subst hP
    exact ⟨[], [], h, rfl, rfl, rfl, hu⟩

theorem inv_collectNext {ts : Transaction} {N : Nat} {A P : List Nat} {tr : List Action}
    (h : Book ts N A P tr) (hu : upstream tr = []) :
    Inv ts N (FanOut.collectNext ts A P) tr := by
  cases A with
  | nil => exact inv_rounds h hu
  | cons a A => exact ⟨a :: A, P, h, rfl, by simp, rfl, rfl, hu⟩

theorem inv_dispatchNext {ts : Transaction} {N : Nat} {A P : List Nat} {tr : List Action}
    (h : Book ts N A P tr) (hu : upstream tr = []) :
    Inv ts N (FanOut.dispatchNext ts (A ++ P) P) tr := by
  cases P with
  | nil =>
    simp only [FanOut.dispatchNext, List.append_nil]
    exact inv_collectNext h hu
  | cons a P => exact ⟨A, a :: P, h, rfl, by simp, rfl, rfl, hu⟩

/-- Every step taken while a transaction is handled preserves the invariant. -/
theorem Inv.fanout_step {o : FanOut} {N : Nat} (w : Wired o N) {ts : Transaction} {pc pc1 : Pc}
    {tr out : List Action} {e : Event} (hI : Inv ts N pc tr) (he : e.inBody = true)
    (hs : o.step pc e = some (pc1, out)) : Inv ts N pc1 (tr ++ out) := by
  obtain ⟨A, P, hB, hR⟩ := hI
  have hdef : ∀ A P, Book ts N A P tr → upstream tr = [] →
      Inv ts N Pc.returned (tr ++ o.deferred) := by
    intro A P hB hu
    refine ⟨A, P, hB.keep _ (sentOn_deferred o) (responsesOn_deferred o), ?_⟩
    simp [PcRel, upstream_append, upstream_deferred, hu]
  cases pc with
  | loopHead =>
    cases e <;> simp [FanOut.step, Event.inBody] at hs he
  | recv => exact absurd hR (by simp [PcRel])
  | returned => simp [FanOut.step] at hs
  | dispatch ts1 targets todo =>
    obtain ⟨rfl, hne, rfl, rfl, hu⟩ := hR
    cases P with
    | nil => exact absurd rfl hne
    | cons i rest =>
      have hi : i < N := hB.2.1 i (by simp)
      simp only [FanOut.step, w.tsChan hi, w.resChan hi] at hs
      cases e <;> simp at hs
      · obtain ⟨rfl, rfl⟩ := hs
        exact hdef _ _ hB hu
      · obtain ⟨rfl, rfl⟩ := hs
        have hB2 := hB.dispatch
        have : A ++ i :: rest = (A ++ [i]) ++ rest := by simp
        rw [this]
        exact inv_dispatchNext hB2 (by simp [upstream_append, upstream, hu])
  | collect ts1 todo new =>
    obtain ⟨rfl, hne, rfl, rfl, hu⟩ := hR
    cases A with
    | nil => exact absurd rfl hne
    | cons i rest =>
      have hi : i < N := hB.2.1 i (by simp)
      simp only [FanOut.step, w.resChan hi] at hs
      cases e <;> simp at hs
      · obtain ⟨rfl, rfl⟩ := hs
        exact hdef _ _ hB hu
      · rename_i res
        by_cases hres : res.Error = none
        · simp [hres] at hs
          obtain ⟨rfl, rfl⟩ := hs
          exact inv_collectNext
            (hB.succ res hres _ (by simp [sentOn]) (by simp [responsesOn]))
            (by simp [upstream_append, upstream, hu])
        · simp [hres] at hs
          obtain ⟨rfl, rfl⟩ := hs
          refine ⟨rest, P ++ [i], hB.fail res hres _ (by simp [sentOn]) (by simp [responsesOn]),
            rfl, by simp, rfl, rfl, ?_⟩
          simp [upstream_append, upstream, hu]
  | retry ts1 todo new =>
    obtain ⟨rfl, hne, rfl, rfl, hu⟩ := hR
    cases e <;> simp [FanOut.step] at hs
    rename_i ok
    cases ok <;> simp at hs
    · obtain ⟨rfl, rfl⟩ := hs
      exact hdef _ _ hB hu
    · obtain ⟨rfl, rfl⟩ := hs
      simpa using inv_collectNext hB hu
  | respond ts1 =>
    obtain ⟨rfl, rfl, rfl, hu⟩ := hR
    cases e <;> simp [FanOut.step] at hs
    · obtain ⟨rfl, rfl⟩ := hs
      exact hdef _ _ hB hu
    · obtain ⟨rfl, rfl⟩ := hs
      refine ⟨[], [], hB.keep _ (by simp [sentOn]) (by simp [responsesOn]), rfl, rfl, ?_⟩
      simp [upstream_append, upstream, hu]

/-- Induction along a run: a property of program point and trace that every
step preserves holds at the end of every run that starts in it. -/
theorem run_induct (o : FanOut) (ok : Event → Prop) (I : Pc → List Action → Prop)
    (hstep : ∀ pc tr e pc1 out, I pc tr → ok e → o.step pc e = some (pc1, out) →
      I pc1 (tr ++ out)) :
    ∀ (evs : List Event) (pc : Pc) (tr0 : List Action) (pc2 : Pc) (tr : List Action),
      (∀ e ∈ evs, ok e) → I pc tr0 → o.run pc evs = some (pc2, tr) → I pc2 (tr0 ++ tr) := by
  intro evs
  induction evs with
  | nil =>
    intro pc tr0 pc2 tr _ hI hrun
    simp [FanOut.run] at hrun
    obtain ⟨rfl, rfl⟩ := hrun
    simpa using hI
  | cons e evs ih =>
    intro pc tr0 pc2 tr hok hI hrun
    simp only [FanOut.run] at hrun
    cases hs : o.step pc e with
    | none => simp [hs] at hrun
    | some r =>
      obtain ⟨pc1, out⟩ := r
      simp only [hs] at hrun
      cases hr : o.run pc1 evs with
      | none => simp [hr] at hrun
      | some r2 =>
        obtain ⟨pc3, tr3⟩ := r2
        simp [hr] at hrun
        obtain ⟨rfl, rfl⟩ := hrun
        have := ih pc1 (tr0 ++ out) pc3 tr3 (fun e he => hok e (by simp [he]))
          (hstep pc tr0 e pc1 out hI (hok e (by simp)) hs) hr
        simpa using this

theorem run_append (o : FanOut) (e1 e2 : List Event) : ∀ (pc : Pc),
    o.run pc (e1 ++ e2) =
      match o.run pc e1 with
      | none => none
      | some (pc1, t1) =>
        match o.run pc1 e2 with
        | none => none
        | some (pc2, t2) => some (pc2, t1 ++ t2) := by
  induction e1 with
  | nil =>
    intro pc
    simp only [List.nil_append, FanOut.run]
    cases o.run pc e2 with
    | none => rfl
    | some r => simp
  | cons e e1 ih =>
    intro pc
    rw [List.cons_append]
    cases hs : o.step pc e with
    | none => simp [FanOut.run, hs]
    | some r =>
      obtain ⟨pc1, out⟩ := r
      cases h1 : o.run pc1 e1 with
      | none => simp [FanOut.run, hs, ih pc1, h1]
      | some r1 =>
        obtain ⟨pc2, t1⟩ := r1
        cases h2 : o.run pc2 e2 with
        | none => simp [FanOut.run, hs, ih pc1, h1, h2]
        | some r2 => simp [FanOut.run, hs, ih pc1, h1, h2]

theorem rounds_ne_returned (ts : Transaction) (l : List Nat) :
    FanOut.rounds ts l ≠ Pc.returned := by
  unfold FanOut.rounds; split <;> simp

theorem collectNext_ne_returned (ts : Transaction) (a b : List Nat) :
    FanOut.collectNext ts a b ≠ Pc.returned := by
  cases a with
  | nil => exact rounds_ne_returned ts b
  | cons x a => simp [FanOut.collectNext]

theorem dispatchNext_ne_returned (ts : Transaction) (a b : List Nat) :
    FanOut.dispatchNext ts a b ≠ Pc.returned := by
  cases b with
  | nil => exact collectNext_ne_returned ts a []
  | cons x b => simp [FanOut.dispatchNext]

/-- Inside a transaction, a step that is not a cancellation does not make the
loop return. -/
theorem step_not_returned {o : FanOut} {pc pc1 : Pc} {out : List Action} {e : Event}
    (hpc : pc ≠ Pc.recv) (he : e.inBody = true) (hc : e.cancels = false)
    (hs : o.step pc e = some (pc1, out)) : pc1 ≠ Pc.returned := by
  cases pc with
  | loopHead => cases e <;> simp [FanOut.step, Event.inBody] at hs he
  | recv => exact absurd rfl hpc
  | returned => simp [FanOut.step] at hs
  | dispatch ts targets todo =>
    cases todo with
    | nil => simp [FanOut.step] at hs
    | cons i rest =>
      simp only [FanOut.step] at hs
      split at hs
      · cases e <;> simp [Event.cancels] at hs hc
        obtain ⟨rfl, rfl⟩ := hs
        exact dispatchNext_ne_returned _ _ _
      · simp at hs
  | collect ts todo new =>
    cases todo with
    | nil => simp [FanOut.step] at hs
    | cons i rest =>
      simp only [FanOut.step] at hs
      split at hs
      · cases e <;> simp [Event.cancels] at hs hc
        rename_i res
        by_cases hres : res.Error = none
        · simp [hres] at hs
          obtain ⟨rfl, rfl⟩ := hs
          exact collectNext_ne_returned _ _ _
        · simp [hres] at hs
          obtain ⟨rfl, rfl⟩ := hs
          simp
      · simp at hs
  | retry ts todo new =>
    cases e <;> simp [FanOut.step, Event.cancels] at hs hc
    subst hc
    simp at hs
    obtain ⟨rfl, rfl⟩ := hs
    exact collectNext_ne_returned _ _ _
  | respond ts =>
    cases e <;> simp [FanOut.step, Event.cancels] at hs hc
    obtain ⟨rfl, rfl⟩ := hs
    simp

theorem Inv.ne_recv {ts : Transaction} {N : Nat} {pc : Pc} {tr : List Action}
    (h : Inv ts N pc tr) : pc ≠ Pc.recv := by
  rintro rfl
  obtain ⟨A, P, _, hR⟩ := h
  exact hR

theorem Inv.init {o : FanOut} {N : Nat} (w : Wired o N) (ts : Transaction) :
    Inv ts N (FanOut.rounds ts o.outputNs) [] := by
  rw [w.ns]
  have hB : Book ts N [] (List.range N) [] := by
    refine ⟨by simpa using List.nodup_range N, by simp, ?_⟩
    intro i hi
    simp [sentOn, responsesOn, AllFail, hi]
  exact inv_rounds hB rfl

/-- The invariant holds after every run inside the handling of `ts`. -/
theorem Inv.fanout_run {o : FanOut} {N : Nat} (w : Wired o N) (ts : Transaction)
    (evs : List Event) (pc : Pc) (tr : List Action)
    (hbody : ∀ e ∈ evs, e.inBody = true)
    (hrun : o.run (FanOut.rounds ts o.outputNs) evs = some (pc, tr)) : Inv ts N pc tr := by
  have := run_induct o (fun e => e.inBody = true) (Inv ts N)
    (fun pc tr e pc1 out hI he hs => Inv.fanout_step w hI he hs) evs _ [] pc tr hbody
    (Inv.init w ts) hrun
  simpa using this

/-- Without a cancellation the loop has not returned. -/
theorem Inv.run_not_returned {o : FanOut} {N : Nat} (w : Wired o N) (ts : Transaction)
    (evs : List Event) (pc : Pc) (tr : List Action)
    (hbody : ∀ e ∈ evs, e.inBody = true) (hnc : ∀ e ∈ evs, e.cancels = false)
    (hrun : o.run (FanOut.rounds ts o.outputNs) evs = some (pc, tr)) :
    pc ≠ Pc.returned := by
  have := run_induct o (fun e => e.inBody = true ∧ e.cancels = false)
    (fun pc tr => Inv ts N pc tr ∧ pc ≠ Pc.returned)
    (fun pc tr e pc1 out hI he hs =>
      ⟨Inv.fanout_step w hI.1 he.1 hs, step_not_returned hI.1.ne_recv he.1 he.2 hs⟩)
    evs _ [] pc tr (fun e he => ⟨hbody e he, hnc e he⟩)
    ⟨Inv.init w ts, rounds_ne_returned _ _⟩ hrun
  exact this.2

theorem ShallowCopy_eq (m : Message) : m.ShallowCopy = m := by
  cases m; simp [Message.ShallowCopy]

theorem AllFail.not_ok {rs : List Response} (h : AllFail rs) :
    NewSimpleResponse none ∉ rs := by
  intro hm
  exact h _ hm rfl

/-- The acknowledgement of one transaction, from line 129 on, without
cancellation. -/
theorem ack_in_body (outputs : List Output) (o : FanOut)
    (ts : Transaction) (evs : List Event) (pc : Pc) (tr : List Action)
    (hnew : NewFanOut outputs = .ok o)
    (hbody : ∀ e ∈ evs, e.inBody = true) (hnc : ∀ e ∈ evs, e.cancels = false)
    (hrun : o.run (FanOut.rounds ts o.outputNs) evs = some (pc, tr)) :
    (upstream tr = [] ∨ upstream tr = [(ts.ResponseChan, NewSimpleResponse none)]) ∧
    (upstream tr ≠ [] → ∀ i, i < outputs.length →
      (responsesOn (Chan.outputRes i) tr).getLast? = some (NewSimpleResponse none)) ∧
    ((∃ i r, i < outputs.length ∧ (responsesOn (Chan.outputRes i) tr).getLast? = some r ∧
      r.Error ≠ none) → upstream tr = []) ∧
    ((∀ i, i < outputs.length → NewSimpleResponse none ∈ responsesOn (Chan.outputRes i) tr) →
      upstream tr ≠ [] ∨ pc = Pc.respond ts) := by
  have w := NewFanOut_wired outputs o hnew
  have hI := Inv.fanout_run w ts evs pc tr hbody hrun
  have hnr := Inv.run_not_returned w ts evs pc tr hbody hnc hrun
  obtain ⟨A, P, hB, hR⟩ := hI
  have h1 : upstream tr = [] ∨ upstream tr = [(ts.ResponseChan, NewSimpleResponse none)] := by
    cases pc <;> simp only [PcRel] at hR <;> tauto
  have h2 : upstream tr ≠ [] → ∀ i, i < outputs.length →
      (responsesOn (Chan.outputRes i) tr).getLast? = some (NewSimpleResponse none) := by
    intro hne i hi
    have hAP : A = [] ∧ P = [] := by
      cases pc <;> simp only [PcRel] at hR <;> tauto
    obtain ⟨_, _, _, h4⟩ := hB.2.2 i hi
    obtain ⟨fs, hfs, _, _⟩ := h4 (by simp [hAP.1]) (by simp [hAP.2])
    simp [hfs]
  refine ⟨h1, h2, ?_, ?_⟩
  · rintro ⟨i, r, hi, hlast, hr⟩
    by_contra hne
    have := h2 hne i hi
    rw [hlast] at this
    simp at this
    subst this
    exact hr rfl
  · intro hall
    have hA : A = [] := by
      cases A with
      | nil => rfl
      | cons a A =>
        have ha : a < outputs.length := hB.2.1 a (by simp)
        exact absurd (hall a ha) ((hB.2.2 a ha).2.2.1 (by simp)).1.not_ok
    have hP : P = [] := by
      cases P with
      | nil => rfl
      | cons a P =>
        have ha : a < outputs.length := hB.2.1 a (by simp)
        exact absurd (hall a ha) ((hB.2.2 a ha).2.1 (by simp)).1.not_ok
    subst hA hP
    cases pc with
    | loopHead => left; simp [hR.2.2]
    | recv => exact absurd hR (by simp [PcRel])
    | returned => exact absurd rfl hnr
    | dispatch ts1 targets todo => exact absurd hR.2.2.2.1.symm hR.2.1
    | collect ts1 todo new => exact absurd hR.2.2.1.symm hR.2.1
    | retry ts1 todo new => exact absurd hR.2.2.2.1.symm hR.2.1
    | respond ts1 => right; rw [hR.1]

theorem failures_of_allFail {rs : List Response} (h : AllFail rs) : failures rs = rs := by
  unfold failures
  rw [List.filter_eq_self]
  intro r hr
  simpa using h r hr

theorem failures_append (a b : List Response) : failures (a ++ b) = failures a ++ failures b := by
  simp [failures]

theorem first_ok_unique : ∀ (fs fs1 rest : List Response),
    fs ++ NewSimpleResponse none :: rest = fs1 ++ [NewSimpleResponse none] →
    AllFail fs → AllFail fs1 → fs = fs1 ∧ rest = [] := by
  intro fs
  induction fs with
  | nil =>
    intro fs1 rest h hf hf1
    cases fs1 with
    | nil => simpa using h
    | cons x fs1 =>
      simp at h
      exact absurd rfl (hf1 x (by simp) |> fun hx => by rw [← h.1] at hx; exact hx)
  | cons a fs ih =>
    intro fs1 rest h hf hf1
    cases fs1 with
    | nil => simp at h
    | cons x fs1 =>
      simp at h
      obtain ⟨rfl, h⟩ := h
      have := ih fs1 rest h (fun r hr => hf r (by simp [hr])) (fun r hr => hf1 r (by simp [hr]))
      exact ⟨by rw [this.1], this.2⟩

/-- The dispatches of one transaction to output `i`, from line 129 on. -/
theorem dispatch_count_in_body (outputs : List Output) (o : FanOut)
    (ts : Transaction) (evs : List Event) (pc : Pc) (tr : List Action) (i : Nat)
    (hnew : NewFanOut outputs = .ok o) (hi : i < outputs.length)
    (hbody : ∀ e ∈ evs, e.inBody = true)
    (hrun : o.run (FanOut.rounds ts o.outputNs) evs = some (pc, tr)) :
    (∀ tx ∈ sentOn (Chan.outputTs i) tr,
      tx = NewTransaction ts.Payload (Chan.outputRes i)) ∧
    (sentOn (Chan.outputTs i) tr).length
      ≤ (failures (responsesOn (Chan.outputRes i) tr)).length + 1 ∧
    (∀ fs rest, responsesOn (Chan.outputRes i) tr = fs ++ NewSimpleResponse none :: rest →
      AllFail fs →
      rest = [] ∧ (sentOn (Chan.outputTs i) tr).length = fs.length + 1) := by
  have w := NewFanOut_wired outputs o hnew
  obtain ⟨A, P, hB, _⟩ := Inv.fanout_run w ts evs pc tr hbody hrun
  obtain ⟨h1, h2, h3, h4⟩ := hB.2.2 i hi
  refine ⟨?_, ?_, ?_⟩
  · simpa [ShallowCopy_eq] using h1
  · by_cases hP : i ∈ P
    · obtain ⟨hf, hl⟩ := h2 hP
      rw [failures_of_allFail hf]; omega
    · by_cases hA : i ∈ A
      · obtain ⟨hf, hl⟩ := h3 hA
        rw [failures_of_allFail hf]; omega
      · obtain ⟨fs, hfs, hf, hl⟩ := h4 hA hP
        rw [hfs, failures_append, failures_of_allFail hf]
        simp [failures, NewSimpleResponse, Response.Error]
        omega
  · intro fs rest hfs hf
    have hin : NewSimpleResponse none ∈ responsesOn (Chan.outputRes i) tr := by
      rw [hfs]; simp
    by_cases hP : i ∈ P
    · exact absurd hin (h2 hP).1.not_ok
    · by_cases hA : i ∈ A
      · exact absurd hin (h3 hA).1.not_ok
      · obtain ⟨fs1, hfs1, hf1, hl⟩ := h4 hA hP
        rw [hfs1] at hfs
        obtain ⟨rfl, rfl⟩ := first_ok_unique fs fs1 rest hfs.symm hf hf1
        exact ⟨rfl, hl⟩

theorem run_single (o : FanOut) (pc pc1 : Pc) (e : Event) (out : List Action)
    (h : o.step pc e = some (pc1, out)) : o.run pc [e] = some (pc1, out) := by
  simp [FanOut.run, h]

theorem run_returned (o : FanOut) (evs : List Event) (h : evs ≠ []) :
    o.run Pc.returned evs = none := by
  cases evs with
  | nil => exact absurd rfl h
  | cons e evs => simp [FanOut.run, FanOut.step]

/-- A cancellation while one transaction is handled, from line 129 on. -/
theorem cancel_in_body (outputs : List Output) (o : FanOut)
    (ts : Transaction) (evs : List Event) (pc : Pc) (tr : List Action) (e : Event)
    (hnew : NewFanOut outputs = .ok o)
    (hbody : ∀ e ∈ evs, e.inBody = true)
    (hrun : o.run (FanOut.rounds ts o.outputNs) evs = some (pc, tr))
    (hcancel : (pc.inDispatch = true ∧ e = Event.closeSignal) ∨
      (pc.inCollect = true ∧ e = Event.closeSignal) ∨
      (pc.inRetry = true ∧ e = Event.retry false)) :
    o.run (FanOut.rounds ts o.outputNs) (evs ++ [e])
      = some (Pc.returned, tr ++ o.deferred) ∧
    upstream (tr ++ o.deferred) = [] ∧
    ∀ evs2, evs2 ≠ [] → o.run (FanOut.rounds ts o.outputNs) (evs ++ [e] ++ evs2) = none := by
  have w := NewFanOut_wired outputs o hnew
  obtain ⟨A, P, hB, hR⟩ := Inv.fanout_run w ts evs pc tr hbody hrun
  have hstep : o.step pc e = some (Pc.returned, o.deferred) ∧ upstream tr = [] := by
    cases pc with
    | loopHead => simp [Pc.inDispatch, Pc.inCollect, Pc.inRetry] at hcancel
    | recv => simp [Pc.inDispatch, Pc.inCollect, Pc.inRetry] at hcancel
    | returned => simp [Pc.inDispatch, Pc.inCollect, Pc.inRetry] at hcancel
    | respond ts1 => simp [Pc.inDispatch, Pc.inCollect, Pc.inRetry] at hcancel
    | dispatch ts1 targets todo =>
      simp [Pc.inDispatch, Pc.inCollect, Pc.inRetry] at hcancel
      subst hcancel
      obtain ⟨rfl, hne, rfl, rfl, hu⟩ := hR
      cases P with
      | nil => exact absurd rfl hne
      | cons i rest =>
        have hi : i < outputs.length := hB.2.1 i (by simp)
        simp [FanOut.step, w.tsChan hi, w.resChan hi, hu]
    | collect ts1 todo new =>
      simp [Pc.inDispatch, Pc.inCollect, Pc.inRetry] at hcancel
      subst hcancel
      obtain ⟨rfl, hne, rfl, rfl, hu⟩ := hR
      cases A with
      | nil => exact absurd rfl hne
      | cons i rest =>
        have hi : i < outputs.length := hB.2.1 i (by simp)
        simp [FanOut.step, w.resChan hi, hu]
    | retry ts1 todo new =>
      simp [Pc.inDispatch, Pc.inCollect, Pc.inRetry] at hcancel
      subst hcancel
      simp [FanOut.step, hR.2.2.2.2]
  have hrun1 : o.run (FanOut.rounds ts o.outputNs) (evs ++ [e])
      = some (Pc.returned, tr ++ o.deferred) := by
    rw [run_append, hrun]
    simp [run_single o pc Pc.returned e o.deferred hstep.1]
  refine ⟨hrun1, by simp [upstream_append, upstream_deferred, hstep.2], ?_⟩
  intro evs2 h2
  rw [run_append, hrun1]
  simp [run_returned o evs2 h2]

/-- A run of the loop that has come back to its head, reads `running` as 1
and receives `ts` continues as the handling of `ts` from line 129. -/
theorem loop_handles (o : FanOut) (evs0 evs : List Event) (tr0 trAll : List Action)
    (ts : Transaction) (pc : Pc)
    (hpre : o.loop evs0 = some (Pc.loopHead, tr0))
    (hrun : o.loop (evs0 ++ Event.load 1 :: Event.transaction ts :: evs) = some (pc, trAll)) :
    ∃ tr, o.run (FanOut.rounds ts o.outputNs) evs = some (pc, tr) ∧
      trAll = tr0 ++ Action.recvTransaction ts :: Action.incr Counter.mMsgsRcvd :: tr := by
  unfold FanOut.loop at hpre hrun
  rw [run_append, hpre] at hrun
  simp only [FanOut.run, FanOut.step] at hrun
  cases h : o.run (FanOut.rounds ts o.outputNs) evs with
  | none => simp [h] at hrun
  | some r =>
    obtain ⟨pc1, tr⟩ := r
    simp [h] at hrun
    exact ⟨tr, by rw [hrun.1], by rw [← hrun.2]⟩

theorem loop_of_body (o : FanOut) (evs0 evs : List Event) (tr0 : List Action)
    (ts : Transaction) (r : Option (Pc × List Action))
    (hpre : o.loop evs0 = some (Pc.loopHead, tr0))
    (hrun : o.run (FanOut.rounds ts o.outputNs) evs = r) :
    o.loop (evs0 ++ Event.load 1 :: Event.transaction ts :: evs)
      = r.map (fun q =>
          (q.1, tr0 ++ Action.recvTransaction ts :: Action.incr Counter.mMsgsRcvd :: q.2)) := by
  unfold FanOut.loop at hpre ⊢
  rw [run_append, hpre]
  simp only [FanOut.run, FanOut.step]
  cases r with
  | none => simp [hrun]
  | some q => simp [hrun]

/-- C1: for every transaction `ts` the loop receives (after any earlier run
`evs0` that brought it back to its head) and handles without cancellation,
the actions `tr` since the receipt contain at most one response upstream,
always the success response on the sink of `ts`; when it has been sent the
latest response of every output is a success (so nothing is sent while some
output's latest response is a failure); and once every output has returned a
success the response has been sent or is the value the loop is offering in
the select of line 162. -/
theorem fanout_ack_iff_all_succeeded (outputs : List Output) (o : FanOut)
    (ts : Transaction) (evs0 evs : List Event) (tr0 trAll : List Action) (pc : Pc)
    (hnew : NewFanOut outputs = .ok o)
    (hpre : o.loop evs0 = some (Pc.loopHead, tr0))
    (hbody : ∀ e ∈ evs, e.inBody = true) (hnc : ∀ e ∈ evs, e.cancels = false)
    (hrun : o.loop (evs0 ++ Event.load 1 :: Event.transaction ts :: evs) = some (pc, trAll)) :
    ∃ tr, trAll = tr0 ++ Action.recvTransaction ts :: Action.incr Counter.mMsgsRcvd :: tr ∧
      (upstream tr = [] ∨ upstream tr = [(ts.ResponseChan, NewSimpleResponse none)]) ∧
      (upstream tr ≠ [] → ∀ i, i < outputs.length →
        (responsesOn (Chan.outputRes i) tr).getLast? = some (NewSimpleResponse none)) ∧
      ((∃ i r, i < outputs.length ∧
          (responsesOn (Chan.outputRes i) tr).getLast? = some r ∧ r.Error ≠ none) →
        upstream tr = []) ∧
      ((∀ i, i < outputs.length →
          NewSimpleResponse none ∈ responsesOn (Chan.outputRes i) tr) →
        upstream tr ≠ [] ∨ pc = Pc.respond ts) := by
  obtain ⟨tr, hbodyrun, htr⟩ := loop_handles o evs0 evs tr0 trAll ts pc hpre hrun
  exact ⟨tr, htr, ack_in_body outputs o ts evs pc tr hnew hbody hnc hbodyrun⟩

/-- C1 at three outputs, output 1 failing twice before its success. -/
theorem fanout_ack_iff_all_succeeded_witness :
    NewFanOut exOutputs = .ok exFanOut ∧
    exFanOut.loop [] = some (Pc.loopHead, []) ∧
    exFanOut.loop ([] ++ Event.load 1 :: Event.transaction exTs :: exRetrySchedule)
      = some (Pc.loopHead,
          [] ++ Action.recvTransaction exTs :: Action.incr Counter.mMsgsRcvd :: exRetryTrace) ∧
    ∃ tr, [] ++ Action.recvTransaction exTs :: Action.incr Counter.mMsgsRcvd :: exRetryTrace
        = [] ++ Action.recvTransaction exTs :: Action.incr Counter.mMsgsRcvd :: tr ∧
      (upstream tr = [] ∨ upstream tr = [(exTs.ResponseChan, NewSimpleResponse none)]) ∧
      (upstream tr ≠ [] → ∀ i, i < exOutputs.length →
        (responsesOn (Chan.outputRes i) tr).getLast? = some (NewSimpleResponse none)) ∧
      ((∃ i r, i < exOutputs.length ∧
          (responsesOn (Chan.outputRes i) tr).getLast? = some r ∧ r.Error ≠ none) →
        upstream tr = []) ∧
      ((∀ i, i < exOutputs.length →
          NewSimpleResponse none ∈ responsesOn (Chan.outputRes i) tr) →
        upstream tr ≠ [] ∨ Pc.loopHead = Pc.respond exTs) :=
  ⟨rfl, rfl, by decide,
   fanout_ack_iff_all_succeeded exOutputs exFanOut exTs [] exRetrySchedule [] _ Pc.loopHead
     rfl rfl (by decide) (by decide) (by decide)⟩

/-- C2: for every transaction `ts` the loop receives, whatever the outputs
answer and wherever the run is cut, in the actions `tr` since the receipt
every transaction sent to output `i` carries the upstream payload and the
private response channel of `i`; the number of dispatches to `i` is at most
one more than the number of failures `i` has answered (a re-dispatch needs a
failure); and when `i` answers failure `f` times before its first success,
that success is its last response and `i` has been dispatched to exactly
`f + 1` times. -/
theorem fanout_dispatch_count (outputs : List Output) (o : FanOut)
    (ts : Transaction) (evs0 evs : List Event) (tr0 trAll : List Action) (pc : Pc) (i : Nat)
    (hnew : NewFanOut outputs = .ok o) (hi : i < outputs.length)
    (hpre : o.loop evs0 = some (Pc.loopHead, tr0))
    (hbody : ∀ e ∈ evs, e.inBody = true)
    (hrun : o.loop (evs0 ++ Event.load 1 :: Event.transaction ts :: evs) = some (pc, trAll)) :
    ∃ tr, trAll = tr0 ++ Action.recvTransaction ts :: Action.incr Counter.mMsgsRcvd :: tr ∧
      (∀ tx ∈ sentOn (Chan.outputTs i) tr,
        tx = NewTransaction ts.Payload (Chan.outputRes i)) ∧
      (sentOn (Chan.outputTs i) tr).length
        ≤ (failures (responsesOn (Chan.outputRes i) tr)).length + 1 ∧
      (∀ fs rest,
        responsesOn (Chan.outputRes i) tr = fs ++ NewSimpleResponse none :: rest →
        AllFail fs →
        rest = [] ∧ (sentOn (Chan.outputTs i) tr).length = fs.length + 1) := by
  obtain ⟨tr, hbodyrun, htr⟩ := loop_handles o evs0 evs tr0 trAll ts pc hpre hrun
  exact ⟨tr, htr, dispatch_count_in_body outputs o ts evs pc tr i hnew hi hbody hbodyrun⟩

/-- C2 on the example of the claim: output 1 fails twice and then succeeds and
is dispatched to three times, outputs 0 and 2 once each, and upstream gets one
success, after the third dispatch to output 1. -/
theorem fanout_dispatch_count_witness :
    NewFanOut exOutputs = .ok exFanOut ∧
    exFanOut.loop ([] ++ Event.load 1 :: Event.transaction exTs :: exRetrySchedule)
      = some (Pc.loopHead,
          [] ++ Action.recvTransaction exTs :: Action.incr Counter.mMsgsRcvd :: exRetryTrace) ∧
    responsesOn (Chan.outputRes 1) exRetryTrace
      = [⟨some (Err.other 1)⟩, ⟨some (Err.other 1)⟩] ++ NewSimpleResponse none :: [] ∧
    (sentOn (Chan.outputTs 1) exRetryTrace).length = 3 ∧
    (sentOn (Chan.outputTs 0) exRetryTrace).length = 1 ∧
    (sentOn (Chan.outputTs 2) exRetryTrace).length = 1 ∧
    upstream exRetryTrace = [(exTs.ResponseChan, NewSimpleResponse none)] ∧
    exRetryTrace.getLast?
      = some (Action.sendResponse exTs.ResponseChan (NewSimpleResponse none)) ∧
    ∃ tr, [] ++ Action.recvTransaction exTs :: Action.incr Counter.mMsgsRcvd :: exRetryTrace
        = [] ++ Action.recvTransaction exTs :: Action.incr Counter.mMsgsRcvd :: tr ∧
      (∀ tx ∈ sentOn (Chan.outputTs 1) tr,
        tx = NewTransaction exTs.Payload (Chan.outputRes 1)) ∧
      (sentOn (Chan.outputTs 1) tr).length
        ≤ (failures (responsesOn (Chan.outputRes 1) tr)).length + 1 ∧
      (∀ fs rest,
        responsesOn (Chan.outputRes 1) tr = fs ++ NewSimpleResponse none :: rest →
        AllFail fs →
        rest = [] ∧ (sentOn (Chan.outputTs 1) tr).length = fs.length + 1) :=
  ⟨rfl, by decide, by decide, by decide, by decide, by decide, by decide, by decide,
   fanout_dispatch_count exOutputs exFanOut exTs [] exRetrySchedule [] _ Pc.loopHead 1
     rfl (by decide) rfl (by decide) (by decide)⟩

/-- C4: when, while the loop handles a transaction `ts` it has received, the
close signal fires in the dispatch phase or in the collect phase, or `Retry`
returns false after a failed response, the loop returns having run only its
deferred closes; the actions since the receipt of `ts` contain no response
upstream, and the loop takes no further step. -/
theorem fanout_cancel_no_ack (outputs : List Output) (o : FanOut)
    (ts : Transaction) (evs0 evs : List Event) (tr0 trAll : List Action) (pc : Pc)
    (e : Event)
    (hnew : NewFanOut outputs = .ok o)
    (hpre : o.loop evs0 = some (Pc.loopHead, tr0))
    (hbody : ∀ e ∈ evs, e.inBody = true)
    (hrun : o.loop (evs0 ++ Event.load 1 :: Event.transaction ts :: evs) = some (pc, trAll))
    (hcancel : (pc.inDispatch = true ∧ e = Event.closeSignal) ∨
      (pc.inCollect = true ∧ e = Event.closeSignal) ∨
      (pc.inRetry = true ∧ e = Event.retry false)) :
    ∃ tr, trAll = tr0 ++ Action.recvTransaction ts :: Action.incr Counter.mMsgsRcvd :: tr ∧
      o.loop (evs0 ++ Event.load 1 :: Event.transaction ts :: (evs ++ [e]))
        = some (Pc.returned, trAll ++ o.deferred) ∧
      upstream (tr ++ o.deferred) = [] ∧
      ∀ evs2, evs2 ≠ [] →
        o.loop (evs0 ++ Event.load 1 :: Event.transaction ts :: (evs ++ [e] ++ evs2))
          = none := by
  obtain ⟨tr, hbodyrun, htr⟩ := loop_handles o evs0 evs tr0 trAll ts pc hpre hrun
  obtain ⟨h1, h2, h3⟩ := cancel_in_body outputs o ts evs pc tr e hnew hbody hbodyrun hcancel
  refine ⟨tr, htr, ?_, h2, ?_⟩
  · rw [loop_of_body o evs0 (evs ++ [e]) tr0 ts _ hpre h1, htr]
    simp
  · intro evs2 hne
    rw [loop_of_body o evs0 (evs ++ [e] ++ evs2) tr0 ts _ hpre (h3 evs2 hne)]
    rfl

/-- C4 at three outputs: the close signal fires after the payload was handed
to output 0 only. -/
theorem fanout_cancel_no_ack_witness :
    NewFanOut exOutputs = .ok exFanOut ∧
    exFanOut.loop ([] ++ Event.load 1 :: Event.transaction exTs :: [Event.accepted])
      = some (Pc.dispatch exTs [0, 1, 2] [1, 2], exCancelTrace) ∧
    ∃ tr, exCancelTrace
        = [] ++ Action.recvTransaction exTs :: Action.incr Counter.mMsgsRcvd :: tr ∧
      exFanOut.loop ([] ++ Event.load 1 :: Event.transaction exTs
          :: ([Event.accepted] ++ [Event.closeSignal]))
        = some (Pc.returned, exCancelTrace ++ exFanOut.deferred) ∧
      upstream (tr ++ exFanOut.deferred) = [] ∧
      ∀ evs2, evs2 ≠ [] →
        exFanOut.loop ([] ++ Event.load 1 :: Event.transaction exTs
          :: ([Event.accepted] ++ [Event.closeSignal] ++ evs2)) = none :=
  ⟨rfl, by decide,
   fanout_cancel_no_ack exOutputs exFanOut exTs [] [Event.accepted] [] exCancelTrace
     (Pc.dispatch exTs [0, 1, 2] [1, 2]) Event.closeSignal rfl rfl (by decide) (by decide)
     (Or.inl ⟨rfl, rfl⟩)⟩

/-- A step either returns, running exactly the deferred closure, or closes
nothing. -/
theorem step_closes {o : FanOut} {pc pc1 : Pc} {out : List Action} {e : Event}
    (hs : o.step pc e = some (pc1, out)) :
    (pc1 = Pc.returned ∧ out = o.deferred) ∨ (pc1 ≠ Pc.returned ∧ closes out = []) := by
  cases pc with
  | loopHead =>
    cases e <;> simp [FanOut.step] at hs
    rename_i running
    by_cases h : running = 1
    · simp [h] at hs; obtain ⟨rfl, rfl⟩ := hs; right; simp [closes]
    · simp [h] at hs; obtain ⟨rfl, rfl⟩ := hs; left; simp
  | recv =>
    cases e <;> simp [FanOut.step] at hs
    · obtain ⟨rfl, rfl⟩ := hs; right; exact ⟨rounds_ne_returned _ _, by simp [closes]⟩
    · obtain ⟨rfl, rfl⟩ := hs; left; simp
    · obtain ⟨rfl, rfl⟩ := hs; left; simp
  | returned => simp [FanOut.step] at hs
  | dispatch ts targets todo =>
    cases todo with
    | nil => simp [FanOut.step] at hs
    | cons i rest =>
      simp only [FanOut.step] at hs
      split at hs
      · cases e <;> simp at hs
        · obtain ⟨rfl, rfl⟩ := hs; left; simp
        · obtain ⟨rfl, rfl⟩ := hs; right
          exact ⟨dispatchNext_ne_returned _ _ _, by simp [closes]⟩
      · simp at hs
  | collect ts todo new =>
    cases todo with
    | nil => simp [FanOut.step] at hs
    | cons i rest =>
      simp only [FanOut.step] at hs
      split at hs
      · cases e <;> simp at hs
        · obtain ⟨rfl, rfl⟩ := hs; left; simp
        · rename_i res
          by_cases hres : res.Error = none
          · simp [hres] at hs
            obtain ⟨rfl, rfl⟩ := hs; right
            exact ⟨collectNext_ne_returned _ _ _, by simp [closes]⟩
          · simp [hres] at hs
            obtain ⟨rfl, rfl⟩ := hs; right; simp [closes]
      · simp at hs
  | retry ts todo new =>
    cases e <;> simp [FanOut.step] at hs
    rename_i ok
    cases ok <;> simp at hs
    · obtain ⟨rfl, rfl⟩ := hs; left; simp
    · obtain ⟨rfl, rfl⟩ := hs; right
      exact ⟨collectNext_ne_returned _ _ _, by simp [closes]⟩
  | respond ts =>
    cases e <;> simp [FanOut.step] at hs
    · obtain ⟨rfl, rfl⟩ := hs; left; simp
    · obtain ⟨rfl, rfl⟩ := hs; right; simp [closes]

/-- Wherever it can occur, a stopping choice of the environment makes the
loop return. -/
theorem step_stops {o : FanOut} {pc pc1 : Pc} {out : List Action} {e : Event}
    (he : e.stops = true) (hs : o.step pc e = some (pc1, out)) : pc1 = Pc.returned := by
  rcases step_closes hs with h | h
  · exact h.1
  · exfalso
    cases pc with
    | loopHead =>
      cases e <;> simp [FanOut.step, Event.stops] at hs he
      simp [he] at hs
      exact h.1 hs.1.symm
    | recv =>
      cases e <;> simp [FanOut.step, Event.stops] at hs he
      · exact h.1 hs.1.symm
      · exact h.1 hs.1.symm
    | returned => simp [FanOut.step] at hs
    | dispatch ts targets todo =>
      cases todo with
      | nil => simp [FanOut.step] at hs
      | cons i rest =>
        simp only [FanOut.step] at hs
        split at hs
        · cases e <;> simp [Event.stops] at hs he
          exact h.1 hs.1.symm
        · simp at hs
    | collect ts todo new =>
      cases todo with
      | nil => simp [FanOut.step] at hs
      | cons i rest =>
        simp only [FanOut.step] at hs
        split at hs
        · cases e <;> simp [Event.stops] at hs he
          exact h.1 hs.1.symm
        · simp at hs
    | retry ts todo new =>
      cases e <;> simp [FanOut.step, Event.stops] at hs he
      subst he
      simp at hs
      exact h.1 hs.1.symm
    | respond ts =>
      cases e <;> simp [FanOut.step, Event.stops] at hs he
      exact h.1 hs.1.symm

/-- C5: when `loop` has returned, its last actions are the closes of the
`N` output transaction channels, each once, followed by the close of the
closed signal, and nothing was closed before; while the loop has not returned
no channel has been closed; and every reason to stop (running read as not 1,
upstream closed, close signal, `Retry` false) makes the loop return. -/
theorem fanout_close_on_return (outputs : List Output) (o : FanOut)
    (evs : List Event) (pc : Pc) (tr : List Action)
    (hnew : NewFanOut outputs = .ok o)
    (hrun : o.loop evs = some (pc, tr)) :
    (pc = Pc.returned → ∃ tr0, closes tr0 = [] ∧
      tr = tr0 ++ ((List.range outputs.length).map (fun i => Action.close (Chan.outputTs i))
        ++ [Action.close Chan.closedChan])) ∧
    (pc = Pc.returned → ∀ i, i < outputs.length →
      (closes tr).count (Chan.outputTs i) = 1) ∧
    (pc ≠ Pc.returned → closes tr = []) ∧
    (∀ e pc1 tr1, e.stops = true → o.loop (evs ++ [e]) = some (pc1, tr1) →
      pc1 = Pc.returned) := by
  have w := NewFanOut_wired outputs o hnew
  have hdef : o.deferred = (List.range outputs.length).map (fun i => Action.close (Chan.outputTs i))
        ++ [Action.close Chan.closedChan] := by
    simp [FanOut.deferred, w.tsChans, w.closed]
  have hK := run_induct o (fun _ => True)
    (fun pc tr => (pc = Pc.returned → ∃ tr0, closes tr0 = [] ∧ tr = tr0 ++ o.deferred) ∧
      (pc ≠ Pc.returned → closes tr = []))
    (by
      intro pc tr e pc1 out hI _ hs
      have hpc : pc ≠ Pc.returned := by
        rintro rfl; simp [FanOut.step] at hs
      rcases step_closes hs with h | h
      · refine ⟨fun _ => ⟨tr, hI.2 hpc, by rw [h.2]⟩, fun hne => absurd h.1 hne⟩
      · refine ⟨fun heq => absurd heq h.1, fun _ => ?_⟩
        simp [closes_append, hI.2 hpc, h.2])
    evs Pc.loopHead [] pc tr (fun _ _ => trivial)
    ⟨fun h => by simp at h, fun _ => rfl⟩ hrun
  simp only [List.nil_append] at hK
  refine ⟨?_, ?_, hK.2, ?_⟩
  · intro hpc
    rw [← hdef]
    exact hK.1 hpc
  · intro hpc i hi
    obtain ⟨tr0, h0, rfl⟩ := hK.1 hpc
    rw [closes_append, h0, closes_deferred, w.tsChans, w.closed, List.nil_append,
      List.count_append]
    have h1 : List.count (Chan.outputTs i) [Chan.closedChan] = 0 := by
      simp [List.count_cons]
    rw [h1, Nat.add_zero]
    apply List.count_eq_one_of_mem
    · apply List.Nodup.map _ (List.nodup_range _)
      intro a b hab
      exact Chan.outputTs.inj hab
    · simp [hi]
  · intro e pc1 tr1 he hrun1
    unfold FanOut.loop at hrun hrun1
    rw [run_append, hrun] at hrun1
    simp only [FanOut.run] at hrun1
    cases hs : o.step pc e with
    | none => simp [hs] at hrun1
    | some r =>
      obtain ⟨pc2, out⟩ := r
      simp [hs] at hrun1
      rw [← hrun1.1]
      exact step_stops he hs

/-- C5 at three outputs: upstream closes its channel after one transaction
was handled. -/
theorem fanout_close_on_return_witness :
    NewFanOut exOutputs = .ok exFanOut ∧
    exFanOut.loop ([Event.load 1, Event.transaction exTs] ++ exRetrySchedule
        ++ [Event.load 1, Event.inputClosed])
      = some (Pc.returned,
          [Action.recvTransaction exTs, Action.incr Counter.mMsgsRcvd] ++ exRetryTrace
            ++ [Action.close (Chan.outputTs 0), Action.close (Chan.outputTs 1),
                Action.close (Chan.outputTs 2), Action.close Chan.closedChan]) ∧
    (closes ([Action.recvTransaction exTs, Action.incr Counter.mMsgsRcvd] ++ exRetryTrace
            ++ [Action.close (Chan.outputTs 0), Action.close (Chan.outputTs 1),
                Action.close (Chan.outputTs 2), Action.close Chan.closedChan])).count
        (Chan.outputTs 2) = 1 :=
  ⟨rfl, by decide,
   (fanout_close_on_return exOutputs exFanOut
      ([Event.load 1, Event.transaction exTs] ++ exRetrySchedule
        ++ [Event.load 1, Event.inputClosed])
      Pc.returned _ rfl (by decide)).2.1 rfl 2 (by decide)⟩

theorem rounds_eq_dispatchNext (ts : Transaction) (l : List Nat) :
    FanOut.rounds ts l = FanOut.dispatchNext ts l l := by
  cases l with
  | nil => simp [FanOut.rounds, FanOut.dispatchNext, FanOut.collectNext]
  | cons a l => simp [FanOut.rounds, FanOut.dispatchNext]

/-- The dispatch phase when every send is accepted. -/
theorem run_dispatch_all {o : FanOut} {N : Nat} (w : Wired o N) (ts : Transaction)
    (targets : List Nat) : ∀ (todo : List Nat), (∀ i ∈ todo, i < N) →
    o.run (FanOut.dispatchNext ts targets todo) (List.replicate todo.length Event.accepted)
      = some (FanOut.collectNext ts targets [],
          todo.map (fun i => Action.sendTransaction (Chan.outputTs i)
            (NewTransaction ts.Payload.ShallowCopy (Chan.outputRes i)))) := by
  intro todo
  induction todo with
  | nil => intro _; simp [FanOut.dispatchNext, FanOut.run]
  | cons i rest ih =>
    intro h
    have hi : i < N := h i (by simp)
    have := ih (fun j hj => h j (by simp [hj]))
    have e : FanOut.dispatchNext ts targets (i :: rest) = Pc.dispatch ts targets (i :: rest) :=
      rfl
    rw [e, List.length_cons, List.replicate_succ]
    simp only [FanOut.run, FanOut.step, w.tsChan hi, w.resChan hi, this]
    simp

/-- The collect phase when every response is a success. -/
theorem run_collect_all {o : FanOut} {N : Nat} (w : Wired o N) (ts : Transaction) :
    ∀ (todo : List Nat), (∀ i ∈ todo, i < N) →
    o.run (FanOut.collectNext ts todo [])
        (List.replicate todo.length (Event.response (NewSimpleResponse none)))
      = some (Pc.respond ts,
          (todo.map (fun i =>
            [Action.recvResponse (Chan.outputRes i) (NewSimpleResponse none),
             Action.throtReset, Action.incr Counter.mMsgsSnt])).foldr (· ++ ·) []) := by
  intro todo
  induction todo with
  | nil => intro _; simp [FanOut.collectNext, FanOut.rounds, FanOut.run]
  | cons i rest ih =>
    intro h
    have hi : i < N := h i (by simp)
    have := ih (fun j hj => h j (by simp [hj]))
    have e : FanOut.collectNext ts (i :: rest) [] = Pc.collect ts (i :: rest) [] := rfl
    have e2 : ¬ (NewSimpleResponse none).Error ≠ none := by
      simp [NewSimpleResponse, Response.Error]
    rw [e, List.length_cons, List.replicate_succ]
    simp only [FanOut.run, FanOut.step, w.resChan hi, if_neg e2, this]
    simp

/-- One iteration of the loop under `happy`. -/
theorem run_happy {o : FanOut} {N : Nat} (w : Wired o N) (ts : Transaction) :
    o.run Pc.loopHead (happy N ts) = some (Pc.loopHead, happyTrace N ts) := by
  have hd := run_dispatch_all w ts (List.range N) (List.range N) (by simp)
  have hc := run_collect_all w ts (List.range N) (by simp)
  simp only [List.length_range] at hd hc
  unfold happy happyTrace
  rw [run_append, run_append, run_append]
  have h0 : o.run Pc.loopHead [Event.load 1, Event.transaction ts]
      = some (FanOut.dispatchNext ts (List.range N) (List.range N),
          [Action.recvTransaction ts, Action.incr Counter.mMsgsRcvd]) := by
    simp [FanOut.run, FanOut.step, w.ns, rounds_eq_dispatchNext]
  rw [h0]
  simp only [hd, hc]
  simp [FanOut.run, FanOut.step]

theorem run_happySchedule {o : FanOut} {N : Nat} (w : Wired o N) :
    ∀ (txs : List Transaction),
    o.run Pc.loopHead (happySchedule N txs) = some (Pc.loopHead, happyTraces N txs) := by
  intro txs
  induction txs with
  | nil => simp [happySchedule, happyTraces, FanOut.run]
  | cons ts txs ih =>
    simp only [happySchedule, happyTraces]
    rw [run_append, run_happy w ts]
    simp [ih]

theorem sentOn_sends (f : Nat → Transaction) (i : Nat) : ∀ (l : List Nat),
    sentOn (Chan.outputTs i) (l.map (fun j => Action.sendTransaction (Chan.outputTs j) (f j)))
      = (l.filter (fun j => decide (j = i))).map f := by
  intro l
  induction l with
  | nil => rfl
  | cons a l ih =>
    by_cases h : a = i
    · simp [sentOn, ih, h]
    · simp [sentOn, ih, h]

theorem filter_range_eq (N i : Nat) (hi : i < N) :
    (List.range N).filter (fun j => decide (j = i)) = [i] := by
  induction N with
  | zero => omega
  | succ n ih =>
    rw [List.range_succ, List.filter_append]
    by_cases h : i < n
    · rw [ih h]
      have : ¬ n = i := by omega
      simp [this]
    · have : i = n := by omega
      subst this
      have : (List.range i).filter (fun j => decide (j = i)) = [] := by
        rw [List.filter_eq_nil_iff]
        intro a ha
        simp at ha
        simp; omega
      rw [this]; simp

theorem sentOn_responses (c : Chan) : ∀ (l : List Nat),
    sentOn c ((l.map (fun i =>
      [Action.recvResponse (Chan.outputRes i) (NewSimpleResponse none),
       Action.throtReset, Action.incr Counter.mMsgsSnt])).foldr (· ++ ·) []) = [] := by
  intro l
  induction l with
  | nil => rfl
  | cons a l ih => simpa [sentOn] using ih

theorem upstream_sends (f : Nat → Transaction) : ∀ (l : List Nat),
    upstream (l.map (fun j => Action.sendTransaction (Chan.outputTs j) (f j))) = [] := by
  intro l
  induction l with
  | nil => rfl
  | cons a l ih => simpa [upstream] using ih

theorem upstream_responses : ∀ (l : List Nat),
    upstream ((l.map (fun i =>
      [Action.recvResponse (Chan.outputRes i) (NewSimpleResponse none),
       Action.throtReset, Action.incr Counter.mMsgsSnt])).foldr (· ++ ·) []) = [] := by
  intro l
  induction l with
  | nil => rfl
  | cons a l ih => simpa [upstream] using ih

theorem received_sends (f : Nat → Transaction) : ∀ (l : List Nat),
    received (l.map (fun j => Action.sendTransaction (Chan.outputTs j) (f j))) = [] := by
  intro l
  induction l with
  | nil => rfl
  | cons a l ih => simpa [received] using ih

theorem received_responses : ∀ (l : List Nat),
    received ((l.map (fun i =>
      [Action.recvResponse (Chan.outputRes i) (NewSimpleResponse none),
       Action.throtReset, Action.incr Counter.mMsgsSnt])).foldr (· ++ ·) []) = [] := by
  intro l
  induction l with
  | nil => rfl
  | cons a l ih => simpa [received] using ih

theorem closes_sends (f : Nat → Transaction) : ∀ (l : List Nat),
    closes (l.map (fun j => Action.sendTransaction (Chan.outputTs j) (f j))) = [] := by
  intro l
  induction l with
  | nil => rfl
  | cons a l ih => simpa [closes] using ih

theorem closes_responses : ∀ (l : List Nat),
    closes ((l.map (fun i =>
      [Action.recvResponse (Chan.outputRes i) (NewSimpleResponse none),
       Action.throtReset, Action.incr Counter.mMsgsSnt])).foldr (· ++ ·) []) = [] := by
  intro l
  induction l with
  | nil => rfl
  | cons a l ih => simpa [closes] using ih

theorem happyTraces_sent (N i : Nat) (hi : i < N) : ∀ (txs : List Transaction),
    sentOn (Chan.outputTs i) (happyTraces N txs)
      = txs.map (fun ts => NewTransaction ts.Payload (Chan.outputRes i)) := by
  intro txs
  induction txs with
  | nil => rfl
  | cons ts txs ih =>
    simp only [happyTraces, sentOn_append, ih, happyTrace, sentOn_sends, sentOn_responses,
      filter_range_eq N i hi]
    simp [sentOn, ShallowCopy_eq]

theorem happyTraces_upstream (N : Nat) : ∀ (txs : List Transaction),
    upstream (happyTraces N txs)
      = txs.map (fun ts => (ts.ResponseChan, NewSimpleResponse none)) := by
  intro txs
  induction txs with
  | nil => rfl
  | cons ts txs ih =>
    simp only [happyTraces, upstream_append, ih, happyTrace, upstream_sends, upstream_responses]
    simp [upstream]

theorem happyTraces_received (N : Nat) : ∀ (txs : List Transaction),
    received (happyTraces N txs) = txs := by
  intro txs
  induction txs with
  | nil => rfl
  | cons ts txs ih =>
    simp only [happyTraces, received_append, ih, happyTrace, received_sends, received_responses]
    simp [received]

theorem happyTraces_closes (N : Nat) : ∀ (txs : List Transaction),
    closes (happyTraces N txs) = [] := by
  intro txs
  induction txs with
  | nil => rfl
  | cons ts txs ih =>
    simp only [happyTraces, closes_append, ih, happyTrace, closes_sends, closes_responses]
    simp [closes]

/-- Induction along a run that also follows the choices made so far. -/
theorem run_induct_ev (o : FanOut) (ok : Event → Prop)
    (I : Pc → List Event → List Action → Prop)
    (hstep : ∀ pc es tr e pc1 out, I pc es tr → ok e → o.step pc e = some (pc1, out) →
      I pc1 (es ++ [e]) (tr ++ out)) :
    ∀ (evs : List Event) (pc : Pc) (es0 : List Event) (tr0 : List Action) (pc2 : Pc)
      (tr : List Action),
      (∀ e ∈ evs, ok e) → I pc es0 tr0 → o.run pc evs = some (pc2, tr) →
      I pc2 (es0 ++ evs) (tr0 ++ tr) := by
  intro evs
  induction evs with
  | nil =>
    intro pc es0 tr0 pc2 tr _ hI hrun
    simp [FanOut.run] at hrun
    obtain ⟨rfl, rfl⟩ := hrun
    simpa using hI
  | cons e evs ih =>
    intro pc es0 tr0 pc2 tr hok hI hrun
    simp only [FanOut.run] at hrun
    cases hs : o.step pc e with
    | none => simp [hs] at hrun
    | some r =>
      obtain ⟨pc1, out⟩ := r
      simp only [hs] at hrun
      cases hr : o.run pc1 evs with
      | none => simp [hr] at hrun
      | some r2 =>
        obtain ⟨pc3, tr3⟩ := r2
        simp [hr] at hrun
        obtain ⟨rfl, rfl⟩ := hrun
        have := ih pc1 (es0 ++ [e]) (tr0 ++ out) pc3 tr3 (fun e he => hok e (by simp [he]))
          (hstep pc es0 tr0 e pc1 out hI (hok e (by simp)) hs) hr
        simpa using this

theorem happySchedule_append (N : Nat) (txs : List Transaction) (ts : Transaction) :
    happySchedule N (txs ++ [ts]) = happySchedule N txs ++ happy N ts := by
  induction txs with
  | nil => simp [happySchedule]
  | cons a txs ih => simp [happySchedule, ih]

theorem happyInv_collectNext (N : Nat) (ts : Transaction) (txs : List Transaction)
    (k m : Nat) (es : List Event) (tr : List Action)
    (hrec : received tr = txs ++ [ts]) (hkm : k + m = N)
    (hes : es = happySchedule N txs ++
      (Event.load 1 :: Event.transaction ts :: (List.replicate N Event.accepted ++
        List.replicate k (Event.response (NewSimpleResponse none))))) :
    HappyInv N (FanOut.collectNext ts (List.range' k m) []) es tr := by
  cases m with
  | zero =>
    have hk : k = N := by omega
    subst hk
    simp only [List.range'_zero, FanOut.collectNext, FanOut.rounds, List.length_nil,
      gt_iff_lt, lt_self_iff_false, if_false, HappyInv]
    exact ⟨txs, hrec, hes⟩
  | succ m =>
    have e : FanOut.collectNext ts (List.range' k (m + 1)) []
        = Pc.collect ts (List.range' k (m + 1)) [] := by
      rw [List.range'_succ]; rfl
    rw [e]
    exact ⟨txs, k, m, hrec, hkm, rfl, rfl, hes⟩

theorem happyInv_dispatchNext (N : Nat) (ts : Transaction) (txs : List Transaction)
    (k m : Nat) (es : List Event) (tr : List Action)
    (hrec : received tr = txs ++ [ts]) (hkm : k + m = N)
    (hes : es = happySchedule N txs ++
      (Event.load 1 :: Event.transaction ts :: List.replicate k Event.accepted)) :
    HappyInv N (FanOut.dispatchNext ts (List.range N) (List.range' k m)) es tr := by
  cases m with
  | zero =>
    have hk : k = N := by omega
    subst hk
    simp only [List.range'_zero, FanOut.dispatchNext]
    rw [List.range_eq_range']
    exact happyInv_collectNext k ts txs 0 k es tr hrec (by omega) (by simpa using hes)
  | succ m =>
    have e : FanOut.dispatchNext ts (List.range N) (List.range' k (m + 1))
        = Pc.dispatch ts (List.range N) (List.range' k (m + 1)) := by
      rw [List.range'_succ]; rfl
    rw [e]
    exact ⟨txs, k, m, hrec, hkm, rfl, rfl, hes⟩

theorem HappyInv.happy_step {o : FanOut} {N : Nat} (w : Wired o N) (pc pc1 : Pc)
    (es : List Event) (tr out : List Action) (e : Event)
    (hI : HappyInv N pc es tr) (he : e.happyPath = true)
    (hs : o.step pc e = some (pc1, out)) : HappyInv N pc1 (es ++ [e]) (tr ++ out) := by
  cases pc with
  | loopHead =>
    cases e <;> simp [FanOut.step, Event.happyPath] at hs he
    subst he
    simp at hs
    obtain ⟨rfl, rfl⟩ := hs
    simp only [HappyInv] at hI ⊢
    simp [hI]
  | recv =>
    simp only [HappyInv] at hI
    cases e <;> simp [FanOut.step, Event.happyPath] at hs he
    rename_i ts
    obtain ⟨rfl, rfl⟩ := hs
    rw [w.ns, rounds_eq_dispatchNext]
    have := happyInv_dispatchNext N ts (received tr) 0 N (es ++ [Event.transaction ts])
      (tr ++ [Action.recvTransaction ts, Action.incr Counter.mMsgsRcvd])
      (by simp [received_append, received]) (by omega) (by simp [hI])
    rw [← List.range_eq_range'] at this
    exact this
  | returned => simp [FanOut.step] at hs
  | retry ts todo new => exact absurd hI (by simp [HappyInv])
  | dispatch ts targets todo =>
    simp only [HappyInv] at hI
    obtain ⟨txs, k, m, hrec, hkm, rfl, rfl, hes⟩ := hI
    have hk : k < N := by omega
    rw [List.range'_succ] at hs
    simp only [FanOut.step, w.tsChan hk, w.resChan hk] at hs
    cases e <;> simp [Event.happyPath] at hs he
    obtain ⟨rfl, rfl⟩ := hs
    exact happyInv_dispatchNext N ts txs (k + 1) m _ _
      (by simpa [received_append, received] using hrec) (by omega)
      (by simp [hes, List.replicate_succ'])
  | collect ts todo new =>
    simp only [HappyInv] at hI
    obtain ⟨txs, k, m, hrec, hkm, rfl, rfl, hes⟩ := hI
    have hk : k < N := by omega
    rw [List.range'_succ] at hs
    simp only [FanOut.step, w.resChan hk] at hs
    cases e <;> simp [Event.happyPath] at hs he
    rename_i res
    have hres : res = NewSimpleResponse none := by
      cases res; simp [Response.Error] at he; simp [NewSimpleResponse, he]
    subst hres
    simp [NewSimpleResponse, Response.Error] at hs
    obtain ⟨rfl, rfl⟩ := hs
    exact happyInv_collectNext N ts txs (k + 1) m _ _
      (by simpa [received_append, received] using hrec) (by omega)
      (by simp [hes, List.replicate_succ', NewSimpleResponse])
  | respond ts =>
    simp only [HappyInv] at hI
    obtain ⟨txs, hrec, hes⟩ := hI
    cases e <;> simp [FanOut.step, Event.happyPath] at hs he
    obtain ⟨rfl, rfl⟩ := hs
    simp only [HappyInv]
    simp [received_append, received, hrec, happySchedule_append, happy, hes]

/-- A run of the loop all of whose choices are on the happy path and that
is back at the loop head is the happy schedule of the transactions read. -/
theorem happy_unique {o : FanOut} {N : Nat} (w : Wired o N) (evs : List Event)
    (tr : List Action) (hh : ∀ e ∈ evs, e.happyPath = true)
    (hrun : o.loop evs = some (Pc.loopHead, tr)) :
    evs = happySchedule N (received tr) := by
  have := run_induct_ev o (fun e => e.happyPath = true) (HappyInv N)
    (fun pc es tr e pc1 out hI he hs => HappyInv.happy_step w pc pc1 es tr out e hI he hs)
    evs Pc.loopHead [] [] Pc.loopHead tr hh (by simp [HappyInv, received, happySchedule]) hrun
  simpa [HappyInv] using this

/-- C3: for any number of outputs and any sequence `txs` of upstream
transactions, when every output accepts and answers success to every dispatch
the loop runs through all of them and is back at its head; and in every run of
the loop in which `running` is read as 1, every send is accepted and every
response is a success, and which has read `txs` and is back at its head, every
output has been sent exactly one transaction per upstream transaction, in
upstream order, with the upstream payload and that output's private response
channel as sink, upstream has been sent exactly one success response per
transaction, in order, on the sink of that transaction, and nothing has been
closed. -/
theorem fanout_happy_path (outputs : List Output) (o : FanOut)
    (txs : List Transaction) (hnew : NewFanOut outputs = .ok o) :
    (∃ tr, o.loop (happySchedule outputs.length txs) = some (Pc.loopHead, tr) ∧
      received tr = txs) ∧
    (∀ evs tr, (∀ e ∈ evs, e.happyPath = true) → o.loop evs = some (Pc.loopHead, tr) →
      received tr = txs →
      (∀ i, i < outputs.length →
        sentOn (Chan.outputTs i) tr
          = txs.map (fun ts => NewTransaction ts.Payload (Chan.outputRes i))) ∧
      upstream tr = txs.map (fun ts => (ts.ResponseChan, NewSimpleResponse none)) ∧
      closes tr = []) := by
  have w := NewFanOut_wired outputs o hnew
  refine ⟨⟨happyTraces outputs.length txs, run_happySchedule w txs,
    happyTraces_received _ txs⟩, ?_⟩
  intro evs tr hh hrun hrec
  have hu := happy_unique w evs tr hh hrun
  rw [hrec] at hu
  subst hu
  have h2 := run_happySchedule w txs
  unfold FanOut.loop at hrun
  rw [h2] at hrun
  simp at hrun
  subst hrun
  exact ⟨fun i hi => happyTraces_sent _ i hi txs, happyTraces_upstream _ txs,
    happyTraces_closes _ txs⟩

/-- C3 at three outputs and five transactions. -/
theorem fanout_happy_path_witness :
    NewFanOut exOutputs = .ok exFanOut ∧
    exFanOut.loop (happySchedule 3 exFive) = some (Pc.loopHead, happyTraces 3 exFive) ∧
    (∀ e ∈ happySchedule 3 exFive, e.happyPath = true) ∧
    received (happyTraces 3 exFive) = exFive ∧
    (∀ i, i < exOutputs.length →
      sentOn (Chan.outputTs i) (happyTraces 3 exFive)
        = exFive.map (fun ts => NewTransaction ts.Payload (Chan.outputRes i))) ∧
    upstream (happyTraces 3 exFive)
      = exFive.map (fun ts => (ts.ResponseChan, NewSimpleResponse none)) ∧
    closes (happyTraces 3 exFive) = [] :=
  ⟨rfl, by decide, by decide, by decide,
   (fanout_happy_path exOutputs exFanOut exFive rfl).2 (happySchedule 3 exFive)
     (happyTraces 3 exFive) (by decide) (by decide) (by decide)⟩

/-- Without outputs the loop never reaches the dispatch or collect phase and
neither sends to an output nor receives from one. -/
theorem no_outputs_step {o : FanOut} (hns : o.outputNs = []) (pc pc1 : Pc)
    (tr out : List Action) (e : Event)
    (hI : (pc.inDispatch = false ∧ pc.inCollect = false ∧ pc.inRetry = false) ∧
      ∀ c, sentOn c tr = [] ∧ responsesOn c tr = [])
    (hs : o.step pc e = some (pc1, out)) :
    (pc1.inDispatch = false ∧ pc1.inCollect = false ∧ pc1.inRetry = false) ∧
      ∀ c, sentOn c (tr ++ out) = [] ∧ responsesOn c (tr ++ out) = [] := by
  obtain ⟨hpc, htr⟩ := hI
  cases pc with
  | loopHead =>
    cases e <;> simp [FanOut.step] at hs
    rename_i running
    by_cases h : running = 1
    · simp [h] at hs; obtain ⟨rfl, rfl⟩ := hs
      simpa [Pc.inDispatch, Pc.inCollect, Pc.inRetry] using htr
    · simp [h] at hs; obtain ⟨rfl, rfl⟩ := hs
      simp [Pc.inDispatch, Pc.inCollect, Pc.inRetry, sentOn_append, responsesOn_append,
        sentOn_deferred, responsesOn_deferred, htr]
  | recv =>
    cases e <;> simp [FanOut.step] at hs
    · obtain ⟨rfl, rfl⟩ := hs
      simp [hns, FanOut.rounds, Pc.inDispatch, Pc.inCollect, Pc.inRetry, sentOn_append,
        responsesOn_append, sentOn, responsesOn, htr]
    · obtain ⟨rfl, rfl⟩ := hs
      simp [Pc.inDispatch, Pc.inCollect, Pc.inRetry, sentOn_append, responsesOn_append,
        sentOn_deferred, responsesOn_deferred, htr]
    · obtain ⟨rfl, rfl⟩ := hs
      simp [Pc.inDispatch, Pc.inCollect, Pc.inRetry, sentOn_append, responsesOn_append,
        sentOn_deferred, responsesOn_deferred, htr]
  | returned => simp [FanOut.step] at hs
  | dispatch ts targets todo => simp [Pc.inDispatch] at hpc
  | collect ts todo new => simp [Pc.inCollect] at hpc
  | retry ts todo new => simp [Pc.inRetry] at hpc
  | respond ts =>
    cases e <;> simp [FanOut.step] at hs
    · obtain ⟨rfl, rfl⟩ := hs
      simp [Pc.inDispatch, Pc.inCollect, Pc.inRetry, sentOn_append, responsesOn_append,
        sentOn_deferred, responsesOn_deferred, htr]
    · obtain ⟨rfl, rfl⟩ := hs
      simp [Pc.inDispatch, Pc.inCollect, Pc.inRetry, sentOn_append, responsesOn_append,
        sentOn, responsesOn, htr]

/-- C18: a `FanOut` constructed with no outputs has an empty target list;
on receiving a transaction the loop goes straight to the select of line 162
(the dispatch and collect loops are not entered); once upstream takes it, the
success response has been sent on the sink of the transaction and nothing
else has been done; any sequence of transactions is acknowledged that way,
in order; and in no run of the loop is anything sent to, or received from,
an output. -/
theorem fanout_no_outputs (o : FanOut) (hnew : NewFanOut [] = .ok o) :
    o.outputNs = [] ∧
    (∀ ts, o.step Pc.recv (Event.transaction ts)
      = some (Pc.respond ts, [Action.recvTransaction ts, Action.incr Counter.mMsgsRcvd])) ∧
    (∀ ts, o.loop [Event.load 1, Event.transaction ts, Event.accepted]
      = some (Pc.loopHead,
          [Action.recvTransaction ts, Action.incr Counter.mMsgsRcvd,
           Action.sendResponse ts.ResponseChan (NewSimpleResponse none)])) ∧
    (∀ txs, ∃ tr, o.loop (happySchedule 0 txs) = some (Pc.loopHead, tr) ∧
      received tr = txs ∧
      upstream tr = txs.map (fun ts => (ts.ResponseChan, NewSimpleResponse none))) ∧
    (∀ evs pc tr, o.loop evs = some (pc, tr) →
      pc.inDispatch = false ∧ pc.inCollect = false ∧ pc.inRetry = false ∧
      ∀ c, sentOn c tr = [] ∧ responsesOn c tr = []) := by
  have w := NewFanOut_wired [] o hnew
  have hns : o.outputNs = [] := by simpa using w.ns
  refine ⟨hns, ?_, ?_, ?_, ?_⟩
  · intro ts
    simp [FanOut.step, hns, FanOut.rounds]
  · intro ts
    simp [FanOut.loop, FanOut.run, FanOut.step, hns, FanOut.rounds]
  · intro txs
    exact ⟨happyTraces 0 txs, run_happySchedule w txs, happyTraces_received _ txs,
      happyTraces_upstream _ txs⟩
  · intro evs pc tr hrun
    have := run_induct o (fun _ => True)
      (fun pc tr => (pc.inDispatch = false ∧ pc.inCollect = false ∧ pc.inRetry = false) ∧
        ∀ c, sentOn c tr = [] ∧ responsesOn c tr = [])
      (fun pc tr e pc1 out hI _ hs => no_outputs_step hns pc pc1 tr out e hI hs)
      evs Pc.loopHead [] pc tr (fun _ _ => trivial)
      (by simp [Pc.inDispatch, Pc.inCollect, Pc.inRetry, sentOn, responsesOn]) hrun
    simp only [List.nil_append] at this
    exact ⟨this.1.1, this.1.2.1, this.1.2.2, this.2⟩

/-- C18 on the broker built for no outputs and the transaction `exTs`. -/
theorem fanout_no_outputs_witness :
    NewFanOut [] = .ok exEmptyFanOut ∧
    exEmptyFanOut.loop [Event.load 1, Event.transaction exTs, Event.accepted]
      = some (Pc.loopHead,
          [Action.recvTransaction exTs, Action.incr Counter.mMsgsRcvd,
           Action.sendResponse exTs.ResponseChan (NewSimpleResponse none)]) :=
  ⟨rfl, (fanout_no_outputs exEmptyFanOut rfl).2.2.1 exTs⟩

theorem wire_running : ∀ (l : List Nat) (o o1 : FanOut),
    NewFanOut.wire l o = .ok o1 → o1.running = o.running ∧ o1.closeChan = o.closeChan := by
  intro l
  induction l with
  | nil =>
    intro o o1 h
    simp [NewFanOut.wire] at h
    subst h
    exact ⟨rfl, rfl⟩
  | cons i l ih =>
    intro o o1 h
    simp only [NewFanOut.wire] at h
    split at h
    · cases h
    · split at h
      · cases h
      · have := ih _ o1 h
        simpa using this

theorem NewFanOut_running (outputs : List Output) (o : FanOut)
    (h : NewFanOut outputs = .ok o) : o.running = 1 ∧ o.closeChan = Chan.closeChan := by
  unfold NewFanOut at h
  exact wire_running _ _ o h

theorem closeAsync_again (o : FanOut) : o.CloseAsync.1.CloseAsync = (o.CloseAsync.1, []) := by
  unfold FanOut.CloseAsync
  by_cases h : o.running = 1
  · simp [h]
  · simp [h]

theorem closeAsyncs_stopped : ∀ (n : Nat) (o : FanOut), o.running ≠ 1 →
    FanOut.CloseAsyncs n o = (o, []) := by
  intro n
  induction n with
  | zero => intro o _; rfl
  | succ n ih =>
    intro o h
    have h1 : o.CloseAsync = (o, []) := by simp [FanOut.CloseAsync, h]
    simp [FanOut.CloseAsyncs, h1, ih o h]

theorem closeAsync_running (o : FanOut) : o.CloseAsync.1.running ≠ 1 := by
  unfold FanOut.CloseAsync
  by_cases h : o.running = 1
  · simp [h]
  · simp [h]

theorem closeAsyncs_succ (n : Nat) (o : FanOut) :
    FanOut.CloseAsyncs (n + 1) o = o.CloseAsync := by
  simp only [FanOut.CloseAsyncs, closeAsyncs_stopped n _ (closeAsync_running o),
    List.append_nil]

theorem startReceivings_started (o : FanOut) (h : o.transactions ≠ none) :
    ∀ (later : List (Option Chan)),
    o.StartReceivings later
      = (o, List.replicate later.length (some Err.ErrAlreadyStarted, [])) := by
  intro later
  induction later with
  | nil => rfl
  | cons c cs ih =>
    have h1 : o.StartReceiving c = (o, some Err.ErrAlreadyStarted, []) := by
      simp [FanOut.StartReceiving, h]
    simp [FanOut.StartReceivings, h1, ih, List.replicate_succ]

end Broker

namespace Buffer

theorem runWith_induct {σ : Type} (step : σ → Event → Option (σ × List Action))
    (I : σ → List Action → Prop)
    (hstep : ∀ s tr e s1 out, I s tr → step s e = some (s1, out) → I s1 (tr ++ out)) :
    ∀ (evs : List Event) (s : σ) (tr0 : List Action) (s2 : σ) (tr : List Action),
      I s tr0 → runWith step s evs = some (s2, tr) → I s2 (tr0 ++ tr) := by
  intro evs
  induction evs with
  | nil =>
    intro s tr0 s2 tr hI hrun
    simp [runWith] at hrun
    obtain ⟨rfl, rfl⟩ := hrun
    simpa using hI
  | cons e evs ih =>
    intro s tr0 s2 tr hI hrun
    simp only [runWith] at hrun
    cases hs : step s e with
    | none => simp [hs] at hrun
    | some r =>
      obtain ⟨s1, out⟩ := r
      simp only [hs] at hrun
      cases hr : runWith step s1 evs with
      | none => simp [hr] at hrun
      | some r2 =>
        obtain ⟨s3, tr3⟩ := r2
        simp [hr] at hrun
        obtain ⟨rfl, rfl⟩ := hrun
        have := ih s1 (tr0 ++ out) s3 tr3 (hstep s tr0 e s1 out hI hs) hr
        simpa using this

theorem runWith_append {σ : Type} (step : σ → Event → Option (σ × List Action))
    (e1 e2 : List Event) : ∀ (s : σ),
    runWith step s (e1 ++ e2) =
      match runWith step s e1 with
      | none => none
      | some (s1, t1) =>
        match runWith step s1 e2 with
        | none => none
        | some (s2, t2) => some (s2, t1 ++ t2) := by
  induction e1 with
  | nil =>
    intro s
    simp only [List.nil_append, runWith]
    cases runWith step s e2 with
    | none => rfl
    | some r => simp
  | cons e e1 ih =>
    intro s
    rw [List.cons_append]
    cases hs : step s e with
    | none => simp [runWith, hs]
    | some r =>
      obtain ⟨s1, out⟩ := r
      cases h1 : runWith step s1 e1 with
      | none => simp [runWith, hs, ih s1, h1]
      | some r1 =>
        obtain ⟨s2, t1⟩ := r1
        cases h2 : runWith step s2 e2 with
        | none => simp [runWith, hs, ih s1, h1, h2]
        | some r2 => simp [runWith, hs, ih s1, h1, h2]

theorem reads_append (a b : List Action) : reads (a ++ b) = reads a ++ reads b := by
  induction a with
  | nil => rfl
  | cons x a ih => cases x <;> simp [reads, ih]

theorem pushes_append (a b : List Action) : pushes (a ++ b) = pushes a ++ pushes b := by
  induction a with
  | nil => rfl
  | cons x a ih => cases x <;> simp [pushes, ih]

theorem responsesSent_append (a b : List Action) :
    responsesSent (a ++ b) = responsesSent a ++ responsesSent b := by
  induction a with
  | nil => rfl
  | cons x a ih => cases x <;> simp [responsesSent, ih]

theorem bufcloses_append (a b : List Action) : closes (a ++ b) = closes a ++ closes b := by
  induction a with
  | nil => rfl
  | cons x a ih => cases x <;> simp [closes, ih]

theorem InInv.input_step (m : StackBuffer) (pc pc1 : InPc) (tr out : List Action) (e : Event)
    (hI : InInv pc tr) (hs : m.inputStep pc e = some (pc1, out)) : InInv pc1 (tr ++ out) := by
  cases pc with
  | loopHead =>
    cases e <;> simp [StackBuffer.inputStep] at hs
    rename_i running
    by_cases h : running = 1
    · simp [h] at hs; obtain ⟨rfl, rfl⟩ := hs; simpa [InInv] using hI
    · simp [h] at hs; obtain ⟨rfl, rfl⟩ := hs
      simpa [InInv, reads_append, pushes_append, responsesSent_append,
        StackBuffer.inputDeferred, reads, pushes, responsesSent] using hI
  | recv =>
    cases e <;> simp [StackBuffer.inputStep] at hs
    · obtain ⟨rfl, rfl⟩ := hs
      simp only [InInv] at hI
      simp [InInv, reads_append, pushes_append, responsesSent_append, reads, pushes,
        responsesSent, hI.1, hI.2]
    · obtain ⟨rfl, rfl⟩ := hs
      simpa [InInv, reads_append, pushes_append, responsesSent_append,
        StackBuffer.inputDeferred, reads, pushes, responsesSent] using hI
  | push msg =>
    cases e <;> simp [StackBuffer.inputStep] at hs
    rename_i backlog err
    simp only [InInv] at hI
    by_cases h : err = none
    · simp [h] at hs; obtain ⟨rfl, rfl⟩ := hs
      simp [InInv, reads_append, pushes_append, responsesSent_append, reads, pushes,
        responsesSent, hI.1, hI.2, h]
    · simp [h] at hs; obtain ⟨rfl, rfl⟩ := hs
      simp [InInv, reads_append, pushes_append, responsesSent_append, reads, pushes,
        responsesSent, hI.1, hI.2]
  | respond err =>
    cases e <;> simp [StackBuffer.inputStep] at hs
    obtain ⟨rfl, rfl⟩ := hs
    simp only [InInv] at hI
    simp [InInv, reads_append, pushes_append, responsesSent_append, reads, pushes,
      responsesSent, hI.1, hI.2]
  | returned => simp [StackBuffer.inputStep] at hs

theorem InInv.input_run (m : StackBuffer) (evs : List Event) (pc : InPc) (tr : List Action)
    (hrun : m.inputLoop evs = some (pc, tr)) : InInv pc tr := by
  have := runWith_induct m.inputStep InInv
    (fun s tr e s1 out hI hs => InInv.input_step m s s1 tr out e hI hs) evs InPc.loopHead [] pc tr
    (by simp [InInv, reads, pushes, responsesSent]) hrun
  simpa using this

/-- C6: after any run of `inputLoop`, every message read has been pushed,
in order; the responses sent are, in order, the responses carrying the error
`PushMessage` returned for each message (nil when it returned nil); whenever
the loop is between iterations or has returned there is exactly one response
per message read, and otherwise exactly one message is still unanswered; and
a push error does not end the loop: after the response carrying it has been
taken, the next upstream message is read and pushed. -/
theorem inputLoop_one_response_per_message (m : StackBuffer) (evs : List Event)
    (pc : InPc) (tr : List Action) (hrun : m.inputLoop evs = some (pc, tr)) :
    (pushes tr).map Prod.fst = (reads tr).take (pushes tr).length ∧
    responsesSent tr
      = ((pushes tr).map (fun p => NewSimpleResponse p.2)).take (responsesSent tr).length ∧
    (pc.idle = true →
      (pushes tr).map Prod.fst = reads tr ∧
      responsesSent tr = (pushes tr).map (fun p => NewSimpleResponse p.2) ∧
      (responsesSent tr).length = (reads tr).length) ∧
    (pc.idle = false → (responsesSent tr).length + 1 = (reads tr).length) ∧
    (∀ e msg2 backlog2 err2, pc = InPc.respond (some e) →
      m.inputLoop (evs ++ [Event.accepted, Event.load 1, Event.message msg2,
          Event.pushed backlog2 err2])
        = some (InPc.respond err2,
            tr ++ ([Action.sendResponse m.responsesOut (NewSimpleResponse (some e)),
              Action.recvMessage msg2]
              ++ (if err2 = none then
                    [Action.PushMessage msg2 backlog2 err2, Action.Gauge backlog2]
                  else [Action.PushMessage msg2 backlog2 err2])))) := by
  have hI := InInv.input_run m evs pc tr hrun
  refine ⟨?_, ?_, ?_, ?_, ?_⟩
  · cases pc <;> simp only [InInv] at hI <;> simp [hI.1]
  · cases pc <;> simp only [InInv] at hI <;> simp [hI.2]
  · intro hidle
    cases pc <;> simp [InPc.idle] at hidle <;> simp only [InInv] at hI <;>
      simp [hI.1, hI.2]
  · intro hidle
    cases pc <;> simp [InPc.idle] at hidle <;> simp only [InInv] at hI
    · simp [hI.1, hI.2]
    · have := congrArg List.length hI.2
      simp at this
      simp [hI.1]; omega
  · intro e msg2 backlog2 err2 hpc
    subst hpc
    unfold StackBuffer.inputLoop at hrun ⊢
    rw [runWith_append, hrun]
    by_cases h : err2 = none
    · simp [runWith, StackBuffer.inputStep, h]
    · simp [runWith, StackBuffer.inputStep, h]

/-- C6 on two messages, the second of which the store refuses. -/
theorem inputLoop_one_response_per_message_witness :
    NewStackBuffer.inputLoop exInputSchedule = some (InPc.loopHead, exInputTrace) ∧
    (pushes exInputTrace).map Prod.fst = reads exInputTrace ∧
    responsesSent exInputTrace
      = (pushes exInputTrace).map (fun p => NewSimpleResponse p.2) ∧
    (responsesSent exInputTrace).length = (reads exInputTrace).length :=
  ⟨by decide,
   (inputLoop_one_response_per_message NewStackBuffer exInputSchedule InPc.loopHead
      exInputTrace (by decide)).2.2.1 rfl⟩

theorem dataflow_append (a b : List Action) : dataflow (a ++ b) = dataflow a ++ dataflow b := by
  induction a with
  | nil => rfl
  | cons x a ih => cases x <;> simp [dataflow, ih]

theorem afterForward_quiet (s : OutState) : s.afterForward.quiet := by
  unfold OutState.afterForward
  split <;> simp [OutState.quiet]

theorem afterNext_quiet (s : OutState) : s.afterNext.quiet := by
  unfold OutState.afterNext
  split
  · rename_i h; simpa [OutState.quiet] using h
  · exact afterForward_quiet s

theorem afterForward_msg (s : OutState) : s.afterForward.msg = s.msg := by
  unfold OutState.afterForward
  split <;> rfl

theorem afterNext_msg (s : OutState) : s.afterNext.msg = s.msg := by
  unfold OutState.afterNext
  split
  · rfl
  · exact afterForward_msg s

theorem record_msg (s : OutState) (e : Err) : (s.record e).msg = s.msg := by
  unfold OutState.record
  split <;> rfl

theorem afterForward_pc (s : OutState) :
    s.afterForward.pc = OutPc.offer ∨ s.afterForward.pc = OutPc.loopHead := by
  unfold OutState.afterForward
  split <;> simp

theorem quiet_pcOk (m : StackBuffer) (tr : List Action) (s : OutState) (h : s.quiet) :
    PcOk m tr s := by
  unfold OutState.quiet at h
  unfold PcOk
  cases hpc : s.pc <;> simp [hpc] at h ⊢
  exact h

/-- Actions that move no data keep the invariant when the new state asks
nothing of the last data action. -/
theorem OutInv.quiet_out {m : StackBuffer} {s s1 : OutState} {tr : List Action}
    (hI : OutInv m s tr) (out : List Action) (hout : dataflow out = [])
    (hpc : PcOk m tr s1) : OutInv m s1 (tr ++ out) := by
  obtain ⟨h1, h2, _⟩ := hI
  refine ⟨by simpa [dataflow_append, hout] using h1,
    by simpa [dataflow_append, hout] using h2, ?_⟩
  unfold PcOk at hpc ⊢
  simpa [dataflow_append, hout] using hpc

/-- One more data action keeps the invariant when the last data action
justifies it. -/
theorem OutInv.push {m : StackBuffer} {s s1 : OutState} {tr : List Action}
    (hI : OutInv m s tr) (out : List Action) (b : Action) (hout : dataflow out = [b])
    (hj : ∀ x, (dataflow tr).getLast? = some x → Justified x b)
    (hh : (∀ bl e, b ≠ Action.ShiftMessage bl e) ∨ dataflow tr ≠ [])
    (hpc : PcOk m (tr ++ out) s1) : OutInv m s1 (tr ++ out) := by
  obtain ⟨h1, h2, _⟩ := hI
  refine ⟨?_, ?_, hpc⟩
  · rw [dataflow_append, hout, List.chain'_append]
    refine ⟨h1, by simp, ?_⟩
    intro x hx y hy
    simp at hy
    subst hy
    exact hj x hx
  · intro bl e
    rw [dataflow_append, hout]
    cases hd : dataflow tr with
    | nil =>
      simp
      rcases hh with hh | hh
      · exact hh bl e
      · exact absurd hd hh
    | cons a l =>
      have := h2 bl e
      simpa [hd] using this

theorem OutInv.output_step (m : StackBuffer) (s s1 : OutState) (tr out : List Action) (e : Event)
    (hI : OutInv m s tr) (hs : m.outputStep s e = some (s1, out)) :
    OutInv m s1 (tr ++ out) := by
  obtain ⟨pc, msg, errs, errMap⟩ := s
  have hP := hI.2.2
  cases pc with
  | loopHead =>
    cases e <;> simp [StackBuffer.outputStep, StackBuffer.outputStepAt] at hs
    rename_i running
    by_cases h : running = 1
    · simp [h] at hs
      by_cases hp : msg.Parts = none
      · simp [hp] at hs; obtain ⟨rfl, rfl⟩ := hs
        exact hI.quiet_out [] rfl (by simp [PcOk])
      · simp [hp] at hs; obtain ⟨rfl, rfl⟩ := hs
        exact hI.quiet_out [] rfl (quiet_pcOk _ _ _ (afterNext_quiet _))
    · simp [h] at hs; obtain ⟨rfl, rfl⟩ := hs
      exact hI.quiet_out _ (by simp [StackBuffer.outputDeferred, dataflow]) (by simp [PcOk])
  | next =>
    cases e <;> simp [StackBuffer.outputStep, StackBuffer.outputStepAt] at hs
    rename_i msg1 err
    cases err with
    | none =>
      simp at hs; obtain ⟨rfl, rfl⟩ := hs
      exact hI.push _ (Action.NextMessage msg1 none) (by simp [dataflow])
        (by intro x _; simp [Justified])
        (Or.inl (by simp)) (quiet_pcOk _ _ _ (afterNext_quiet _))
    | some e1 =>
      simp at hs
      by_cases hc : e1 = Err.ErrTypeClosed
      · subst hc
        simp at hs; obtain ⟨rfl, rfl⟩ := hs
        exact hI.push _ (Action.NextMessage msg1 (some Err.ErrTypeClosed))
          (by simp [dataflow]) (by intro x _; simp [Justified])
          (Or.inl (by simp)) (quiet_pcOk _ _ _ (afterNext_quiet _))
      · simp [hc] at hs; obtain ⟨rfl, rfl⟩ := hs
        refine hI.push _ (Action.NextMessage msg1 (some e1)) (by simp [dataflow])
          (by intro x _; simp [Justified]) (Or.inl (by simp)) ?_
        simp [PcOk, dataflow_append, dataflow, hc]
  | shiftCorrupt e1 =>
    cases e <;> simp [StackBuffer.outputStep, StackBuffer.outputStepAt] at hs
    rename_i backlog err
    obtain ⟨rfl, rfl⟩ := hs
    simp only [PcOk] at hP
    obtain ⟨hc, msg1, hl⟩ := hP
    refine hI.push _ (Action.ShiftMessage backlog err) (by simp [dataflow]) ?_ (Or.inr ?_)
      (quiet_pcOk _ _ _ (afterNext_quiet _))
    · intro x hx
      rw [hl] at hx
      simp at hx; subst hx
      simp only [Justified]
      exact Or.inr ⟨msg1, e1, rfl, hc⟩
    · intro hnil; simp [hnil] at hl
  | forward =>
    cases e <;> simp [StackBuffer.outputStep, StackBuffer.outputStepAt] at hs
    obtain ⟨rfl, rfl⟩ := hs
    simp only [PcOk] at hP
    refine hI.push _ (Action.sendMessage m.messagesOut msg) (by simp [dataflow])
      (by intro x _; simp [Justified]) (Or.inl (by simp)) ?_
    simp [PcOk, dataflow_append, dataflow]
    exact hP
  | awaitResponse =>
    simp only [PcOk] at hP
    obtain ⟨hparts, hl⟩ := hP
    have hj : ∀ res x, (dataflow tr).getLast? = some x →
        Justified x (Action.recvResponse res) := by
      intro res x hx
      rw [hl] at hx
      simp at hx; subst hx
      exact ⟨_, _, rfl⟩
    cases e <;> simp [StackBuffer.outputStep, StackBuffer.outputStepAt] at hs
    · rename_i res
      cases hres : res.Error with
      | none =>
        simp [hres] at hs; obtain ⟨rfl, rfl⟩ := hs
        refine hI.push _ (Action.recvResponse res) (by simp [dataflow]) (hj res)
          (Or.inl (by simp)) ?_
        simp [PcOk, dataflow_append, dataflow, hres]
      | some e1 =>
        simp [hres] at hs; obtain ⟨rfl, rfl⟩ := hs
        exact hI.push _ (Action.recvResponse res) (by simp [dataflow]) (hj res)
          (Or.inl (by simp)) (quiet_pcOk _ _ _ (afterForward_quiet _))
    · obtain ⟨rfl, rfl⟩ := hs
      exact hI.quiet_out _ (by simp [StackBuffer.outputDeferred, dataflow]) (by simp [PcOk])
  | shiftAck =>
    cases e <;> simp [StackBuffer.outputStep, StackBuffer.outputStepAt] at hs
    rename_i backlog err
    obtain ⟨rfl, rfl⟩ := hs
    simp only [PcOk] at hP
    obtain ⟨res, hl, hres⟩ := hP
    refine hI.push _ (Action.ShiftMessage backlog err) (by simp [dataflow]) ?_ (Or.inr ?_)
      (quiet_pcOk _ _ _ (afterForward_quiet _))
    · intro x hx
      rw [hl] at hx
      simp at hx; subst hx
      simp only [Justified]
      exact Or.inl ⟨res, rfl, hres⟩
    · intro hnil; simp [hnil] at hl
  | offer =>
    cases e <;> simp [StackBuffer.outputStep, StackBuffer.outputStepAt] at hs
    · obtain ⟨rfl, rfl⟩ := hs
      exact hI.quiet_out _ (by simp [dataflow]) (by simp [PcOk])
    · obtain ⟨rfl, rfl⟩ := hs
      exact hI.quiet_out _ (by simp [dataflow]) (by simp [PcOk])
  | returned => simp [StackBuffer.outputStep, StackBuffer.outputStepAt] at hs

theorem OutInv.output_run (m : StackBuffer) (evs : List Event) (s : OutState) (tr : List Action)
    (hrun : m.outputLoop evs = some (s, tr)) : OutInv m s tr := by
  have := runWith_induct m.outputStep (OutInv m)
    (fun s tr e s1 out hI hs => OutInv.output_step m s s1 tr out e hI hs) evs OutState.init [] s tr
    (by simp [OutInv, dataflow, PcOk, OutState.init]) hrun
  simpa using this

/-- After a failure response the slot is kept and the next data action, if
any, is the forward of the same message. -/
theorem run_after_failure (m : StackBuffer) (res : Response) (msg0 : Message)
    (hparts : msg0.Parts ≠ none) (evs : List Event) (s s2 : OutState) (t0 tr : List Action)
    (h0 : dataflow t0 = [Action.recvResponse res]) (hm : s.msg = msg0)
    (hq : s.quiet ∨ s.pc = OutPc.returned)
    (hrun : runWith m.outputStep s evs = some (s2, tr)) :
    (dataflow (t0 ++ tr) = [Action.recvResponse res] ∧ s2.msg = msg0) ∨
    ∃ rest, dataflow (t0 ++ tr)
      = Action.recvResponse res :: Action.sendMessage m.messagesOut msg0 :: rest := by
  have := runWith_induct m.outputStep
    (fun s t => (dataflow t = [Action.recvResponse res] ∧ s.msg = msg0 ∧
        (s.quiet ∨ s.pc = OutPc.returned)) ∨
      ∃ rest, dataflow t
        = Action.recvResponse res :: Action.sendMessage m.messagesOut msg0 :: rest)
    (by
      intro s t e s1 out hI hs
      rcases hI with ⟨hd, hmsg, hq⟩ | ⟨rest, hd⟩
      · obtain ⟨pc, msg, errs, errMap⟩ := s
        simp only at hmsg
        subst hmsg
        cases pc with
        | loopHead =>
          cases e <;> simp [StackBuffer.outputStep, StackBuffer.outputStepAt] at hs
          rename_i running
          by_cases h : running = 1
          · simp [h, hparts] at hs
            obtain ⟨rfl, rfl⟩ := hs
            left
            exact ⟨by simpa using hd, afterNext_msg _, Or.inl (afterNext_quiet _)⟩
          · simp [h] at hs
            obtain ⟨rfl, rfl⟩ := hs
            left
            exact ⟨by simp [dataflow_append, hd, StackBuffer.outputDeferred, dataflow], rfl,
              Or.inr rfl⟩
        | forward =>
          cases e <;> simp [StackBuffer.outputStep, StackBuffer.outputStepAt] at hs
          obtain ⟨rfl, rfl⟩ := hs
          right
          exact ⟨[], by simp [dataflow_append, hd, dataflow]⟩
        | offer =>
          cases e <;> simp [StackBuffer.outputStep, StackBuffer.outputStepAt] at hs
          · obtain ⟨rfl, rfl⟩ := hs
            left
            exact ⟨by simp [dataflow_append, hd, dataflow], rfl, Or.inl (by simp [OutState.quiet])⟩
          · obtain ⟨rfl, rfl⟩ := hs
            left
            exact ⟨by simp [dataflow_append, hd, dataflow], rfl, Or.inl (by simp [OutState.quiet])⟩
        | returned => simp [StackBuffer.outputStep, StackBuffer.outputStepAt] at hs
        | next => simp [OutState.quiet] at hq
        | shiftCorrupt e1 => simp [OutState.quiet] at hq
        | awaitResponse => simp [OutState.quiet] at hq
        | shiftAck => simp [OutState.quiet] at hq
      · right
        exact ⟨rest ++ dataflow out, by simp [dataflow_append, hd]⟩)
    evs s t0 s2 tr (Or.inl ⟨h0, hm, hq⟩) hrun
  rcases this with ⟨hd, hmsg, _⟩ | h
  · exact Or.inl ⟨hd, hmsg⟩
  · exact Or.inr h

/-- After a success response the store is shifted once, with the slot
empty, before `NextMessage` is called again. -/
theorem run_after_success (m : StackBuffer) (res : Response)
    (evs : List Event) (s s2 : OutState) (t0 tr : List Action)
    (h0 : dataflow t0 = [Action.recvResponse res]) (hm : s.msg.Parts = none)
    (hpc : s.pc = OutPc.shiftAck)
    (hrun : runWith m.outputStep s evs = some (s2, tr)) :
    dataflow (t0 ++ tr) = [Action.recvResponse res] ∨
    (∃ b e, dataflow (t0 ++ tr) = [Action.recvResponse res, Action.ShiftMessage b e]) ∨
    ∃ b e msg err rest, dataflow (t0 ++ tr)
      = Action.recvResponse res :: Action.ShiftMessage b e :: Action.NextMessage msg err
          :: rest := by
  have := runWith_induct m.outputStep
    (fun s t => (dataflow t = [Action.recvResponse res] ∧ s.pc = OutPc.shiftAck ∧
        s.msg.Parts = none) ∨
      (∃ b e, dataflow t = [Action.recvResponse res, Action.ShiftMessage b e] ∧
        s.msg.Parts = none ∧
        (s.pc = OutPc.offer ∨ s.pc = OutPc.loopHead ∨ s.pc = OutPc.next ∨
          s.pc = OutPc.returned)) ∨
      ∃ b e msg err rest, dataflow t
        = Action.recvResponse res :: Action.ShiftMessage b e :: Action.NextMessage msg err
            :: rest)
    (by
      intro s t e s1 out hI hs
      rcases hI with ⟨hd, hpc, hmsg⟩ | ⟨b, e1, hd, hmsg, hpc⟩ | ⟨b, e1, msg, err, rest, hd⟩
      · obtain ⟨pc, msg, errs, errMap⟩ := s
        simp only at hpc hmsg
        subst hpc
        cases e <;> simp [StackBuffer.outputStep, StackBuffer.outputStepAt] at hs
        rename_i backlog err
        obtain ⟨rfl, rfl⟩ := hs
        right; left
        refine ⟨backlog, err, by simp [dataflow_append, hd, dataflow], ?_, ?_⟩
        · rw [afterForward_msg]; exact hmsg
        · rcases afterForward_pc
            ({ pc := OutPc.shiftAck, msg := msg, errs := errs, errMap := errMap } : OutState)
            with h | h
          · exact Or.inl h
          · exact Or.inr (Or.inl h)
      · obtain ⟨pc, msg, errs, errMap⟩ := s
        simp only at hpc hmsg
        rcases hpc with rfl | rfl | rfl | rfl
        · cases e <;> simp [StackBuffer.outputStep, StackBuffer.outputStepAt] at hs
          · obtain ⟨rfl, rfl⟩ := hs
            right; left
            exact ⟨b, e1, by simp [dataflow_append, hd, dataflow], hmsg, Or.inr (Or.inl rfl)⟩
          · obtain ⟨rfl, rfl⟩ := hs
            right; left
            exact ⟨b, e1, by simp [dataflow_append, hd, dataflow], hmsg, Or.inr (Or.inl rfl)⟩
        · cases e <;> simp [StackBuffer.outputStep, StackBuffer.outputStepAt] at hs
          rename_i running
          by_cases h : running = 1
          · simp [h, hmsg] at hs
            obtain ⟨rfl, rfl⟩ := hs
            right; left
            exact ⟨b, e1, by simpa using hd, hmsg, Or.inr (Or.inr (Or.inl rfl))⟩
          · simp [h] at hs
            obtain ⟨rfl, rfl⟩ := hs
            right; left
            exact ⟨b, e1, by simp [dataflow_append, hd, StackBuffer.outputDeferred, dataflow],
              hmsg, Or.inr (Or.inr (Or.inr rfl))⟩
        · cases e <;> simp [StackBuffer.outputStep, StackBuffer.outputStepAt] at hs
          rename_i msg1 err
          right; right
          cases err with
          | none =>
            simp at hs; obtain ⟨rfl, rfl⟩ := hs
            exact ⟨b, e1, msg1, none, [], by simp [dataflow_append, hd, dataflow]⟩
          | some e2 =>
            simp at hs
            by_cases hc : e2 = Err.ErrTypeClosed
            · subst hc
              simp at hs; obtain ⟨rfl, rfl⟩ := hs
              exact ⟨b, e1, msg1, some Err.ErrTypeClosed, [],
                by simp [dataflow_append, hd, dataflow]⟩
            · simp [hc] at hs; obtain ⟨rfl, rfl⟩ := hs
              exact ⟨b, e1, msg1, some e2, [], by simp [dataflow_append, hd, dataflow]⟩
        · simp [StackBuffer.outputStep, StackBuffer.outputStepAt] at hs
      · right; right
        exact ⟨b, e1, msg, err, rest ++ dataflow out, by simp [dataflow_append, hd]⟩)
    evs s t0 s2 tr (Or.inl ⟨h0, hpc, hm⟩) hrun
  rcases this with ⟨hd, _, _⟩ | ⟨b, e, hd, _, _⟩ | h
  · exact Or.inl hd
  · exact Or.inr (Or.inl ⟨b, e, hd⟩)
  · exact Or.inr (Or.inr h)

/-- C7: in every run of `outputLoop`, a `ShiftMessage` directly follows, in
the data flow, a success response or a `NextMessage` that failed with an
error other than `ErrTypeClosed`, and a response directly follows a forward;
and whenever a message has been forwarded and its response is awaited, the
slot holds that message, and (failure) the slot keeps it and the next data
action, if any, is the forward of the very same message, with no shift in
between, while (success) the slot is cleared and the store is shifted exactly
once before the next `NextMessage`. -/
theorem outputLoop_shift_after_success (m : StackBuffer) (evs : List Event)
    (s : OutState) (tr : List Action) (hrun : m.outputLoop evs = some (s, tr)) :
    List.Chain' Justified (dataflow tr) ∧
    (∀ b e, (dataflow tr).head? ≠ some (Action.ShiftMessage b e)) ∧
    (s.pc = OutPc.awaitResponse →
      s.msg.Parts ≠ none ∧
      (dataflow tr).getLast? = some (Action.sendMessage m.messagesOut s.msg) ∧
      ∀ res evs2 s2 tr2, m.outputRun s (Event.response res :: evs2) = some (s2, tr2) →
        (res.Error ≠ none →
          (dataflow tr2 = [Action.recvResponse res] ∧ s2.msg = s.msg) ∨
          ∃ rest, dataflow tr2
            = Action.recvResponse res :: Action.sendMessage m.messagesOut s.msg :: rest) ∧
        (res.Error = none →
          m.outputStep s (Event.response res)
            = some ({ s with msg := { Parts := none }, pc := OutPc.shiftAck },
                [Action.recvResponse res]) ∧
          (dataflow tr2 = [Action.recvResponse res] ∨
           (∃ b e, dataflow tr2 = [Action.recvResponse res, Action.ShiftMessage b e]) ∨
           ∃ b e msg err rest, dataflow tr2
             = Action.recvResponse res :: Action.ShiftMessage b e
                 :: Action.NextMessage msg err :: rest))) := by
  have hI := OutInv.output_run m evs s tr hrun
  refine ⟨hI.1, hI.2.1, ?_⟩
  intro hpc
  have hP := hI.2.2
  simp only [PcOk, hpc] at hP
  refine ⟨hP.1, hP.2, ?_⟩
  intro res evs2 s2 tr2 hrun2
  obtain ⟨pc, msg, errs, errMap⟩ := s
  simp only at hpc
  subst hpc
  simp only [StackBuffer.outputRun, runWith] at hrun2
  refine ⟨?_, ?_⟩
  · intro hres
    cases hr : res.Error with
    | none => exact absurd hr hres
    | some e1 =>
      simp [StackBuffer.outputStep, StackBuffer.outputStepAt, hr] at hrun2
      cases hrest : runWith m.outputStep
          (({ pc := OutPc.awaitResponse, msg := msg, errs := errs, errMap := errMap } :
            OutState).record e1).afterForward evs2 with
      | none => simp [hrest] at hrun2
      | some r =>
        obtain ⟨s3, tr3⟩ := r
        simp [hrest] at hrun2
        obtain ⟨rfl, rfl⟩ := hrun2
        have := run_after_failure m res msg hP.1 evs2 _ s3 [Action.recvResponse res] tr3
          (by simp [dataflow]) (by rw [afterForward_msg, record_msg])
          (Or.inl (afterForward_quiet _)) hrest
        simpa using this
  · intro hres
    simp [StackBuffer.outputStep, StackBuffer.outputStepAt, hres] at hrun2 ⊢
    cases hrest : runWith m.outputStep
        ({ pc := OutPc.shiftAck, msg := { Parts := none }, errs := errs, errMap := errMap } :
          OutState) evs2 with
    | none => simp [hrest] at hrun2
    | some r =>
      obtain ⟨s3, tr3⟩ := r
      simp [hrest] at hrun2
      obtain ⟨rfl, rfl⟩ := hrun2
      have := run_after_success m res evs2 _ s3 [Action.recvResponse res] tr3
        (by simp [dataflow]) rfl rfl hrest
      simpa using this

/-- C7 on a message that downstream first refuses: it is forwarded again. -/
theorem outputLoop_shift_after_success_witness :
    NewStackBuffer.outputLoop exForwardSchedule = some (exForwardState, exForwardTrace) ∧
    NewStackBuffer.outputRun exForwardState exRefusedSchedule
      = some (exRefusedState, exRefusedTrace) ∧
    ((dataflow exRefusedTrace = [Action.recvResponse ⟨some (Err.other 5)⟩] ∧
        exRefusedState.msg = exForwardState.msg) ∨
      ∃ rest, dataflow exRefusedTrace
        = Action.recvResponse ⟨some (Err.other 5)⟩
            :: Action.sendMessage NewStackBuffer.messagesOut exForwardState.msg :: rest) :=
  ⟨by decide, by decide,
   (((outputLoop_shift_after_success NewStackBuffer exForwardSchedule exForwardState
      exForwardTrace (by decide)).2.2 rfl).2.2 ⟨some (Err.other 5)⟩
      [Event.noReader, Event.load 1, Event.accepted] exRefusedState exRefusedTrace
      (by decide)).1 (by decide)⟩

theorem closes_replicate_next (n : Nat) (msg : Message) (err : Option Err) :
    closes (List.replicate n (Action.NextMessage msg err)) = [] := by
  induction n with
  | zero => rfl
  | succ n ih => simpa [List.replicate_succ, closes] using ih

/-- C8: when `messagesIn` is closed, `inputLoop` closes the store and
returns; but `outputLoop` does not exit on the terminal `ErrTypeClosed`:
however many times `NextMessage` answers it with the slot empty, the loop is
back at its head in its initial state, having only called `NextMessage`, and
has closed neither `messagesOut` nor `errorsChan`. -/
theorem outputLoop_spins_on_closed_store (m : StackBuffer) (n : Nat) :
    m.inputLoop [Event.load 1, Event.inputClosed]
      = some (InPc.returned,
          [Action.bufferClose, Action.wgDone, Action.close m.responsesOut]) ∧
    m.outputLoop (closedRounds n)
      = some (OutState.init,
          List.replicate n (Action.NextMessage { Parts := none } (some Err.ErrTypeClosed))) ∧
    closes (List.replicate n (Action.NextMessage { Parts := none } (some Err.ErrTypeClosed)))
      = [] := by
  refine ⟨by simp [StackBuffer.inputLoop, runWith, StackBuffer.inputStep,
    StackBuffer.inputDeferred], ?_, closes_replicate_next n _ _⟩
  induction n with
  | zero => simp [closedRounds, StackBuffer.outputLoop, StackBuffer.outputRun, runWith]
  | succ n ih =>
    unfold StackBuffer.outputLoop StackBuffer.outputRun at ih ⊢
    simp only [closedRounds]
    rw [runWith_append]
    have h1 : runWith m.outputStep OutState.init
        [Event.load 1, Event.next { Parts := none } (some Err.ErrTypeClosed)]
        = some (OutState.init,
            [Action.NextMessage { Parts := none } (some Err.ErrTypeClosed)]) := by
      simp [runWith, StackBuffer.outputStep, StackBuffer.outputStepAt, OutState.init,
        OutState.afterNext, OutState.afterForward]
    rw [h1]
    simp [ih, List.replicate_succ]

theorem runWith_induct_ok {σ : Type} (step : σ → Event → Option (σ × List Action))
    (ok : Event → Prop) (I : σ → List Action → Prop)
    (hstep : ∀ s tr e s1 out, I s tr → ok e → step s e = some (s1, out) → I s1 (tr ++ out)) :
    ∀ (evs : List Event) (s : σ) (tr0 : List Action) (s2 : σ) (tr : List Action),
      (∀ e ∈ evs, ok e) → I s tr0 → runWith step s evs = some (s2, tr) →
      I s2 (tr0 ++ tr) := by
  intro evs
  induction evs with
  | nil =>
    intro s tr0 s2 tr _ hI hrun
    simp [runWith] at hrun
    obtain ⟨rfl, rfl⟩ := hrun
    simpa using hI
  | cons e evs ih =>
    intro s tr0 s2 tr hok hI hrun
    simp only [runWith] at hrun
    cases hs : step s e with
    | none => simp [hs] at hrun
    | some r =>
      obtain ⟨s1, out⟩ := r
      simp only [hs] at hrun
      cases hr : runWith step s1 evs with
      | none => simp [hr] at hrun
      | some r2 =>
        obtain ⟨s3, tr3⟩ := r2
        simp [hr] at hrun
        obtain ⟨rfl, rfl⟩ := hrun
        have := ih s1 (tr0 ++ out) s3 tr3 (fun e he => hok e (by simp [he]))
          (hstep s tr0 e s1 out hI (hok e (by simp)) hs) hr
        simpa using this

/-- With an empty slot and a store that answers a nil-`Parts` message, a
step keeps the slot empty and performs no data action but `NextMessage`. -/
theorem nil_parts_step (m : StackBuffer) (s s1 : OutState) (tr out : List Action)
    (e : Event)
    (hI : s.msg.Parts = none ∧
      (s.pc = OutPc.loopHead ∨ s.pc = OutPc.next ∨ s.pc = OutPc.offer ∨
        s.pc = OutPc.returned) ∧
      ∃ k, dataflow tr = List.replicate k (Action.NextMessage { Parts := none } none))
    (he : e.peeksNil = true) (hs : m.outputStep s e = some (s1, out)) :
    s1.msg.Parts = none ∧
      (s1.pc = OutPc.loopHead ∨ s1.pc = OutPc.next ∨ s1.pc = OutPc.offer ∨
        s1.pc = OutPc.returned) ∧
      ∃ k, dataflow (tr ++ out)
        = List.replicate k (Action.NextMessage { Parts := none } none) := by
  obtain ⟨pc, msg, errs, errMap⟩ := s
  obtain ⟨hmsg, hpc, k, hk⟩ := hI
  simp only at hmsg hpc
  have hq : ∀ (t : OutState), t.msg.Parts = none →
      t.afterNext.msg.Parts = none ∧
      (t.afterNext.pc = OutPc.loopHead ∨ t.afterNext.pc = OutPc.next ∨
        t.afterNext.pc = OutPc.offer ∨ t.afterNext.pc = OutPc.returned) := by
    intro t ht
    have h1 : t.afterNext = t.afterForward := by simp [OutState.afterNext, ht]
    rw [h1, afterForward_msg]
    refine ⟨ht, ?_⟩
    rcases afterForward_pc t with h | h
    · exact Or.inr (Or.inr (Or.inl h))
    · exact Or.inl h
  rcases hpc with rfl | rfl | rfl | rfl
  · cases e <;> simp [StackBuffer.outputStep, StackBuffer.outputStepAt] at hs
    rename_i running
    by_cases h : running = 1
    · simp [h, hmsg] at hs
      obtain ⟨rfl, rfl⟩ := hs
      exact ⟨hmsg, Or.inr (Or.inl rfl), k, by simpa using hk⟩
    · simp [h] at hs
      obtain ⟨rfl, rfl⟩ := hs
      exact ⟨hmsg, Or.inr (Or.inr (Or.inr rfl)), k,
        by simp [dataflow_append, hk, StackBuffer.outputDeferred, dataflow]⟩
  · cases e <;> simp [StackBuffer.outputStep, StackBuffer.outputStepAt] at hs
    rename_i msg1 err
    simp [Event.peeksNil] at he
    obtain ⟨hm1, rfl⟩ := he
    have hmsg1 : msg1 = { Parts := none } := by cases msg1; simpa using hm1
    subst hmsg1
    simp at hs
    obtain ⟨rfl, rfl⟩ := hs
    have := hq { pc := OutPc.next, msg := { Parts := none }, errs := errs, errMap := errMap }
      rfl
    exact ⟨this.1, this.2, k + 1,
      by simp [dataflow_append, hk, dataflow, List.replicate_succ']⟩
  · cases e <;> simp [StackBuffer.outputStep, StackBuffer.outputStepAt] at hs
    · obtain ⟨rfl, rfl⟩ := hs
      exact ⟨hmsg, Or.inl rfl, k, by simp [dataflow_append, hk, dataflow]⟩
    · obtain ⟨rfl, rfl⟩ := hs
      exact ⟨hmsg, Or.inl rfl, k, by simp [dataflow_append, hk, dataflow]⟩
  · simp [StackBuffer.outputStep, StackBuffer.outputStepAt] at hs

/-- C20: when `NextMessage` returns, with a nil error, a message whose
`Parts` is nil, the iteration of `outputLoop` ends back at the loop head in
the very state it started from, having only called `NextMessage`, and so
does every later iteration; and from any loop head with an empty slot, as
long as `NextMessage` answers that way, the slot stays empty and the loop
performs no forward and no `ShiftMessage`, whatever else the environment
does. -/
theorem outputLoop_nil_parts_no_progress (m : StackBuffer) :
    (∀ n, m.outputLoop (nilRounds n)
      = some (OutState.init,
          List.replicate n (Action.NextMessage { Parts := none } none))) ∧
    (∀ s evs s2 tr, s.pc = OutPc.loopHead → s.msg.Parts = none →
      (∀ e ∈ evs, e.peeksNil = true) → m.outputRun s evs = some (s2, tr) →
      s2.msg.Parts = none ∧
      ∃ k, dataflow tr = List.replicate k (Action.NextMessage { Parts := none } none)) := by
  refine ⟨?_, ?_⟩
  · intro n
    induction n with
    | zero => simp [nilRounds, StackBuffer.outputLoop, StackBuffer.outputRun, runWith]
    | succ n ih =>
      unfold StackBuffer.outputLoop StackBuffer.outputRun at ih ⊢
      simp only [nilRounds]
      rw [runWith_append]
      have h1 : runWith m.outputStep OutState.init
          [Event.load 1, Event.next { Parts := none } none]
          = some (OutState.init, [Action.NextMessage { Parts := none } none]) := by
        simp [runWith, StackBuffer.outputStep, StackBuffer.outputStepAt, OutState.init,
          OutState.afterNext, OutState.afterForward]
      rw [h1]
      simp [ih, List.replicate_succ]
  · intro s evs s2 tr hpc hmsg hev hrun
    have := runWith_induct_ok m.outputStep (fun e => e.peeksNil = true)
      (fun s tr => s.msg.Parts = none ∧
        (s.pc = OutPc.loopHead ∨ s.pc = OutPc.next ∨ s.pc = OutPc.offer ∨
          s.pc = OutPc.returned) ∧
        ∃ k, dataflow tr = List.replicate k (Action.NextMessage { Parts := none } none))
      (fun s tr e s1 out hI he hs => nil_parts_step m s s1 tr out e hI he hs)
      evs s [] s2 tr hev ⟨hmsg, Or.inl hpc, 0, rfl⟩ hrun
    simp only [List.nil_append] at this
    exact ⟨this.1, this.2.2⟩

/-- C20 on three iterations with pending errors that nobody reads. -/
theorem outputLoop_nil_parts_no_progress_witness :
    NewStackBuffer.outputLoop (nilRounds 3)
      = some (OutState.init,
          List.replicate 3 (Action.NextMessage { Parts := none } none)) ∧
    NewStackBuffer.outputRun exPendingState exPendingSchedule
      = some (exPendingState, exPendingTrace) ∧
    exPendingState.msg.Parts = none ∧
    ∃ k, dataflow exPendingTrace
      = List.replicate k (Action.NextMessage { Parts := none } none) :=
  ⟨(outputLoop_nil_parts_no_progress NewStackBuffer).1 3, by decide,
   (outputLoop_nil_parts_no_progress NewStackBuffer).2 exPendingState exPendingSchedule
     exPendingState exPendingTrace rfl rfl (by decide) (by decide)⟩

theorem pendingOk_record (s : OutState) (e : Err) (h : s.pendingOk) :
    (s.record e).pendingOk := by
  obtain ⟨h1, h2⟩ := h
  unfold OutState.record
  split
  · exact ⟨h1, h2⟩
  · rename_i hmem
    have hne : e ∉ s.errs := fun hm => hmem ((h2 e).2 hm)
    refine ⟨?_, ?_⟩
    · simp only
      rw [List.nodup_append]
      refine ⟨h1, by simp, ?_⟩
      intro a ha hb
      simp at hb
      subst hb
      exact hne ha
    · intro x
      simp only [List.mem_cons, List.mem_append, List.mem_singleton]
      rw [h2 x]
      tauto

theorem record_errs (s : OutState) (e : Err) (h : s.pendingOk) :
    (s.record e).errs = if e ∈ s.errs then s.errs else s.errs ++ [e] := by
  unfold OutState.record
  by_cases hm : e ∈ s.errMap
  · simp [hm, (h.2 e).1 hm]
  · have : e ∉ s.errs := fun hx => hm ((h.2 e).2 hx)
    simp [hm, this]

theorem pendInv_afterForward (s : OutState) (h : s.pendingOk) : PendInv s.afterForward := by
  unfold OutState.afterForward
  split
  · rename_i hlen
    refine ⟨h, by simp, ?_⟩
    intro _ hnil
    simp only at hnil
    simp [hnil] at hlen
  · exact ⟨h, by simp, by simp⟩

theorem pendInv_afterNext (s : OutState) (h : s.pendingOk) : PendInv s.afterNext := by
  unfold OutState.afterNext
  split
  · exact ⟨h, by simp, by simp⟩
  · exact pendInv_afterForward s h

theorem afterForward_errs (s : OutState) : s.afterForward.errs = s.errs := by
  unfold OutState.afterForward
  split <;> rfl

theorem afterNext_errs (s : OutState) : s.afterNext.errs = s.errs := by
  unfold OutState.afterNext
  split
  · rfl
  · exact afterForward_errs s

theorem PendInv.pend_step (m : StackBuffer) (s s1 : OutState) (out : List Action)
    (e : Event) (hI : PendInv s) (hs : m.outputStep s e = some (s1, out)) : PendInv s1 := by
  obtain ⟨pc, msg, errs, errMap⟩ := s
  obtain ⟨hok, hnext, hoffer⟩ := hI
  have hok2 : ∀ (p : OutPc) (ms : Message),
      ({ pc := p, msg := ms, errs := errs, errMap := errMap } : OutState).pendingOk := by
    intro p ms; exact hok
  cases pc with
  | loopHead =>
    cases e <;> simp [StackBuffer.outputStep, StackBuffer.outputStepAt] at hs
    rename_i running
    by_cases h : running = 1
    · simp [h] at hs
      by_cases hp : msg.Parts = none
      · simp [hp] at hs; obtain ⟨rfl, rfl⟩ := hs
        exact ⟨hok, fun _ => hp, by simp⟩
      · simp [hp] at hs; obtain ⟨rfl, rfl⟩ := hs
        exact pendInv_afterNext _ hok
    · simp [h] at hs; obtain ⟨rfl, rfl⟩ := hs
      exact ⟨hok, by simp, by simp⟩
  | next =>
    cases e <;> simp [StackBuffer.outputStep, StackBuffer.outputStepAt] at hs
    rename_i msg1 err
    cases err with
    | none =>
      simp at hs; obtain ⟨rfl, rfl⟩ := hs
      exact pendInv_afterNext _ (hok2 _ _)
    | some e1 =>
      simp at hs
      by_cases hc : e1 = Err.ErrTypeClosed
      · subst hc
        simp at hs; obtain ⟨rfl, rfl⟩ := hs
        exact pendInv_afterNext _ (hok2 _ _)
      · simp [hc] at hs; obtain ⟨rfl, rfl⟩ := hs
        exact ⟨hok, by simp, by simp⟩
  | shiftCorrupt e1 =>
    cases e <;> simp [StackBuffer.outputStep, StackBuffer.outputStepAt] at hs
    obtain ⟨rfl, rfl⟩ := hs
    exact pendInv_afterNext _ (pendingOk_record _ e1 hok)
  | forward =>
    cases e <;> simp [StackBuffer.outputStep, StackBuffer.outputStepAt] at hs
    obtain ⟨rfl, rfl⟩ := hs
    exact ⟨hok, by simp, by simp⟩
  | awaitResponse =>
    cases e <;> simp [StackBuffer.outputStep, StackBuffer.outputStepAt] at hs
    · rename_i res
      cases hres : res.Error with
      | none =>
        simp [hres] at hs; obtain ⟨rfl, rfl⟩ := hs
        exact ⟨hok, by simp, by simp⟩
      | some e1 =>
        simp [hres] at hs; obtain ⟨rfl, rfl⟩ := hs
        exact pendInv_afterForward _ (pendingOk_record _ e1 hok)
    · obtain ⟨rfl, rfl⟩ := hs
      exact ⟨hok, by simp, by simp⟩
  | shiftAck =>
    cases e <;> simp [StackBuffer.outputStep, StackBuffer.outputStepAt] at hs
    obtain ⟨rfl, rfl⟩ := hs
    exact pendInv_afterForward _ hok
  | offer =>
    cases e <;> simp [StackBuffer.outputStep, StackBuffer.outputStepAt] at hs
    · obtain ⟨rfl, rfl⟩ := hs
      exact ⟨⟨by simp, by simp⟩, by simp, by simp⟩
    · obtain ⟨rfl, rfl⟩ := hs
      exact ⟨hok, by simp, by simp⟩
  | returned => simp [StackBuffer.outputStep, StackBuffer.outputStepAt] at hs

theorem PendInv.pend_run (m : StackBuffer) (evs : List Event) (s : OutState)
    (tr : List Action) (hrun : m.outputLoop evs = some (s, tr)) : PendInv s := by
  exact runWith_induct m.outputStep (fun s _ => PendInv s)
    (fun s tr e s1 out hI hs => PendInv.pend_step m s s1 out e hI hs) evs OutState.init []
    s tr (by simp [PendInv, OutState.pendingOk, OutState.init]) hrun

/-- After `NextMessage` has failed with an error other than `ErrTypeClosed`
the next data action, if any, is a `ShiftMessage`. -/
theorem run_after_corrupt (m : StackBuffer) (msg : Message) (e : Err)
    (evs : List Event) (s s2 : OutState) (t0 tr : List Action)
    (h0 : dataflow t0 = [Action.NextMessage msg (some e)])
    (hpc : s.pc = OutPc.shiftCorrupt e)
    (hrun : runWith m.outputStep s evs = some (s2, tr)) :
    dataflow (t0 ++ tr) = [Action.NextMessage msg (some e)] ∨
    ∃ b er rest, dataflow (t0 ++ tr)
      = Action.NextMessage msg (some e) :: Action.ShiftMessage b er :: rest := by
  have := runWith_induct m.outputStep
    (fun s t => (dataflow t = [Action.NextMessage msg (some e)] ∧
        s.pc = OutPc.shiftCorrupt e) ∨
      ∃ b er rest, dataflow t
        = Action.NextMessage msg (some e) :: Action.ShiftMessage b er :: rest)
    (by
      intro s t ev s1 out hI hs
      rcases hI with ⟨hd, hpc⟩ | ⟨b, er, rest, hd⟩
      · obtain ⟨pc, msg1, errs, errMap⟩ := s
        simp only at hpc
        subst hpc
        cases ev <;> simp [StackBuffer.outputStep, StackBuffer.outputStepAt] at hs
        rename_i backlog err
        obtain ⟨rfl, rfl⟩ := hs
        right
        exact ⟨backlog, err, [], by simp [dataflow_append, hd, dataflow]⟩
      · right
        exact ⟨b, er, rest ++ dataflow out, by simp [dataflow_append, hd]⟩)
    evs s t0 s2 tr (Or.inl ⟨h0, hpc⟩) hrun
  rcases this with ⟨hd, _⟩ | h
  · exact Or.inl hd
  · exact Or.inr h

/-- C16: in every run of `outputLoop` the pending error list holds no error
value twice and `errMap` has exactly its members; `NextMessage` is called
with the slot empty, and when it returns an error other than `ErrTypeClosed`
the store is shifted next, once (the data action after that shift is not a
shift), and the error is appended to the pending list exactly when no equal
error is pending; and at the select of line 135, when no reader is ready, the
loop goes back to its head with the pending list and `errMap` untouched. -/
theorem outputLoop_corrupt_record (m : StackBuffer) (evs : List Event) (s : OutState)
    (tr : List Action) (hrun : m.outputLoop evs = some (s, tr)) :
    s.errs.Nodup ∧ (∀ e, e ∈ s.errMap ↔ e ∈ s.errs) ∧
    (s.pc = OutPc.next →
      s.msg.Parts = none ∧
      ∀ msg e, e ≠ Err.ErrTypeClosed →
        (∀ backlog er, ∃ s3,
          m.outputRun s [Event.next msg (some e), Event.shifted backlog er]
            = some (s3, [Action.NextMessage msg (some e), Action.ShiftMessage backlog er]) ∧
          s3.errs = (if e ∈ s.errs then s.errs else s.errs ++ [e])) ∧
        (∀ evs2 s2 tr2, m.outputRun s (Event.next msg (some e) :: evs2) = some (s2, tr2) →
          dataflow tr2 = [Action.NextMessage msg (some e)] ∨
          ∃ backlog er rest,
            dataflow tr2
              = Action.NextMessage msg (some e) :: Action.ShiftMessage backlog er :: rest ∧
            ∀ b2 e2, rest.head? ≠ some (Action.ShiftMessage b2 e2))) ∧
    (s.pc = OutPc.offer →
      s.errs ≠ [] ∧
      m.outputStep s Event.noReader = some ({ s with pc := OutPc.loopHead }, [])) := by
  have hP := PendInv.pend_run m evs s tr hrun
  have hO := OutInv.output_run m evs s tr hrun
  obtain ⟨⟨hnd, hmap⟩, hnext, hoffer⟩ := hP
  refine ⟨hnd, hmap, ?_, ?_⟩
  · intro hpc
    refine ⟨hnext hpc, ?_⟩
    intro msg e hne
    obtain ⟨pc, msg0, errs, errMap⟩ := s
    simp only at hpc
    subst hpc
    refine ⟨?_, ?_⟩
    · intro backlog er
      refine ⟨(({ pc := OutPc.shiftCorrupt e, msg := msg, errs := errs, errMap := errMap } :
        OutState).record e).afterNext, ?_, ?_⟩
      · simp [StackBuffer.outputRun, runWith, StackBuffer.outputStep,
          StackBuffer.outputStepAt, hne]
      · rw [afterNext_errs]
        exact record_errs
          ({ pc := OutPc.shiftCorrupt e, msg := msg, errs := errs, errMap := errMap } :
            OutState) e ⟨hnd, hmap⟩
    · intro evs2 s2 tr2 hrun2
      have hO2 := runWith_induct m.outputStep (OutInv m)
        (fun s tr e s1 out hI hs => OutInv.output_step m s s1 tr out e hI hs)
        (Event.next msg (some e) :: evs2) _ tr s2 tr2 hO hrun2
      have hch : List.Chain' Justified (dataflow tr2) := by
        have := hO2.1
        rw [dataflow_append, List.chain'_append] at this
        exact this.2.1
      simp only [StackBuffer.outputRun, runWith] at hrun2
      simp [StackBuffer.outputStep, StackBuffer.outputStepAt, hne] at hrun2
      cases hrest : runWith m.outputStep
          ({ pc := OutPc.shiftCorrupt e, msg := msg, errs := errs, errMap := errMap } :
            OutState) evs2 with
      | none => simp [StackBuffer.outputStep, hrest] at hrun2
      | some r =>
        obtain ⟨s3, tr3⟩ := r
        simp [StackBuffer.outputStep, hrest] at hrun2
        obtain ⟨rfl, rfl⟩ := hrun2
        have := run_after_corrupt m msg e evs2 _ s3 [Action.NextMessage msg (some e)] tr3
          (by simp [dataflow]) rfl hrest
        rcases this with h | ⟨b, er, rest, h⟩
        · left; simpa using h
        · right
          refine ⟨b, er, rest, by simpa using h, ?_⟩
          intro b2 e2 hhead
          have h2 : dataflow (Action.NextMessage msg (some e) :: tr3)
              = Action.NextMessage msg (some e) :: Action.ShiftMessage b er :: rest := by
            simpa using h
          rw [h2] at hch
          cases rest with
          | nil => simp at hhead
          | cons a rest =>
            simp at hhead
            subst hhead
            have hj : Justified (Action.ShiftMessage b er) (Action.ShiftMessage b2 e2) := by
              have := hch
              simp [List.chain'_cons] at this
              exact this.2.1
            simp [Justified] at hj
  · intro hpc
    refine ⟨hoffer hpc, ?_⟩
    obtain ⟨pc, msg0, errs, errMap⟩ := s
    simp only at hpc
    subst hpc
    simp [StackBuffer.outputStep, StackBuffer.outputStepAt]

/-- C16 on a loop with one error pending: an equal error is not appended
again. -/
theorem outputLoop_corrupt_record_witness :
    NewStackBuffer.outputLoop exCorruptSchedule = some (exCorruptState, exCorruptTrace) ∧
    exCorruptState.errs.Nodup ∧
    ∃ s3,
      NewStackBuffer.outputRun exCorruptState
          [Event.next { Parts := none } (some (Err.other 4)), Event.shifted 2 none]
        = some (s3, [Action.NextMessage { Parts := none } (some (Err.other 4)),
            Action.ShiftMessage 2 none]) ∧
      s3.errs = (if Err.other 4 ∈ exCorruptState.errs then exCorruptState.errs
        else exCorruptState.errs ++ [Err.other 4]) :=
  ⟨by decide,
   (outputLoop_corrupt_record NewStackBuffer exCorruptSchedule exCorruptState exCorruptTrace
      (by decide)).1,
   (((outputLoop_corrupt_record NewStackBuffer exCorruptSchedule exCorruptState
      exCorruptTrace (by decide)).2.2.1 rfl).2 { Parts := none } (Err.other 4)
      (by decide)).1 2 none⟩

theorem input_wgDones (m : StackBuffer) (evs : List Event) (pc : InPc) (tr : List Action)
    (hrun : m.inputLoop evs = some (pc, tr)) :
    wgDones tr = if pc = InPc.returned then 1 else 0 := by
  have hap : ∀ a b, wgDones (a ++ b) = wgDones a + wgDones b := by
    intro a b
    induction a with
    | nil => simp [wgDones]
    | cons x a ih => cases x <;> simp [wgDones, ih, add_assoc]
  have := runWith_induct m.inputStep
    (fun pc tr => wgDones tr = if pc = InPc.returned then 1 else 0)
    (by
      intro pc tr e pc1 out hI hs
      cases pc with
      | loopHead =>
        cases e <;> simp [StackBuffer.inputStep] at hs
        rename_i running
        by_cases h : running = 1
        · simp [h] at hs; obtain ⟨rfl, rfl⟩ := hs; simpa using hI
        · simp [h] at hs; obtain ⟨rfl, rfl⟩ := hs
          simp at hI
          simp [hap, hI, StackBuffer.inputDeferred, wgDones]
      | recv =>
        cases e <;> simp [StackBuffer.inputStep] at hs
        · obtain ⟨rfl, rfl⟩ := hs
          simp at hI
          simp [hap, hI, wgDones]
        · obtain ⟨rfl, rfl⟩ := hs
          simp at hI
          simp [hap, hI, StackBuffer.inputDeferred, wgDones]
      | push msg =>
        cases e <;> simp [StackBuffer.inputStep] at hs
        rename_i backlog err
        simp at hI
        by_cases h : err = none
        · simp [h] at hs; obtain ⟨rfl, rfl⟩ := hs
          simp [hap, hI, wgDones]
        · simp [h] at hs; obtain ⟨rfl, rfl⟩ := hs
          simp [hap, hI, wgDones]
      | respond err =>
        cases e <;> simp [StackBuffer.inputStep] at hs
        obtain ⟨rfl, rfl⟩ := hs
        simp at hI
        simp [hap, hI, wgDones]
      | returned => simp [StackBuffer.inputStep] at hs)
    evs InPc.loopHead [] pc tr (by simp [wgDones]) hrun
  simpa using this

theorem wgDones_append (a b : List Action) : wgDones (a ++ b) = wgDones a + wgDones b := by
  induction a with
  | nil => simp [wgDones]
  | cons x a ih => cases x <;> simp [wgDones, ih, add_assoc]

theorem afterForward_ne_returned (s : OutState) : s.afterForward.pc ≠ OutPc.returned := by
  rcases afterForward_pc s with h | h <;> simp [h]

theorem afterNext_ne_returned (s : OutState) : s.afterNext.pc ≠ OutPc.returned := by
  unfold OutState.afterNext
  split
  · simp
  · exact afterForward_ne_returned s

theorem output_wgDones (m : StackBuffer) (evs : List Event) (s : OutState)
    (tr : List Action) (hrun : m.outputLoop evs = some (s, tr)) :
    wgDones tr = if s.pc = OutPc.returned then 1 else 0 := by
  have := runWith_induct m.outputStep
    (fun s tr => wgDones tr = if s.pc = OutPc.returned then 1 else 0)
    (by
      intro s tr e s1 out hI hs
      obtain ⟨pc, msg, errs, errMap⟩ := s
      cases pc with
      | loopHead =>
        cases e <;> simp [StackBuffer.outputStep, StackBuffer.outputStepAt] at hs
        rename_i running
        simp at hI
        by_cases h : running = 1
        · simp [h] at hs
          by_cases hp : msg.Parts = none
          · simp [hp] at hs; obtain ⟨rfl, rfl⟩ := hs; simpa using hI
          · simp [hp] at hs; obtain ⟨rfl, rfl⟩ := hs
            simp [hI, afterNext_ne_returned]
        · simp [h] at hs; obtain ⟨rfl, rfl⟩ := hs
          simp [wgDones_append, hI, StackBuffer.outputDeferred, wgDones]
      | next =>
        cases e <;> simp [StackBuffer.outputStep, StackBuffer.outputStepAt] at hs
        rename_i msg1 err
        simp at hI
        cases err with
        | none =>
          simp at hs; obtain ⟨rfl, rfl⟩ := hs
          simp [wgDones_append, hI, wgDones, afterNext_ne_returned]
        | some e1 =>
          simp at hs
          by_cases hc : e1 = Err.ErrTypeClosed
          · subst hc
            simp at hs; obtain ⟨rfl, rfl⟩ := hs
            simp [wgDones_append, hI, wgDones, afterNext_ne_returned]
          · simp [hc] at hs; obtain ⟨rfl, rfl⟩ := hs
            simp [wgDones_append, hI, wgDones]
      | shiftCorrupt e1 =>
        cases e <;> simp [StackBuffer.outputStep, StackBuffer.outputStepAt] at hs
        obtain ⟨rfl, rfl⟩ := hs
        simp at hI
        simp [wgDones_append, hI, wgDones, afterNext_ne_returned]
      | forward =>
        cases e <;> simp [StackBuffer.outputStep, StackBuffer.outputStepAt] at hs
        obtain ⟨rfl, rfl⟩ := hs
        simp at hI
        simp [wgDones_append, hI, wgDones]
      | awaitResponse =>
        simp at hI
        cases e <;> simp [StackBuffer.outputStep, StackBuffer.outputStepAt] at hs
        · rename_i res
          cases hres : res.Error with
          | none =>
            simp [hres] at hs; obtain ⟨rfl, rfl⟩ := hs
            simp [wgDones_append, hI, wgDones]
          | some e1 =>
            simp [hres] at hs; obtain ⟨rfl, rfl⟩ := hs
            simp [wgDones_append, hI, wgDones, afterForward_ne_returned]
        · obtain ⟨rfl, rfl⟩ := hs
          simp [wgDones_append, hI, StackBuffer.outputDeferred, wgDones]
      | shiftAck =>
        cases e <;> simp [StackBuffer.outputStep, StackBuffer.outputStepAt] at hs
        obtain ⟨rfl, rfl⟩ := hs
        simp at hI
        simp [wgDones_append, hI, wgDones, afterForward_ne_returned]
      | offer =>
        simp at hI
        cases e <;> simp [StackBuffer.outputStep, StackBuffer.outputStepAt] at hs
        · obtain ⟨rfl, rfl⟩ := hs
          simp [wgDones_append, hI, wgDones]
        · obtain ⟨rfl, rfl⟩ := hs
          simp [wgDones_append, hI, wgDones]
      | returned => simp [StackBuffer.outputStep, StackBuffer.outputStepAt] at hs)
    evs OutState.init [] s tr (by simp [wgDones, OutState.init]) hrun
  simpa using this

theorem startReceivings_bound (m : StackBuffer) (h : m.messagesIn ≠ none) :
    ∀ (later : List (Option Chan)),
    m.StartReceivings later
      = (m, List.replicate later.length (some Err.ErrAlreadyStarted, [])) := by
  intro later
  induction later with
  | nil => rfl
  | cons c cs ih =>
    have h1 : m.StartReceiving c = (m, some Err.ErrAlreadyStarted, []) := by
      simp [StackBuffer.StartReceiving, h]
    simp [StackBuffer.StartReceivings, h1, ih, List.replicate_succ]

theorem startListenings_bound (m : StackBuffer) (h : m.responsesIn ≠ none) :
    ∀ (later : List (Option Chan)),
    m.StartListenings later
      = (m, List.replicate later.length (some Err.ErrAlreadyStarted, [])) := by
  intro later
  induction later with
  | nil => rfl
  | cons c cs ih =>
    have h1 : m.StartListening c = (m, some Err.ErrAlreadyStarted, []) := by
      simp [StackBuffer.StartListening, h]
    simp [StackBuffer.StartListenings, h1, ih, List.replicate_succ]

/-- C12: on `FanOut`, a second `CloseAsync` leaves the state of the first
and closes nothing; any number of calls closes `closeChan` at most once, and
on a broker built by `NewFanOut` one or more calls close it exactly once and
leave the state of a single call; on `StackBuffer` calling `CloseAsync` twice
gives the state of calling it once. -/
theorem closeAsync_idempotent :
    (∀ o : Broker.FanOut, o.CloseAsync.1.CloseAsync = (o.CloseAsync.1, [])) ∧
    (∀ (o : Broker.FanOut) (n : Nat),
      (o.CloseAsyncs n).2 = [] ∨ (o.CloseAsyncs n).2 = [Broker.Action.close o.closeChan]) ∧
    (∀ (outputs : List Broker.Output) (o : Broker.FanOut) (n : Nat),
      Broker.NewFanOut outputs = .ok o →
      Broker.closes (o.CloseAsyncs (n + 1)).2 = [Chan.closeChan] ∧
      (Broker.closes (o.CloseAsyncs (n + 1)).2).count Chan.closeChan = 1 ∧
      (o.CloseAsyncs (n + 1)).1 = o.CloseAsync.1) ∧
    (∀ m : StackBuffer, m.CloseAsync.CloseAsync = m.CloseAsync) := by
  refine ⟨Broker.closeAsync_again, ?_, ?_, ?_⟩
  · intro o n
    cases n with
    | zero => left; rfl
    | succ n =>
      rw [Broker.closeAsyncs_succ]
      unfold Broker.FanOut.CloseAsync
      by_cases h : o.running = 1
      · right; simp [h]
      · left; simp [h]
  · intro outputs o n hnew
    obtain ⟨hr, hc⟩ := Broker.NewFanOut_running outputs o hnew
    rw [Broker.closeAsyncs_succ]
    simp [Broker.FanOut.CloseAsync, hr, hc, Broker.closes]
  · intro m
    rfl

/-- C12 on the broker built for three outputs, closed five times. -/
theorem closeAsync_idempotent_witness :
    Broker.NewFanOut Broker.exOutputs = .ok Broker.exFanOut ∧
    Broker.closes (Broker.exFanOut.CloseAsyncs (4 + 1)).2 = [Chan.closeChan] ∧
    (Broker.closes (Broker.exFanOut.CloseAsyncs (4 + 1)).2).count Chan.closeChan = 1 ∧
    (Broker.exFanOut.CloseAsyncs (4 + 1)).1 = Broker.exFanOut.CloseAsync.1 :=
  ⟨rfl, closeAsync_idempotent.2.2.1 Broker.exOutputs Broker.exFanOut 4 rfl⟩

/-- C13 as stated fails when the first call is given a nil channel: the
field stays nil, so a later call is accepted, binds its channel and starts
loops again. -/
theorem start_again_nil_counterexample :
    (Broker.exFanOut.StartReceiving none).2 = (none, [Broker.Go.loop]) ∧
    ((Broker.exFanOut.StartReceiving none).1.StartReceiving (some (Chan.ext 1))).2
      = (none, [Broker.Go.loop]) ∧
    ((Broker.exFanOut.StartReceiving none).1.StartReceiving (some (Chan.ext 1))).2.1
      ≠ some Err.ErrAlreadyStarted ∧
    ((NewStackBuffer.StartListening (some (Chan.ext 2))).1.StartReceiving none)
      = (exNilStarted, none, [Go.inputLoop, Go.outputLoop]) ∧
    (exNilStarted.StartReceiving (some (Chan.ext 1))).2
      = (none, [Go.inputLoop, Go.outputLoop]) ∧
    (exNilStarted.StartReceiving (some (Chan.ext 1))).1.messagesIn = some (Chan.ext 1) ∧
    ((NewStackBuffer.StartListening none).1.StartListening (some (Chan.ext 2))).2.1
      ≠ some Err.ErrAlreadyStarted := by
  decide

/-- C13 amended: after a first call of `FanOut.StartReceiving`,
`StackBuffer.StartReceiving` or `StackBuffer.StartListening` with a channel
that is not nil, the channel field is bound (to that channel when the
component was not bound before), and every later call of the same operation,
whatever its argument, returns `ErrAlreadyStarted`, starts no loop and leaves
the component as it was. -/
theorem start_again_rejected :
    (∀ (o : Broker.FanOut) (c : Chan) (later : List (Option Chan)),
      (o.transactions = none → (o.StartReceiving (some c)).1.transactions = some c) ∧
      (o.StartReceiving (some c)).1.StartReceivings later
        = ((o.StartReceiving (some c)).1,
            List.replicate later.length (some Err.ErrAlreadyStarted, []))) ∧
    (∀ (m : StackBuffer) (c : Chan) (later : List (Option Chan)),
      (m.messagesIn = none → (m.StartReceiving (some c)).1.messagesIn = some c) ∧
      (m.StartReceiving (some c)).1.StartReceivings later
        = ((m.StartReceiving (some c)).1,
            List.replicate later.length (some Err.ErrAlreadyStarted, []))) ∧
    (∀ (m : StackBuffer) (c : Chan) (later : List (Option Chan)),
      (m.responsesIn = none → (m.StartListening (some c)).1.responsesIn = some c) ∧
      (m.StartListening (some c)).1.StartListenings later
        = ((m.StartListening (some c)).1,
            List.replicate later.length (some Err.ErrAlreadyStarted, []))) := by
  refine ⟨?_, ?_, ?_⟩
  · intro o c later
    have hb : (o.StartReceiving (some c)).1.transactions ≠ none := by
      unfold Broker.FanOut.StartReceiving
      by_cases h : o.transactions = none
      · simp [h]
      · simp [h]
    refine ⟨?_, Broker.startReceivings_started _ hb later⟩
    intro h
    simp [Broker.FanOut.StartReceiving, h]
  · intro m c later
    have hb : (m.StartReceiving (some c)).1.messagesIn ≠ none := by
      unfold StackBuffer.StartReceiving
      by_cases h : m.messagesIn = none
      · by_cases h2 : m.responsesIn = none
        · simp [h, h2]
        · simp [h, h2]
      · simp [h]
    refine ⟨?_, startReceivings_bound _ hb later⟩
    intro h
    by_cases h2 : m.responsesIn = none
    · simp [StackBuffer.StartReceiving, h, h2]
    · simp [StackBuffer.StartReceiving, h, h2]
  · intro m c later
    have hb : (m.StartListening (some c)).1.responsesIn ≠ none := by
      unfold StackBuffer.StartListening
      by_cases h : m.responsesIn = none
      · by_cases h2 : m.messagesIn = none
        · simp [h, h2]
        · simp [h, h2]
      · simp [h]
    refine ⟨?_, startListenings_bound _ hb later⟩
    intro h
    by_cases h2 : m.messagesIn = none
    · simp [StackBuffer.StartListening, h, h2]
    · simp [StackBuffer.StartListening, h, h2]

/-- C13 amended, on a fresh broker and a fresh buffer. -/
theorem start_again_rejected_witness :
    Broker.exFanOut.transactions = none ∧
    (Broker.exFanOut.StartReceiving (some (Chan.ext 1))).1.transactions
      = some (Chan.ext 1) ∧
    (Broker.exFanOut.StartReceiving (some (Chan.ext 1))).1.StartReceivings
        [some (Chan.ext 3), none]
      = ((Broker.exFanOut.StartReceiving (some (Chan.ext 1))).1,
          List.replicate [some (Chan.ext 3), none].length (some Err.ErrAlreadyStarted, [])) ∧
    NewStackBuffer.messagesIn = none ∧
    (NewStackBuffer.StartReceiving (some (Chan.ext 1))).1.messagesIn = some (Chan.ext 1) :=
  ⟨rfl,
   (start_again_rejected.1 Broker.exFanOut (Chan.ext 1) [some (Chan.ext 3), none]).1 rfl,
   (start_again_rejected.1 Broker.exFanOut (Chan.ext 1) [some (Chan.ext 3), none]).2,
   rfl,
   (start_again_rejected.2.1 NewStackBuffer (Chan.ext 1) []).1 rfl⟩

/-- C19: on a new buffer, for either order of one `StartReceiving` and one
`StartListening` with channels that are not nil, the first call starts no
loop and leaves the wait group at zero, and the second call starts
`inputLoop` and `outputLoop` and raises the wait group to 2; each loop calls
`Done` exactly when it returns, so `WaitForClose` returns nil only when both
loops have returned. -/
theorem stackBuffer_starts_loops_once (c1 c2 : Chan) :
    (NewStackBuffer.StartReceiving (some c1)
        = ({ NewStackBuffer with messagesIn := some c1 }, none, []) ∧
      ({ NewStackBuffer with messagesIn := some c1 } : StackBuffer).StartListening (some c2)
        = ({ NewStackBuffer with
              messagesIn := some c1, responsesIn := some c2, closedWG := 2 },
            none, [Go.inputLoop, Go.outputLoop])) ∧
    (NewStackBuffer.StartListening (some c2)
        = ({ NewStackBuffer with responsesIn := some c2 }, none, []) ∧
      ({ NewStackBuffer with responsesIn := some c2 } : StackBuffer).StartReceiving (some c1)
        = ({ NewStackBuffer with
              messagesIn := some c1, responsesIn := some c2, closedWG := 2 },
            none, [Go.inputLoop, Go.outputLoop])) ∧
    (∀ (m : StackBuffer) evsI evsO pcI trI sO trO,
      m.inputLoop evsI = some (pcI, trI) → m.outputLoop evsO = some (sO, trO) →
      (wgDones trI = if pcI = InPc.returned then 1 else 0) ∧
      (wgDones trO = if sO.pc = OutPc.returned then 1 else 0) ∧
      ∀ ev, StackBuffer.WaitForClose (2 - wgDones trI - wgDones trO) ev = some none →
        pcI = InPc.returned ∧ sO.pc = OutPc.returned) := by
  refine ⟨⟨by simp [StackBuffer.StartReceiving, NewStackBuffer],
      by simp [StackBuffer.StartListening, NewStackBuffer]⟩,
    ⟨by simp [StackBuffer.StartListening, NewStackBuffer],
      by simp [StackBuffer.StartReceiving, NewStackBuffer]⟩, ?_⟩
  intro m evsI evsO pcI trI sO trO hI hO
  have h1 := input_wgDones m evsI pcI trI hI
  have h2 := output_wgDones m evsO sO trO hO
  refine ⟨h1, h2, ?_⟩
  intro ev hw
  cases ev with
  | timeout => simp [StackBuffer.WaitForClose] at hw
  | closed =>
    simp only [StackBuffer.WaitForClose] at hw
    by_cases hz : 2 - wgDones trI - wgDones trO = 0
    · rw [h1, h2] at hz
      by_cases ha : pcI = InPc.returned <;> by_cases hb : sO.pc = OutPc.returned <;>
        simp [ha, hb] at hz ⊢
    · simp [hz] at hw

/-- C19 on loops of which only `inputLoop` has returned: the wait group is
still raised. -/
theorem stackBuffer_starts_loops_once_witness :
    NewStackBuffer.inputLoop [Event.load 1, Event.inputClosed]
      = some (InPc.returned,
          [Action.bufferClose, Action.wgDone, Action.close Chan.responsesOut]) ∧
    NewStackBuffer.outputLoop exForwardSchedule = some (exForwardState, exForwardTrace) ∧
    wgDones [Action.bufferClose, Action.wgDone, Action.close Chan.responsesOut]
      = (if InPc.returned = InPc.returned then 1 else 0) ∧
    StackBuffer.WaitForClose
        (2 - wgDones [Action.bufferClose, Action.wgDone, Action.close Chan.responsesOut]
          - wgDones exForwardTrace) WaitEvent.closed = none :=
  ⟨by decide, by decide,
   ((stackBuffer_starts_loops_once (Chan.ext 1) (Chan.ext 2)).2.2 NewStackBuffer
      [Event.load 1, Event.inputClosed] exForwardSchedule InPc.returned _ exForwardState
      exForwardTrace (by decide) (by decide)).1,
   by decide⟩

end Buffer

namespace Manager

theorem get_set {V : Type} (m : GoMap V) (k : String) (v : V) (k2 : String) :
    (m.set k v).get k2 = if k = k2 then some v else m.get k2 := by
  induction m with
  | nil => simp [GoMap.set, GoMap.get]
  | cons p m ih =>
    obtain ⟨k1, v1⟩ := p
    by_cases h1 : k1 = k
    · subst h1
      by_cases h2 : k1 = k2
      · simp [GoMap.set, GoMap.get, h2]
      · simp [GoMap.set, GoMap.get, h2]
    · by_cases h2 : k1 = k2
      · subst h2
        have h3 : ¬ k = k1 := fun e => h1 e.symm
        simp [GoMap.set, GoMap.get, h1, h3]
      · simp [GoMap.set, GoMap.get, h1, h2, ih]

theorem get_eq_none_iff {V : Type} (m : GoMap V) (k : String) :
    m.get k = none ↔ k ∉ m.keys := by
  induction m with
  | nil => simp [GoMap.get, GoMap.keys]
  | cons p m ih =>
    obtain ⟨k1, v1⟩ := p
    by_cases h : k1 = k
    · simp [GoMap.get, GoMap.keys, h]
    · have h2 : ¬ k = k1 := fun e => h e.symm
      simpa [GoMap.get, GoMap.keys, h, h2] using ih

theorem mem_keys_iff {V : Type} (m : GoMap V) (k : String) :
    k ∈ m.keys ↔ (m.get k).isSome = true := by
  have := get_eq_none_iff m k
  cases h : m.get k with
  | none => simp [h] at this; simp [this]
  | some v => simp [h] at this; simp [this]

theorem overInfos_toDelete {Config : Type} (newSet : GoMap Config) :
    ∀ (ids : List String) (d : List String) (u : GoMap Config),
    (HandleStreamsCRUD.overInfos newSet ids (d, u)).1
      = d ++ ids.filter (fun id => decide (id ∉ newSet.keys)) := by
  intro ids
  induction ids with
  | nil => intro d u; simp [HandleStreamsCRUD.overInfos]
  | cons id ids ih =>
    intro d u
    cases h : newSet.get id with
    | none =>
      have hk : id ∉ newSet.keys := (get_eq_none_iff _ _).1 h
      simp [HandleStreamsCRUD.overInfos, h, ih, hk]
    | some c =>
      have hk : id ∈ newSet.keys := (mem_keys_iff _ _).2 (by simp [h])
      simp [HandleStreamsCRUD.overInfos, h, ih, hk]

theorem overInfos_toUpdate {Config : Type} (newSet : GoMap Config) (k : String) :
    ∀ (ids : List String) (d : List String) (u : GoMap Config),
    (HandleStreamsCRUD.overInfos newSet ids (d, u)).2.get k
      = if k ∈ ids ∧ (newSet.get k).isSome = true then newSet.get k else u.get k := by
  intro ids
  induction ids with
  | nil => intro d u; simp [HandleStreamsCRUD.overInfos]
  | cons id ids ih =>
    intro d u
    cases h : newSet.get id with
    | none =>
      simp only [HandleStreamsCRUD.overInfos, h, ih]
      by_cases hk : k = id
      · subst hk; simp [h]
      · simp [hk]
    | some c =>
      simp only [HandleStreamsCRUD.overInfos, h, ih, get_set]
      by_cases hk : k = id
      · subst hk; simp [h]
      · have hk2 : ¬ id = k := fun e => hk e.symm
        simp [hk, hk2]

theorem overNewSet_get {Config : Type} (infos : GoMap confInfo) (k : String) :
    ∀ (entries : GoMap Config) (c : GoMap Config), entries.keys.Nodup →
    (HandleStreamsCRUD.overNewSet infos entries c).get k
      = if (infos.get k).isNone = true ∧ (entries.get k).isSome = true then entries.get k
        else c.get k := by
  intro entries
  induction entries with
  | nil => intro c _; simp [HandleStreamsCRUD.overNewSet, GoMap.get]
  | cons p entries ih =>
    obtain ⟨id, conf⟩ := p
    intro c hnd
    have hnd2 : id ∉ GoMap.keys entries ∧ (GoMap.keys entries).Nodup := by
      simpa [GoMap.keys] using hnd
    have hid : GoMap.get entries id = none := (get_eq_none_iff _ _).2 hnd2.1
    cases h : infos.get id with
    | none =>
      simp only [HandleStreamsCRUD.overNewSet, h, ih _ hnd2.2, get_set, GoMap.get]
      by_cases hk : id = k
      · subst hk; simp [h, hid]
      · simp [hk]
    | some i =>
      simp only [HandleStreamsCRUD.overNewSet, h, ih _ hnd2.2, GoMap.get]
      by_cases hk : id = k
      · subst hk; simp [h, hid]
      · simp [hk]

/-- C9: for registered ids `R` (the keys of `infos`) and a posted set `S`
(`newSet`), the POST branch computes `toDelete = R \ S` without repetition,
`toUpdate` defined exactly on `R ∩ S` and `toCreate` exactly on `S \ R`, both
mapping an id to its config in `S`; the three id sets are pairwise disjoint
and their union is `R ∪ S`. -/
theorem bulk_replace_sets {Config : Type} (infos : GoMap confInfo) (newSet : GoMap Config)
    (hR : infos.keys.Nodup) (hS : newSet.keys.Nodup) :
    (∀ id, id ∈ (HandleStreamsCRUD.sets infos newSet).toDelete
      ↔ id ∈ infos.keys ∧ id ∉ newSet.keys) ∧
    (HandleStreamsCRUD.sets infos newSet).toDelete.Nodup ∧
    (∀ id, (HandleStreamsCRUD.sets infos newSet).toUpdate.get id
      = if id ∈ infos.keys then newSet.get id else none) ∧
    (∀ id, (HandleStreamsCRUD.sets infos newSet).toCreate.get id
      = if id ∈ infos.keys then none else newSet.get id) ∧
    (∀ id, id ∈ (HandleStreamsCRUD.sets infos newSet).toUpdate.keys
      ↔ id ∈ infos.keys ∧ id ∈ newSet.keys) ∧
    (∀ id, id ∈ (HandleStreamsCRUD.sets infos newSet).toCreate.keys
      ↔ id ∈ newSet.keys ∧ id ∉ infos.keys) ∧
    (∀ id, ¬ (id ∈ (HandleStreamsCRUD.sets infos newSet).toDelete ∧
        id ∈ (HandleStreamsCRUD.sets infos newSet).toUpdate.keys) ∧
      ¬ (id ∈ (HandleStreamsCRUD.sets infos newSet).toDelete ∧
        id ∈ (HandleStreamsCRUD.sets infos newSet).toCreate.keys) ∧
      ¬ (id ∈ (HandleStreamsCRUD.sets infos newSet).toUpdate.keys ∧
        id ∈ (HandleStreamsCRUD.sets infos newSet).toCreate.keys)) ∧
    (∀ id, (id ∈ (HandleStreamsCRUD.sets infos newSet).toDelete ∨
        id ∈ (HandleStreamsCRUD.sets infos newSet).toUpdate.keys ∨
        id ∈ (HandleStreamsCRUD.sets infos newSet).toCreate.keys)
      ↔ (id ∈ infos.keys ∨ id ∈ newSet.keys)) := by
  have hD : ∀ id, id ∈ (HandleStreamsCRUD.sets infos newSet).toDelete
      ↔ id ∈ infos.keys ∧ id ∉ newSet.keys := by
    intro id
    simp [HandleStreamsCRUD.sets, overInfos_toDelete]
  have hUg : ∀ id, (HandleStreamsCRUD.sets infos newSet).toUpdate.get id
      = if id ∈ infos.keys then newSet.get id else none := by
    intro id
    simp only [HandleStreamsCRUD.sets, overInfos_toUpdate]
    by_cases h1 : id ∈ infos.keys
    · cases h2 : newSet.get id with
      | none => simp [h1, GoMap.get]
      | some c => simp [h1]
    · simp [h1, GoMap.get]
  have hCg : ∀ id, (HandleStreamsCRUD.sets infos newSet).toCreate.get id
      = if id ∈ infos.keys then none else newSet.get id := by
    intro id
    simp only [HandleStreamsCRUD.sets, overNewSet_get infos id newSet [] hS]
    by_cases h1 : id ∈ infos.keys
    · have : (infos.get id).isSome = true := (mem_keys_iff _ _).1 h1
      cases h3 : infos.get id with
      | none => simp [h3] at this
      | some i => simp [h1, GoMap.get]
    · have : infos.get id = none := (get_eq_none_iff _ _).2 h1
      cases h2 : newSet.get id with
      | none => simp [h1, this, GoMap.get]
      | some c => simp [h1, this]
  have hU : ∀ id, id ∈ (HandleStreamsCRUD.sets infos newSet).toUpdate.keys
      ↔ id ∈ infos.keys ∧ id ∈ newSet.keys := by
    intro id
    rw [mem_keys_iff, hUg]
    by_cases h1 : id ∈ infos.keys <;> simp [h1, mem_keys_iff newSet id]
  have hC : ∀ id, id ∈ (HandleStreamsCRUD.sets infos newSet).toCreate.keys
      ↔ id ∈ newSet.keys ∧ id ∉ infos.keys := by
    intro id
    rw [mem_keys_iff, hCg]
    by_cases h1 : id ∈ infos.keys <;> simp [h1, mem_keys_iff newSet id]
  refine ⟨hD, ?_, hUg, hCg, hU, hC, ?_, ?_⟩
  · simp only [HandleStreamsCRUD.sets, overInfos_toDelete, List.nil_append]
    exact hR.filter _
  · intro id
    rw [hD, hU, hC]
    tauto
  · intro id
    rw [hD, hU, hC]
    tauto

/-- C9 on the example of the claim: registered `a`, `b`, `c` and posted
`b`, `c`, `d` give delete `a`, update `b`, `c`, create `d`. -/
theorem bulk_replace_sets_witness :
    (HandleStreamsCRUD.sets exInfos exNewSet).toDelete = ["a"] ∧
    (HandleStreamsCRUD.sets exInfos exNewSet).toUpdate.keys = ["b", "c"] ∧
    (HandleStreamsCRUD.sets exInfos exNewSet).toCreate.keys = ["d"] ∧
    (HandleStreamsCRUD.sets exInfos exNewSet).toUpdate.get "b"
      = (if "b" ∈ exInfos.keys then exNewSet.get "b" else none) ∧
    exNewSet.get "b" = some 20 :=
  ⟨by decide, by decide, by decide,
   (bulk_replace_sets exInfos exNewSet (by decide) (by decide)).2.2.1 "b", by decide⟩

/-- C10 as stated fails: a PUT (and a DELETE) of a stream the manager does
not know is answered 404, not 400. -/
theorem stream_crud_missing_counterexample :
    exOps.Update "foo" 7 = some Err.ErrStreamDoesNotExist ∧
    status (HandleStreamCRUD exOps "foo" "PUT" (.ok 7)) = 404 ∧
    status (HandleStreamCRUD exOps "foo" "PUT" (.ok 7)) ≠ 400 ∧
    exOps.Delete "foo" = some Err.ErrStreamDoesNotExist ∧
    status (HandleStreamCRUD exOps "foo" "DELETE" (.ok 7)) = 404 := by
  decide

theorem status_finish_nil (serverErr : Option Err) (requestErr : Option Body) :
    status (HandleStreamCRUD.finish [] serverErr requestErr) =
      match serverErr with
      | some Err.ErrStreamDoesNotExist => 404
      | some Err.ErrStreamExists => 400
      | some _ => 502
      | none =>
        match requestErr with
        | some _ => 400
        | none => 200 := by
  cases serverErr with
  | none =>
    cases requestErr <;>
      simp [HandleStreamCRUD.finish, HandleStreamCRUD.deferred, status]
  | some e =>
    cases e <;> cases requestErr <;>
      simp [HandleStreamCRUD.finish, HandleStreamCRUD.deferred, status]

/-- C10 amended: for a request with a non-empty id, POST with `Create`
returning `ErrStreamExists` gives 400; PUT, DELETE and GET whose manager call
returns `ErrStreamDoesNotExist` all give 404; an unreadable body (POST, PUT)
or an unsupported method gives 400; any other manager error, or a failing
serialisation of the status, gives 502; and no error gives 200. -/
theorem stream_crud_status {Config : Type} (ops : Ops Config) (id method : String)
    (conf : Config) (body : Except Err Config) (e : Err) (hid : id.length ≠ 0) :
    (ops.Create id conf = some Err.ErrStreamExists →
      status (HandleStreamCRUD ops id "POST" (.ok conf)) = 400) ∧
    (ops.Update id conf = some Err.ErrStreamDoesNotExist →
      status (HandleStreamCRUD ops id "PUT" (.ok conf)) = 404) ∧
    (ops.Delete id = some Err.ErrStreamDoesNotExist →
      status (HandleStreamCRUD ops id "DELETE" body) = 404) ∧
    (ops.Read id = .error Err.ErrStreamDoesNotExist →
      status (HandleStreamCRUD ops id "GET" body) = 404) ∧
    status (HandleStreamCRUD ops id "POST" (.error e)) = 400 ∧
    status (HandleStreamCRUD ops id "PUT" (.error e)) = 400 ∧
    (method ≠ "POST" → method ≠ "GET" → method ≠ "PUT" → method ≠ "DELETE" →
      status (HandleStreamCRUD ops id method body) = 400) ∧
    (e ≠ Err.ErrStreamExists → e ≠ Err.ErrStreamDoesNotExist →
      (ops.Create id conf = some e →
        status (HandleStreamCRUD ops id "POST" (.ok conf)) = 502) ∧
      (ops.Update id conf = some e →
        status (HandleStreamCRUD ops id "PUT" (.ok conf)) = 502) ∧
      (ops.Delete id = some e → status (HandleStreamCRUD ops id "DELETE" body) = 502) ∧
      (ops.Read id = .error e → status (HandleStreamCRUD ops id "GET" body) = 502)) ∧
    (∀ info, ops.Read id = .ok info → ops.Marshal info = .error e →
      status (HandleStreamCRUD ops id "GET" body) = 502) ∧
    (ops.Create id conf = none →
      status (HandleStreamCRUD ops id "POST" (.ok conf)) = 200) ∧
    (ops.Update id conf = none →
      status (HandleStreamCRUD ops id "PUT" (.ok conf)) = 200) ∧
    (ops.Delete id = none → status (HandleStreamCRUD ops id "DELETE" body) = 200) ∧
    (∀ info bytes, ops.Read id = .ok info → ops.Marshal info = .ok bytes →
      status (HandleStreamCRUD ops id "GET" body) = 200) := by
  refine ⟨?_, ?_, ?_, ?_, ?_, ?_, ?_, ?_, ?_, ?_, ?_, ?_, ?_⟩
  · intro h; simp [HandleStreamCRUD, hid, h, status_finish_nil]
  · intro h; simp [HandleStreamCRUD, hid, h, status_finish_nil]
  · intro h; simp [HandleStreamCRUD, hid, h, status_finish_nil]
  · intro h; simp [HandleStreamCRUD, hid, h, status_finish_nil]
  · simp [HandleStreamCRUD, hid, HandleStreamCRUD.deferred, status]
  · simp [HandleStreamCRUD, hid, HandleStreamCRUD.deferred, status]
  · intro h1 h2 h3 h4; simp [HandleStreamCRUD, hid, h1, h2, h3, h4, status_finish_nil]
  · intro h1 h2
    refine ⟨?_, ?_, ?_, ?_⟩ <;> intro h <;>
      simp [HandleStreamCRUD, hid, h, status_finish_nil]
  · intro info h1 h2
    simp [HandleStreamCRUD, hid, h1, h2, HandleStreamCRUD.deferred, status]
  · intro h; simp [HandleStreamCRUD, hid, h, status_finish_nil]
  · intro h; simp [HandleStreamCRUD, hid, h, status_finish_nil]
  · intro h; simp [HandleStreamCRUD, hid, h, status_finish_nil]
  · intro info bytes h1 h2
    simp [HandleStreamCRUD, hid, h1, h2, HandleStreamCRUD.finish, HandleStreamCRUD.deferred,
      status]

/-- C10 amended, on a manager that does not know `foo`. -/
theorem stream_crud_status_witness :
    "foo".length ≠ 0 ∧
    exOps.Delete "foo" = some Err.ErrStreamDoesNotExist ∧
    status (HandleStreamCRUD exOps "foo" "DELETE" (.ok 7)) = 404 ∧
    status (HandleStreamCRUD exOps "foo" "POST" (.error (Err.other 1))) = 400 :=
  ⟨by decide, rfl,
   (stream_crud_status exOps "foo" "PATCH" 7 (.ok 7) (Err.other 1) (by decide)).2.2.1 rfl,
   (stream_crud_status exOps "foo" "PATCH" 7 (.ok 7) (Err.other 1) (by decide)).2.2.2.2.1⟩

theorem appendErrs_eq (label : String) (errText : Err → String) (l : List (Option Err)) :
    ∀ errs, HandleStreamsCRUD.appendErrs label errText l errs
      = errs ++ l.filterMap (Option.map (fun e => label ++ errText e)) := by
  induction l with
  | nil => intro errs; simp [HandleStreamsCRUD.appendErrs]
  | cons x l ih =>
    intro errs
    cases x with
    | none => simp [HandleStreamsCRUD.appendErrs, ih]
    | some e => simp [HandleStreamsCRUD.appendErrs, ih]

theorem length_failures (f : Err → String) (l : List (Option Err)) :
    (l.filterMap (Option.map f)).length = l.countP Option.isSome := by
  induction l with
  | nil => rfl
  | cons x l ih => cases x <;> simp [List.filterMap_cons, ih]

/-- C17: after the bulk-replace tasks have finished, the list `errs` holds
one entry per non-nil result, the delete failures first, then the update
failures, then the create failures, each in slot order and each the label of
its operation followed by the error; its length is the number of failed
operations; the report is produced exactly when some result is non-nil, and
is then the entries joined by newlines. -/
theorem bulk_replace_failure_report (errText : Err → String) (r : Results) :
    HandleStreamsCRUD.errs errText r
      = r.errDelete.filterMap (Option.map (fun e => "failed to delete stream: " ++ errText e))
        ++ r.errUpdate.filterMap (Option.map (fun e => "failed to update stream: " ++ errText e))
        ++ r.errCreate.filterMap (Option.map (fun e => "failed to create stream: " ++ errText e)) ∧
    (HandleStreamsCRUD.errs errText r).length
      = (r.errDelete ++ r.errUpdate ++ r.errCreate).countP Option.isSome ∧
    (HandleStreamsCRUD.report errText r = none ↔
      ∀ x ∈ r.errDelete ++ r.errUpdate ++ r.errCreate, x = none) ∧
    ((∃ x ∈ r.errDelete ++ r.errUpdate ++ r.errCreate, x ≠ none) ↔
      HandleStreamsCRUD.report errText r
        = some (String.intercalate "\n" (HandleStreamsCRUD.errs errText r))) := by
  have h1 : HandleStreamsCRUD.errs errText r
      = r.errDelete.filterMap (Option.map (fun e => "failed to delete stream: " ++ errText e))
        ++ r.errUpdate.filterMap (Option.map (fun e => "failed to update stream: " ++ errText e))
        ++ r.errCreate.filterMap (Option.map (fun e => "failed to create stream: " ++ errText e)) := by
    simp [HandleStreamsCRUD.errs, appendErrs_eq]
  have h2 : (HandleStreamsCRUD.errs errText r).length
      = (r.errDelete ++ r.errUpdate ++ r.errCreate).countP Option.isSome := by
    rw [h1]
    simp only [List.length_append, List.countP_append, length_failures]
  have h3 : (HandleStreamsCRUD.errs errText r).length = 0 ↔
      ∀ x ∈ r.errDelete ++ r.errUpdate ++ r.errCreate, x = none := by
    rw [h2, List.countP_eq_zero]
    constructor
    · intro h x hx
      have := h x hx
      cases x <;> simp_all
    · intro h x hx
      rw [h x hx]
      simp
  refine ⟨h1, h2, ?_, ?_⟩
  · rw [← h3]
    unfold HandleStreamsCRUD.report
    by_cases hz : (HandleStreamsCRUD.errs errText r).length = 0
    · simp [hz]
    · have : (HandleStreamsCRUD.errs errText r).length > 0 := by omega
      simp [hz, this]
  · have h4 : (∃ x ∈ r.errDelete ++ r.errUpdate ++ r.errCreate, x ≠ none) ↔
        ¬ (HandleStreamsCRUD.errs errText r).length = 0 := by
      rw [h3]
      push_neg
      rfl
    rw [h4]
    unfold HandleStreamsCRUD.report
    by_cases hz : (HandleStreamsCRUD.errs errText r).length = 0
    · simp [hz]
    · have : (HandleStreamsCRUD.errs errText r).length > 0 := by omega
      simp [hz, this]

/-- C17 on the tasks of the example sets run on a manager that has no
stream: the delete of `a` and the updates of `b` and `c` fail, the create of
`d` succeeds, and the report has the three lines in that order. -/
theorem bulk_replace_failure_report_witness :
    HandleStreamsCRUD.tasks exOps (HandleStreamsCRUD.sets exInfos exNewSet)
      = ⟨[some Err.ErrStreamDoesNotExist],
          [some Err.ErrStreamDoesNotExist, some Err.ErrStreamDoesNotExist], [none]⟩ ∧
    HandleStreamsCRUD.errs exErrText
        (HandleStreamsCRUD.tasks exOps (HandleStreamsCRUD.sets exInfos exNewSet))
      = ["failed to delete stream: stream does not exist",
         "failed to update stream: stream does not exist",
         "failed to update stream: stream does not exist"] ∧
    HandleStreamsCRUD.report exErrText
        (HandleStreamsCRUD.tasks exOps (HandleStreamsCRUD.sets exInfos exNewSet))
      = some (String.intercalate "\n" (HandleStreamsCRUD.errs exErrText
          (HandleStreamsCRUD.tasks exOps (HandleStreamsCRUD.sets exInfos exNewSet)))) :=
  ⟨rfl, by decide,
   (bulk_replace_failure_report exErrText
      (HandleStreamsCRUD.tasks exOps (HandleStreamsCRUD.sets exInfos exNewSet))).2.2.2.1
      ⟨some Err.ErrStreamDoesNotExist, by decide, by decide⟩⟩

theorem get_set_same {V : Type} (m : GoMap V) (k : String) (v : V) :
    (m.set k v).get k = some v := by
  induction m with
  | nil => simp [GoMap.set, GoMap.get]
  | cons e m ih =>
    obtain ⟨k1, v1⟩ := e
    by_cases h : k1 = k
    · simp [GoMap.set, GoMap.get, h]
    · simp [GoMap.set, GoMap.get, h, ih]

/-- C14 as stated fails for a config whose stream cannot be built: on an
open manager without streams, `Create` of `foo` with an unknown input type
returns the wiring error and a following `Read` finds no stream. -/
theorem create_read_wiring_counterexample :
    exRegistry.closed = false ∧ exRegistry.streams.get "foo" = none ∧
    (Registry.Create exWire 0 exRegistry "foo" ("nonexistent", "http_server")).2
      = some (Err.other 3) ∧
    (match Registry.Read 1
        (Registry.Create exWire 0 exRegistry "foo" ("nonexistent", "http_server")).1 "foo" with
      | .ok _ => false
      | .error e => e = Err.ErrStreamDoesNotExist) = true :=
  ⟨rfl, rfl, by decide, by decide⟩

/-- C14 amended: on an open manager, for every id not in the registry and
every config `c` whose stream construction succeeds, `Create` succeeds and a
following `Read` returns a status whose config is `c` and which is active; a
second `Create` with the same id, whatever its config, fails with
`ErrStreamExists` and leaves the registry, and so the stored config,
unchanged. -/
theorem create_then_read {Config : Type} (wire : Config → Option Err)
    (m : Registry Config) (id : String) (c : Config) (t1 t2 : Nat)
    (hopen : m.closed = false) (habsent : m.streams.get id = none)
    (hwire : wire c = none) :
    (Registry.Create wire t1 m id c).2 = none ∧
    (∃ st, Registry.Read t2 (Registry.Create wire t1 m id c).1 id = .ok st ∧
      st.Config = c ∧ st.Active = true) ∧
    (∀ (c2 : Config) (t3 : Nat),
      Registry.Create wire t3 (Registry.Create wire t1 m id c).1 id c2
        = ((Registry.Create wire t1 m id c).1, some Err.ErrStreamExists)) := by
  have hc : Registry.Create wire t1 m id c
      = ({ m with streams := m.streams.set id { Config := c, running := true, created := t1 } },
          none) := by
    simp [Registry.Create, hopen, habsent, hwire]
  rw [hc]
  refine ⟨rfl, ?_, ?_⟩
  · simp [Registry.Read, get_set_same]
  · intro c2 t3
    simp [Registry.Create, hopen, get_set_same]

/-- C14 amended, on the id `foo` and the harmless config of the test. -/
theorem create_then_read_witness :
    (Registry.Create exWire 0 exRegistry "foo" harmlessConf).2 = none ∧
    (∃ st, Registry.Read 1 (Registry.Create exWire 0 exRegistry "foo" harmlessConf).1 "foo"
        = .ok st ∧ st.Config = harmlessConf ∧ st.Active = true) ∧
    (∀ (c2 : String × String) (t3 : Nat),
      Registry.Create exWire t3 (Registry.Create exWire 0 exRegistry "foo" harmlessConf).1
          "foo" c2
        = ((Registry.Create exWire 0 exRegistry "foo" harmlessConf).1,
            some Err.ErrStreamExists)) :=
  create_then_read exWire exRegistry "foo" harmlessConf 0 1 rfl rfl (by decide)

end Manager

namespace Processor

/-- C11: for every message `m`, `Filter.ProcessMessage` returns the
one-element slice holding `m` itself and a nil response when the check
passes, and a nil slice with a response whose error is nil when it fails;
exactly one of the two results is non-nil. -/
theorem filter_process_message (c : Filter) (m : Broker.Message) :
    (c.condition m = true → (c.ProcessMessage m).1 = (some [m], none)) ∧
    (c.condition m = false →
      ∃ r, (c.ProcessMessage m).1 = (none, some r) ∧ r.Error = none) ∧
    ((c.ProcessMessage m).1.1 = none ↔ (c.ProcessMessage m).1.2 ≠ none) ∧
    ((c.ProcessMessage m).1.1 ≠ none ↔ (c.ProcessMessage m).1.2 = none) := by
  unfold Filter.ProcessMessage
  cases h : c.condition m <;> simp [NewSimpleResponse, Response.Error]

/-- C11 on a message that passes the filter: the same message comes back
alone, with no response. -/
theorem filter_process_message_witness :
    exFilter.condition Broker.exTs.Payload = true ∧
    (exFilter.ProcessMessage Broker.exTs.Payload).1 = (some [Broker.exTs.Payload], none) :=
  ⟨rfl, (filter_process_message exFilter Broker.exTs.Payload).1 rfl⟩

theorem position_in_bounds (n : Nat) (i : Int) (hlo : -(n : Int) ≤ i) (hhi : i < (n : Int)) :
    Compress.position n i
      = some (if 0 ≤ i then i.toNat else ((n : Int) + i).toNat) ∧
    (if 0 ≤ i then i.toNat else ((n : Int) + i).toNat) < n := by
  unfold Compress.position
  by_cases h : 0 ≤ i
  · have h1 : ¬ i < 0 := by omega
    simp only [h1, h, if_true, if_false]
    refine ⟨?_, by omega⟩
    simp [h, hhi]
  · have h1 : i < 0 := by omega
    simp only [h1, h, if_true, if_false]
    refine ⟨?_, by omega⟩
    have h2 : 0 ≤ (n : Int) + i := by omega
    have h3 : (n : Int) + i < (n : Int) := by omega
    simp [h2, h3]

/-- C15: for a message of `n >= 1` parts and a single configured index `i`
with `-n <= i < n`, the compress processor returns one message and a nil
response; the message has `n` parts; the part at position `i` when `i >= 0`
and at position `n + i` when `i < 0` is the encoding of the input part at that
position, and every other part is the input part. -/
theorem compress_index_bounds (c : Compress) (msg : Broker.Message) (i : Int)
    (hn : 1 ≤ msg.parts.length) (hlo : -(msg.parts.length : Int) ≤ i)
    (hhi : i < (msg.parts.length : Int)) (hparts : c.Parts = [i]) :
    ∃ newMsg pos part,
      c.ProcessMessage msg = (some [newMsg], none) ∧
      newMsg.parts.length = msg.parts.length ∧
      pos = (if 0 ≤ i then i.toNat else ((msg.parts.length : Int) + i).toNat) ∧
      pos < msg.parts.length ∧
      msg.parts[pos]? = some part ∧
      newMsg.parts[pos]? = some { part with data := c.comp part.data } ∧
      ∀ k, k ≠ pos → newMsg.parts[k]? = msg.parts[k]? := by
  obtain ⟨hpos, hlt⟩ := position_in_bounds msg.parts.length i hlo hhi
  generalize hp : (if 0 ≤ i then i.toNat else ((msg.parts.length : Int) + i).toNat) = pos
    at hpos hlt
  have hget : msg.parts[pos]? = some (msg.parts.get ⟨pos, hlt⟩) := by
    simp [List.getElem?_eq_getElem hlt]
  refine ⟨Broker.Message.mk (msg.parts.set pos
      (Broker.Part.mk (c.comp (msg.parts.get ⟨pos, hlt⟩).data)
        (msg.parts.get ⟨pos, hlt⟩).metadata)),
    pos, msg.parts.get ⟨pos, hlt⟩, ?_, ?_, rfl, hlt, hget, ?_, ?_⟩
  · have hne : ¬ msg.parts.length = 0 := by omega
    simp [Compress.ProcessMessage, hne, Compress.targets, hparts, Compress.apply, hpos, hget,
      Broker.Message.ShallowCopy]
  · simp
  · simp [List.getElem?_set, hlt]
  · intro k hk
    have : ¬ pos = k := fun h => hk h.symm
    simp [List.getElem?_set, this]

/-- C15 on the five parts of the test: the index -5 selects the first part,
and the indices -5 to 4 select the positions 0 to 4 and 0 to 4 again. -/
theorem compress_index_bounds_witness :
    (∃ newMsg pos part,
      Compress.ProcessMessage ⟨[-5], exComp⟩ exFiveParts = (some [newMsg], none) ∧
      newMsg.parts.length = exFiveParts.parts.length ∧
      pos = (if 0 ≤ (-5 : Int) then (-5 : Int).toNat
              else ((exFiveParts.parts.length : Int) + (-5)).toNat) ∧
      pos < exFiveParts.parts.length ∧
      exFiveParts.parts[pos]? = some part ∧
      newMsg.parts[pos]? = some { part with data := exComp part.data } ∧
      ∀ k, k ≠ pos → newMsg.parts[k]? = exFiveParts.parts[k]?) ∧
    List.map (Compress.position 5) [-5, -4, -3, -2, -1, 0, 1, 2, 3, 4]
      = [some 0, some 1, some 2, some 3, some 4, some 0, some 1, some 2, some 3, some 4] ∧
    List.map (fun i => (Compress.ProcessMessage ⟨[i], exComp⟩ exFiveParts).1.map
        (List.map (fun m => m.parts.map (fun p => p.data)))) [-5, -1, 0, 4]
      = [some [[[31, 0], [1], [2], [3], [4]]], some [[[0], [1], [2], [3], [31, 4]]],
         some [[[31, 0], [1], [2], [3], [4]]], some [[[0], [1], [2], [3], [31, 4]]]] :=
  ⟨compress_index_bounds ⟨[-5], exComp⟩ exFiveParts (-5) (by decide) (by decide) (by decide) rfl,
   by decide, by decide⟩

end Processor

end Benthos
